import Mathlib

/-!
# KLU compatibility layer of ngspice (`src/maths/KLU/klusmp.c`)

A shallow embedding of the KLU branch of the SMP interface.

* C arrays are lists; a pointer into an array is the index it points at.
* `double` values are rationals (exact arithmetic).
* Indices and counters are natural numbers: every index the routines compute is
  assumed to fit the machine type that holds it.
* The operations of the KLU library and of the C library are arguments of the
  routines that call them.
-/

namespace KluSmp

/-! ## Data model -/

/-- Modelled from the spec: the status codes of `klu.h`, which is not under
`src/`. The routines only compare `Matrix->CKTkluCommon->status` with
`KLU_SINGULAR` and `KLU_EMPTY_MATRIX`; `KLU_OTHER` stands for every other code. -/
inductive KluStatus where
  | KLU_OK
  | KLU_SINGULAR
  | KLU_EMPTY_MATRIX
  | KLU_OTHER
deriving DecidableEq, Repr

/-- Modelled from the spec: the constants `CKTkluMatrixReal` and
`CKTkluMatrixComplex` of `smpdefs.h`, which is not under `src/`;
`CKTkluMatrixOther` stands for every other value of the field. -/
inductive KluMatrixKind where
  | CKTkluMatrixReal
  | CKTkluMatrixComplex
  | CKTkluMatrixOther
deriving DecidableEq, Repr

/-- The arrays `klu_extract_Udiag` / `klu_z_extract_Udiag` fill in. -/
structure UdiagData where
  Ux : List ℚ := []
  Uz : List ℚ := []
  P : List Int := []
  Q : List Int := []
  Rs : List ℚ := []

/-- The KLU library, as far as the routines below call it. Each solver works in
place on the scratch vector it is handed. -/
structure KluBackend where
  klu_solve : List ℚ → List ℚ := id
  klu_z_solve : List ℚ → List ℚ := id
  klu_z_tsolve : List ℚ → List ℚ := id
  klu_extract_Udiag : UdiagData := {}
  klu_z_extract_Udiag : UdiagData := {}
  /-- `klu_analyze (n, Ap, Ai, Common)`: the symbolic handle (`none` for `NULL`)
  with the `status` and `singular_col` it leaves in `Common`. -/
  klu_analyze : Nat → List Nat → List Int → Option Nat × KluStatus × Int :=
    fun _ _ _ => (some 0, KluStatus.KLU_OK, -1)
  /-- `klu_factor (Ap, Ai, Ax, Symbolic, Common)`: the numeric handle (`none` for
  `NULL`) with the `status` and `singular_col` it leaves in `Common`. -/
  klu_factor : List Nat → List Int → List ℚ → Option Nat → Option Nat × KluStatus × Int :=
    fun _ _ _ _ => (some 0, KluStatus.KLU_OK, -1)
  klu_z_factor : List Nat → List Int → List ℚ → Option Nat → Option Nat × KluStatus × Int :=
    fun _ _ _ _ => (some 0, KluStatus.KLU_OK, -1)
  /-- `klu_refactor (Ap, Ai, Ax, Symbolic, Numeric, Common)`: the `int` returned
  with the `status` and `singular_col` it leaves in `Common`. -/
  klu_refactor :
      List Nat → List Int → List ℚ → Option Nat → Option Nat → Int × KluStatus × Int :=
    fun _ _ _ _ _ => (1, KluStatus.KLU_OK, -1)
  klu_z_refactor :
      List Nat → List Int → List ℚ → Option Nat → Option Nat → Int × KluStatus × Int :=
    fun _ _ _ _ _ => (1, KluStatus.KLU_OK, -1)

/-- The Sparse 1.3 library, as far as the routines below call it. -/
structure SparseBackend where
  spSolve : List ℚ → List ℚ := id
  spSolveComplex : List ℚ × List ℚ → List ℚ × List ℚ := id
  spSolveTransposed : List ℚ × List ℚ → List ℚ × List ℚ := id
  /-- `spFactor (SPmatrix)`: the error code returned. -/
  spFactor : Int := 0
  /-- `spOrderAndFactor (SPmatrix, NULL, PivRel, PivTol, YES)`: the error code returned. -/
  spOrderAndFactor : Int := 0
  /-- `spError (SPmatrix)`: the error code of the last operation on `SPmatrix`. -/
  spError : Int := 0
  /-- `spWhereSingular (SPmatrix, Row, Col)`: the row and the column it stores. -/
  spWhereSingular : Int × Int := (0, 0)
  /-- `spcFindElementInCol (Matrix, &Element, Row, Col, CreateIfMissing)` from
  `FirstInCol [Col]`: the element returned (`none` for `NULL`). -/
  spcFindElementInCol : Int → Int → Bool → Option Nat := fun _ _ _ => none
  /-- `spDeterminant (SPmatrix, &p, &re, &im)`: the exponent and the mantissa it stores. -/
  spDeterminant : Int × ℚ × ℚ := (0, 0, 0)

/-- `Element` of the working list of the conversion; `pointer` is the index in
`KLUmatrixValueComplexCOO` of the slot it points at. -/
structure Element where
  row : Nat
  col : Nat
  pointer : Nat
deriving DecidableEq, Repr, Inhabited

/-- `BindKluElementCOO`: `COO` is the index in `KLUmatrixValueComplexCOO`,
`CSC_Complex` the index in `KLUmatrixAxComplex`, of the slots pointed at. -/
structure BindKluElementCOO where
  COO : Nat
  CSC_Complex : Nat
deriving DecidableEq, Repr, Inhabited

/-- The fields of `KLUmatrix` that `klusmp.c` reads or writes in the routines
below; the declaration itself, in `smpdefs.h`, is not under `src/`. -/
structure KLUmatrix where
  KLUmatrixN : Nat := 0
  KLUmatrixNZ : Nat := 0
  KLUmatrixIsComplex : KluMatrixKind := KluMatrixKind.CKTkluMatrixReal
  KLUmatrixRowCOO : List Int := []
  KLUmatrixColCOO : List Int := []
  KLUmatrixValueComplexCOO : List ℚ := []
  KLUmatrixTrashCOO : List ℚ := []
  KLUmatrixAp : List Nat := []
  KLUmatrixAi : List Int := []
  KLUmatrixAxComplex : List ℚ := []
  KLUmatrixIntermediateComplex : List ℚ := []
  KLUmatrixBindStructCOO : List BindKluElementCOO := []
deriving Repr

/-- The fields of `SMPmatrix` (with those of its `SPmatrix` and `CKTkluCommon`)
that `klusmp.c` reads or writes in the routines below; the declaration itself,
in `smpdefs.h`, is not under `src/`. -/
structure SMPmatrix where
  CKTkluMODE : Bool := true
  CKTkluN : Nat := 0
  CKTklunz : Nat := 0
  CKTkluMatrixIsComplex : KluMatrixKind := KluMatrixKind.CKTkluMatrixReal
  status : KluStatus := KluStatus.KLU_OK
  CKTkluAx : List ℚ := []
  CKTdiag_CSC : List (Option Nat) := []
  CKTkluIntermediate : List ℚ := []
  CKTkluIntermediate_Complex : List ℚ := []
  IntToExtRowMap : List Nat := []
  IntToExtColMap : List Nat := []
  SMPkluMatrix : KLUmatrix := {}
  CKTkluAp : List Nat := []
  CKTkluAi : List Int := []
  CKTkluAx_Complex : List ℚ := []
  /-- `CKTkluSymbolic` and `CKTkluNumeric`: `none` for `NULL`, else a handle of the library. -/
  CKTkluSymbolic : Option Nat := none
  CKTkluNumeric : Option Nat := none
  /-- `CKTkluCommon->singular_col`. -/
  singular_col : Int := -1
  ExtToIntRowMap : List Int := []
  ExtToIntColMap : List Int := []

/-! ## Solve: gather, backend call, scatter -/

/-- The loop `for (i = CKTkluN - 1 ; i >= 0 ; i--) Intermediate [i] = RHS [*(pExtOrder--)]`
of `SMPsolve`. The first argument is `i + 1`, the second the index `pExtOrder`
points at in the map. -/
def solveGatherLoop (Map : List Nat) (RHS : List ℚ) : Nat → Nat → List ℚ → List ℚ
  | 0, _, Intermediate => Intermediate
  | i + 1, p, Intermediate =>
      solveGatherLoop Map RHS i (p - 1) (Intermediate.set i (RHS.getD (Map.getD p 0) 0))

/-- The loop `for (i = CKTkluN - 1 ; i >= 0 ; i--) RHS [*(pExtOrder--)] = Intermediate [i]`
of `SMPsolve`, with the same arguments as `solveGatherLoop`. -/
def solveScatterLoop (Map : List Nat) (Intermediate : List ℚ) : Nat → Nat → List ℚ → List ℚ
  | 0, _, RHS => RHS
  | i + 1, p, RHS =>
      solveScatterLoop Map Intermediate i (p - 1) (RHS.set (Map.getD p 0) (Intermediate.getD i 0))

/-- `SMPsolve`: returns the matrix (its scratch vector is overwritten) and `RHS`. -/
def SMPsolve (sp : SparseBackend) (klu : KluBackend) (Matrix : SMPmatrix) (RHS : List ℚ) :
    SMPmatrix × List ℚ :=
  if Matrix.CKTkluMODE then
    let Intermediate :=
      solveGatherLoop Matrix.IntToExtRowMap RHS Matrix.CKTkluN Matrix.CKTkluN
        Matrix.CKTkluIntermediate
    let Intermediate := klu.klu_solve Intermediate
    let RHS :=
      solveScatterLoop Matrix.IntToExtColMap Intermediate Matrix.CKTkluN Matrix.CKTkluN RHS
    ({ Matrix with CKTkluIntermediate := Intermediate }, RHS)
  else
    (Matrix, sp.spSolve RHS)

/-- The gather loop of `SMPcSolve` and `SMPcaSolve`:
`for (i = 2 * CKTkluN - 1 ; i > 0 ; i -= 2)
   { Intermediate_Complex [i] = iRHS [*(pExtOrder)] ;
     Intermediate_Complex [i - 1] = RHS [*(pExtOrder--)] ; }`.
The first argument is `i` (`0` stands for the non-positive values, on which the
loop exits), the second the index `pExtOrder` points at. -/
def csolveGatherLoop (Map : List Nat) (RHS iRHS : List ℚ) : Nat → Nat → List ℚ → List ℚ
  | 0, _, Intermediate => Intermediate
  | 1, p, Intermediate =>
      (Intermediate.set 1 (iRHS.getD (Map.getD p 0) 0)).set 0 (RHS.getD (Map.getD p 0) 0)
  | i + 2, p, Intermediate =>
      csolveGatherLoop Map RHS iRHS i (p - 1)
        ((Intermediate.set (i + 2) (iRHS.getD (Map.getD p 0) 0)).set (i + 1)
          (RHS.getD (Map.getD p 0) 0))

/-- The scatter loop of `SMPcSolve` and `SMPcaSolve`:
`for (i = 2 * CKTkluN - 1 ; i > 0 ; i -= 2)
   { iRHS [*(pExtOrder)] = Intermediate_Complex [i] ;
     RHS [*(pExtOrder--)] = Intermediate_Complex [i - 1] ; }`,
with the same arguments as `csolveGatherLoop`; returns `(RHS, iRHS)`. -/
def csolveScatterLoop (Map : List Nat) (Intermediate : List ℚ) :
    Nat → Nat → List ℚ × List ℚ → List ℚ × List ℚ
  | 0, _, R => R
  | 1, p, R =>
      (R.1.set (Map.getD p 0) (Intermediate.getD 0 0),
       R.2.set (Map.getD p 0) (Intermediate.getD 1 0))
  | i + 2, p, R =>
      csolveScatterLoop Map Intermediate i (p - 1)
        (R.1.set (Map.getD p 0) (Intermediate.getD (i + 1) 0),
         R.2.set (Map.getD p 0) (Intermediate.getD (i + 2) 0))

/-- `SMPcaSolve` (transposed complex solve): returns the matrix and `(RHS, iRHS)`. -/
def SMPcaSolve (sp : SparseBackend) (klu : KluBackend) (Matrix : SMPmatrix)
    (RHS iRHS : List ℚ) : SMPmatrix × List ℚ × List ℚ :=
  if Matrix.CKTkluMODE then
    let Intermediate :=
      csolveGatherLoop Matrix.IntToExtRowMap RHS iRHS (2 * Matrix.CKTkluN - 1) Matrix.CKTkluN
        Matrix.CKTkluIntermediate_Complex
    let Intermediate := klu.klu_z_tsolve Intermediate
    let R :=
      csolveScatterLoop Matrix.IntToExtColMap Intermediate (2 * Matrix.CKTkluN - 1)
        Matrix.CKTkluN (RHS, iRHS)
    ({ Matrix with CKTkluIntermediate_Complex := Intermediate }, R)
  else
    (Matrix, sp.spSolveTransposed (RHS, iRHS))

/-- `SMPcSolve` (complex solve): returns the matrix and `(RHS, iRHS)`. -/
def SMPcSolve (sp : SparseBackend) (klu : KluBackend) (Matrix : SMPmatrix)
    (RHS iRHS : List ℚ) : SMPmatrix × List ℚ × List ℚ :=
  if Matrix.CKTkluMODE then
    let Intermediate :=
      csolveGatherLoop Matrix.IntToExtRowMap RHS iRHS (2 * Matrix.CKTkluN - 1) Matrix.CKTkluN
        Matrix.CKTkluIntermediate_Complex
    let Intermediate := klu.klu_z_solve Intermediate
    let R :=
      csolveScatterLoop Matrix.IntToExtColMap Intermediate (2 * Matrix.CKTkluN - 1)
        Matrix.CKTkluN (RHS, iRHS)
    ({ Matrix with CKTkluIntermediate_Complex := Intermediate }, R)
  else
    (Matrix, sp.spSolveComplex (RHS, iRHS))

/-! ## Gmin loading -/

/-- `LoadGmin_CSC (diag, n, Gmin)`: `diag [i]` is `none` for `NULL`, else the
index of the slot it points at in the value array `mem`, which is returned. -/
def LoadGmin_CSC (diag : List (Option Nat)) (n : Int) (Gmin : ℚ) (mem : List ℚ) : List ℚ :=
  if Gmin ≠ 0 then
    (List.range n.toNat).foldl
      (fun mem i =>
        match diag.getD i none with
        | some p => mem.set p (mem.getD p 0 + Gmin)
        | none => mem)
      mem
  else
    mem

/-! ## Determinant -/

/-- Modelled from the spec: `ComplexNumber` of `spdefs.h`, which is not under
`src/`: a real and an imaginary part. -/
structure ComplexNumber where
  Real : ℚ
  Imag : ℚ
deriving DecidableEq, Repr

/-- Modelled from the spec: the macro `ABS` of `spdefs.h`, `((a) < 0 ? -(a) : (a))`. -/
def ABS (a : ℚ) : ℚ := if a < 0 then -a else a

/-- Modelled from the spec: the macro `MAX` of `spdefs.h`, `((a) > (b) ? (a) : (b))`. -/
def MAX (a b : ℚ) : ℚ := if a > b then a else b

/-- `NORM(a)`: `(nr = ABS((a).Real), ni = ABS((a).Imag), MAX (nr,ni))`. -/
def NORM (a : ComplexNumber) : ℚ := MAX (ABS a.Real) (ABS a.Imag)

/-- Modelled from the spec: the macro `CMPLX_RECIPROCAL (to, den)` of `spdefs.h`,
the complex reciprocal `to = 1 / den` in exact arithmetic. -/
def CMPLX_RECIPROCAL (den : ComplexNumber) : ComplexNumber :=
  ⟨den.Real / (den.Real * den.Real + den.Imag * den.Imag),
   -den.Imag / (den.Real * den.Real + den.Imag * den.Imag)⟩

/-- Modelled from the spec: the macro `CMPLX_MULT_ASSIGN (to, from)` of `spdefs.h`,
the complex product `to *= from`. -/
def CMPLX_MULT_ASSIGN (dst src : ComplexNumber) : ComplexNumber :=
  ⟨dst.Real * src.Real - dst.Imag * src.Imag, dst.Real * src.Imag + dst.Imag * src.Real⟩

/-- Modelled from the spec: the macro `CMPLX_NEGATE (a)` of `spdefs.h`, which
negates both components. -/
def CMPLX_NEGATE (a : ComplexNumber) : ComplexNumber := ⟨-a.Real, -a.Imag⟩

/-- The number of iterations allotted to a rescaling loop. -/
def floorNat (x : ℚ) : Nat := ⌊x⌋₊

/-- `while (Norm >= T) { c.Real *= F ; c.Imag *= F ; *pExponent += D ; Norm = NORM (c) ; }`,
run for at most `fuel` iterations: `none` when the loop has not exited by then. -/
def cScaleWhileGE (T F : ℚ) (D : Int) : Nat → ComplexNumber → Int → Option (ComplexNumber × Int)
  | 0, c, e => if NORM c ≥ T then none else some (c, e)
  | fuel + 1, c, e =>
      if NORM c ≥ T then cScaleWhileGE T F D fuel ⟨c.Real * F, c.Imag * F⟩ (e + D)
      else some (c, e)

/-- `while (Norm < T) { c.Real *= F ; c.Imag *= F ; *pExponent -= D ; Norm = NORM (c) ; }`,
run for at most `fuel` iterations: `none` when the loop has not exited by then. -/
def cScaleWhileLT (T F : ℚ) (D : Int) : Nat → ComplexNumber → Int → Option (ComplexNumber × Int)
  | 0, c, e => if NORM c < T then none else some (c, e)
  | fuel + 1, c, e =>
      if NORM c < T then cScaleWhileLT T F D fuel ⟨c.Real * F, c.Imag * F⟩ (e - D)
      else some (c, e)

/-- `while (ABS (*pDeterminant) >= T) { *pDeterminant *= F ; *pExponent += D ; }`,
run for at most `fuel` iterations: `none` when the loop has not exited by then. -/
def rScaleWhileGE (T F : ℚ) (D : Int) : Nat → ℚ → Int → Option (ℚ × Int)
  | 0, d, e => if ABS d ≥ T then none else some (d, e)
  | fuel + 1, d, e =>
      if ABS d ≥ T then rScaleWhileGE T F D fuel (d * F) (e + D) else some (d, e)

/-- `while (ABS (*pDeterminant) < T) { *pDeterminant *= F ; *pExponent -= D ; }`,
run for at most `fuel` iterations: `none` when the loop has not exited by then. -/
def rScaleWhileLT (T F : ℚ) (D : Int) : Nat → ℚ → Int → Option (ℚ × Int)
  | 0, d, e => if ABS d < T then none else some (d, e)
  | fuel + 1, d, e =>
      if ABS d < T then rScaleWhileLT T F D fuel (d * F) (e - D) else some (d, e)

/-- The per-entry rescaling of the complex case:
`Norm = NORM (cDeterminant) ; if (Norm != 0.0) { while (Norm >= 1.0e12) ... ; while (Norm < 1.0e-12) ... }`.
Each loop gets the fuel `floor Norm`, resp. `floor (1 / Norm)`, of the norm it
starts from. -/
def cScaleStep (c : ComplexNumber) (e : Int) : Option (ComplexNumber × Int) :=
  if NORM c ≠ 0 then
    match cScaleWhileGE (10 ^ 12) (1 / 10 ^ 12) 12 (floorNat (NORM c)) c e with
    | none => none
    | some r => cScaleWhileLT (1 / 10 ^ 12) (10 ^ 12) 12 (floorNat (1 / NORM r.1)) r.1 r.2
  else
    some (c, e)

/-- The final rescaling of the complex case:
`Norm = NORM (cDeterminant) ; if (Norm != 0.0) { while (Norm >= 10.0) ... ; while (Norm < 1.0) ... }`. -/
def cScaleFinal (c : ComplexNumber) (e : Int) : Option (ComplexNumber × Int) :=
  if NORM c ≠ 0 then
    match cScaleWhileGE 10 (1 / 10) 1 (floorNat (NORM c)) c e with
    | none => none
    | some r => cScaleWhileLT 1 10 1 (floorNat (1 / NORM r.1)) r.1 r.2
  else
    some (c, e)

/-- The per-entry rescaling of the real case:
`if (*pDeterminant != 0.0) { while (ABS(*pDeterminant) >= 1.0e12) ... ; while (ABS(*pDeterminant) < 1.0e-12) ... }`. -/
def rScaleStep (d : ℚ) (e : Int) : Option (ℚ × Int) :=
  if d ≠ 0 then
    match rScaleWhileGE (10 ^ 12) (1 / 10 ^ 12) 12 (floorNat (ABS d)) d e with
    | none => none
    | some r => rScaleWhileLT (1 / 10 ^ 12) (10 ^ 12) 12 (floorNat (1 / ABS r.1)) r.1 r.2
  else
    some (d, e)

/-- The final rescaling of the real case:
`if (*pDeterminant != 0.0) { while (ABS(*pDeterminant) >= 10.0) ... ; while (ABS(*pDeterminant) < 1.0) ... }`. -/
def rScaleFinal (d : ℚ) (e : Int) : Option (ℚ × Int) :=
  if d ≠ 0 then
    match rScaleWhileGE 10 (1 / 10) 1 (floorNat (ABS d)) d e with
    | none => none
    | some r => rScaleWhileLT 1 10 1 (floorNat (1 / ABS r.1)) r.1 r.2
  else
    some (d, e)

/-- `for (I = 0 ; I < CKTkluN ; I++) { if (P [I] != I) { nSwapP++ ; } }` from
`nSwapP = 0`: the count, and the value of `I` on exit. -/
def countMismatch (P : List Int) (CKTkluN : Nat) : Nat × Nat :=
  ((List.range CKTkluN).foldl (fun n I => if P.getD I 0 ≠ (I : Int) then n + 1 else n) 0,
   CKTkluN)

/-- The loop `while (I < Size) { ... I++ ; }` of the complex case. The first
argument is the number `Size - I` of iterations left, the second is `I`. -/
def cDeterminantLoop (Ux Uz Rs : List ℚ) :
    Nat → Nat → ComplexNumber → Int → Option (ComplexNumber × Int)
  | 0, _, cDeterminant, pExponent => some (cDeterminant, pExponent)
  | k + 1, I, cDeterminant, pExponent =>
      let Udiag : ComplexNumber := ⟨1 / (Ux.getD I 0 * Rs.getD I 0), Uz.getD I 0 * Rs.getD I 0⟩
      let Pivot := CMPLX_RECIPROCAL Udiag
      let cDeterminant := CMPLX_MULT_ASSIGN cDeterminant Pivot
      match cScaleStep cDeterminant pExponent with
      | none => none
      | some r => cDeterminantLoop Ux Uz Rs k (I + 1) r.1 r.2

/-- The loop `while (I < Size) { ... I++ ; }` of the real case. The first
argument is the number `Size - I` of iterations left, the second is `I`. -/
def rDeterminantLoop (Ux Rs : List ℚ) : Nat → Nat → ℚ → Int → Option (ℚ × Int)
  | 0, _, pDeterminant, pExponent => some (pDeterminant, pExponent)
  | k + 1, I, pDeterminant, pExponent =>
      let pDeterminant := pDeterminant / (Ux.getD I 0 * Rs.getD I 0)
      match rScaleStep pDeterminant pExponent with
      | none => none
      | some r => rDeterminantLoop Ux Rs k (I + 1) r.1 r.2

/-- A call of the KLU library made by `spDeterminant_KLU`. -/
inductive BackendCall where
  | klu_extract_Udiag
  | klu_z_extract_Udiag
deriving DecidableEq, Repr

/-- What `spDeterminant_KLU` leaves behind: the three output cells and the calls
of the KLU library it made, in order. -/
structure DetOut where
  pExponent : Int
  pDeterminant : ℚ
  piDeterminant : ℚ
  calls : List BackendCall
deriving DecidableEq, Repr

/-- `spDeterminant_KLU (Matrix, pExponent, pDeterminant, piDeterminant)`. The
argument `piDeterminant` is the content of that cell on entry (the real case
does not write it). The result is `none` when a rescaling loop does not exit. -/
def spDeterminant_KLU (klu : KluBackend) (Matrix : SMPmatrix) (piDeterminant : ℚ) :
    Option DetOut :=
  let pExponent : Int := 0
  if Matrix.status = KluStatus.KLU_SINGULAR then
    some
      { pExponent := pExponent
        pDeterminant := 0
        piDeterminant :=
          if Matrix.CKTkluMatrixIsComplex = KluMatrixKind.CKTkluMatrixComplex then 0
          else piDeterminant
        calls := [] }
  else
    let Size := Matrix.CKTkluN
    if Matrix.CKTkluMatrixIsComplex = KluMatrixKind.CKTkluMatrixComplex then
      let cDeterminant : ComplexNumber := ⟨1, 0⟩
      let U := klu.klu_z_extract_Udiag
      let nSwapP := (countMismatch U.P Matrix.CKTkluN).1 / 2
      let nSwapQ := (countMismatch U.Q Matrix.CKTkluN).1 / 2
      let nSwap := nSwapP + nSwapQ
      -- `I = 0 ;` precedes the loop over the diagonal
      let I := 0
      match cDeterminantLoop U.Ux U.Uz U.Rs (Size - I) I cDeterminant pExponent with
      | none => none
      | some r =>
        match cScaleFinal r.1 r.2 with
        | none => none
        | some r =>
          let cDeterminant := if nSwap % 2 ≠ 0 then CMPLX_NEGATE r.1 else r.1
          some
            { pExponent := r.2
              pDeterminant := cDeterminant.Real
              piDeterminant := cDeterminant.Imag
              calls := [BackendCall.klu_z_extract_Udiag] }
    else
      let pDeterminant : ℚ := 1
      let U := klu.klu_extract_Udiag
      let nSwapP := (countMismatch U.P Matrix.CKTkluN).1 / 2
      let nSwapQ := (countMismatch U.Q Matrix.CKTkluN).1 / 2
      -- no assignment to `I` precedes the loop over the diagonal: `I` has the
      -- value the loop over `Q` left
      let I := (countMismatch U.Q Matrix.CKTkluN).2
      let nSwap := nSwapP + nSwapQ
      match rDeterminantLoop U.Ux U.Rs (Size - I) I pDeterminant pExponent with
      | none => none
      | some r =>
        match rScaleFinal r.1 r.2 with
        | none => none
        | some r =>
          some
            { pExponent := r.2
              pDeterminant := if nSwap % 2 ≠ 0 then -r.1 else r.1
              piDeterminant := piDeterminant
              calls := [BackendCall.klu_extract_Udiag] }

/-- The swap count `nSwap = nSwapP + nSwapQ` of `spDeterminant_KLU`, after
`nSwapP /= 2` and `nSwapQ /= 2`. -/
def nSwap (P Q : List Int) (CKTkluN : Nat) : Nat :=
  (countMismatch P CKTkluN).1 / 2 + (countMismatch Q CKTkluN).1 / 2

/-! ## COO to CSC conversion (CIDER) -/

/-- The C library's `qsort (base, nmemb, size, compar)` on an array of `α`. -/
abbrev QsortFn := (α : Type) → (α → α → Int) → List α → List α

/-- What the C standard promises of `qsort`: the array is rearranged (a
permutation of its elements) into ascending order of a comparison function that
orders the elements consistently. The order of elements that compare equal is
unspecified. -/
structure QsortSpec (qsort : QsortFn) : Prop where
  perm : ∀ (α : Type) (compar : α → α → Int) (l : List α), (qsort α compar l).Perm l
  sorted : ∀ (α : Type) (compar : α → α → Int) (l : List α),
    (∀ a b, compar a b ≤ 0 ∨ compar b a ≤ 0) →
    (∀ a b c, compar a b ≤ 0 → compar b c ≤ 0 → compar a c ≤ 0) →
    (qsort α compar l).Pairwise (fun a b => compar a b ≤ 0)

/-- An instance of `qsort`: insertion sort. -/
def insertionQsort : QsortFn := fun _ compar l => l.insertionSort (fun a b => compar a b ≤ 0)

/-- `malloc`: a fresh array of `n` cells. C leaves its content unspecified; the
routines below write every cell before it is read. -/
def malloc {α : Type} [Inhabited α] (n : Nat) : List α := List.replicate n default

/-- `CompareRow`. -/
def CompareRow (A B : Element) : Int :=
  if A.row > B.row then 1 else if A.row < B.row then -1 else 0

/-- `CompareColumn`. -/
def CompareColumn (A B : Element) : Int :=
  if A.col > B.col then 1 else if A.col < B.col then -1 else 0

/-- `BindKluCompareCOO`. -/
def BindKluCompareCOO (A B : BindKluElementCOO) : Int :=
  if A.COO > B.COO then 1 else if A.COO < B.COO then -1 else 0

/-- `BindKluCompareCSC`. -/
def BindKluCompareCSC (A B : BindKluElementCOO) : Int :=
  if A.CSC_Complex > B.CSC_Complex then 1 else if A.CSC_Complex < B.CSC_Complex then -1 else 0

/-- The loop `for ( ; j <= hi ; j++) Bp [j] = v ;` of `Compress`. The first
argument is the number `hi + 1 - j` of iterations, and the result is `Bp` with
the value of `j` on exit; `none` when a write falls outside `Bp`. -/
def fillLoop (v : Nat) : Nat → Nat → List Nat → Option (List Nat × Nat)
  | 0, j, Bp => some (Bp, j)
  | k + 1, j, Bp => if j < Bp.length then fillLoop v k (j + 1) (Bp.set j v) else none

/-- The loop `for (i = 1 ; i < nz ; i++) { ... }` of `Compress`. The first
argument is the number `nz - i` of iterations; the result is `Bp` with the
values of `j` and `i` on exit; `none` when an access falls outside an array. -/
def compressLoop (Ai : List Nat) : Nat → Nat → Nat → List Nat → Option (List Nat × Nat × Nat)
  | 0, i, j, Bp => some (Bp, j, i)
  | k + 1, i, j, Bp =>
      match Ai[i]?, Ai[i - 1]? with
      | some a, some b =>
          if a = b + 1 then
            if j < Bp.length then compressLoop Ai k (i + 1) (j + 1) (Bp.set j i) else none
          else if a > b + 1 then
            match fillLoop i (a + 1 - j) j Bp with
            | none => none
            | some r => compressLoop Ai k (i + 1) r.2 r.1
          else compressLoop Ai k (i + 1) j Bp
      | _, _ => none

/-- `Compress (Ai, Bp, n, nz)`: `Ai` holds the `nz` column indices, `Bp` is the
array of `n + 1` cells to fill and is returned; `none` when an access falls
outside an array. -/
def Compress (Ai Bp : List Nat) (n nz : Nat) : Option (List Nat) :=
  match Ai[0]? with
  | none => none
  | some a0 =>
      match fillLoop 0 (a0 + 1 - 0) 0 Bp with
      | none => none
      | some r =>
          match compressLoop Ai (nz - 1) 1 (a0 + 1) r.1 with
          | none => none
          | some r =>
              match fillLoop r.2.2 (n + 1 - r.2.1) r.2.1 r.1 with
              | none => none
              | some r => some r.1

/-- The loop `for (j = i + 1 ; j < nz ; j++) { if (MatrixCOO [j].col != MatrixCOO [i].col) break ; }`.
The first argument is the number `nz - j` of iterations left; the result is `j`
on exit. -/
def nextColumn (MatrixCOO : List Element) (nz i : Nat) : Nat → Nat → Nat
  | 0, j => j
  | k + 1, j =>
      if j < nz then
        if (MatrixCOO.getD j default).col ≠ (MatrixCOO.getD i default).col then j
        else nextColumn MatrixCOO nz i k (j + 1)
      else j

/-- The loop `while (i < nz) { ... qsort (MatrixCOO + i, j - i, sizeof(Element), CompareRow) ; i = j ; }`,
run for at most `fuel` iterations: `none` when it has not exited by then. -/
def rowSortLoop (qsort : QsortFn) (nz : Nat) : Nat → List Element → Nat → Option (List Element)
  | 0, MatrixCOO, i => if i < nz then none else some MatrixCOO
  | fuel + 1, MatrixCOO, i =>
      if i < nz then
        let j := nextColumn MatrixCOO nz i (nz - (i + 1)) (i + 1)
        rowSortLoop qsort nz fuel
          (MatrixCOO.take i ++ qsort Element CompareRow ((MatrixCOO.drop i).take (j - i))
            ++ MatrixCOO.drop j) j
      else some MatrixCOO

/-- The test `(KLUmatrixRowCOO [i] != -1) && (KLUmatrixColCOO [i] != -1)`. -/
def cooSet (K : KLUmatrix) (i : Nat) : Bool :=
  decide (K.KLUmatrixRowCOO.getD i 0 ≠ -1) && decide (K.KLUmatrixColCOO.getD i 0 ≠ -1)

/-- `SMPconvertCOOtoCSCKLUforCIDER`; `none` when an access falls outside an
array or a loop does not exit. -/
def SMPconvertCOOtoCSCKLUforCIDER (qsort : QsortFn) (Matrix : SMPmatrix) : Option SMPmatrix :=
  let K := Matrix.SMPkluMatrix
  let N := K.KLUmatrixN
  let nz := (List.range (N * N)).countP (cooSet K)
  let MatrixCOO : List Element :=
    ((List.range (N * N)).filter (cooSet K)).map fun i =>
      ⟨(K.KLUmatrixRowCOO.getD i 0).toNat, (K.KLUmatrixColCOO.getD i 0).toNat, 2 * i⟩
  let MatrixCOO := qsort Element CompareColumn MatrixCOO
  match rowSortLoop qsort nz nz MatrixCOO 0 with
  | none => none
  | some MatrixCOO =>
      let Ap_COO := (List.range nz).map fun i => (MatrixCOO.getD i default).col
      let Ai := (List.range nz).map fun i => (((MatrixCOO.getD i default).row : Nat) : Int)
      let Bind : List BindKluElementCOO :=
        (List.range nz).map fun i => ⟨(MatrixCOO.getD i default).pointer, 2 * i⟩
      match Compress Ap_COO (malloc (N + 1)) N nz with
      | none => none
      | some Ap =>
          some
            { Matrix with
              SMPkluMatrix :=
                { K with
                  KLUmatrixNZ := nz
                  KLUmatrixAp := Ap
                  KLUmatrixAi := Ai
                  KLUmatrixBindStructCOO := qsort BindKluElementCOO BindKluCompareCOO Bind
                  KLUmatrixAxComplex := malloc (2 * nz)
                  KLUmatrixIntermediateComplex := malloc (2 * N) } }

/-- What `SMPmakeEltKLUforCIDER` returns: the address of a slot of
`KLUmatrixValueComplexCOO` (by its index), the trash slot, or the element
`spGetElement` hands out. -/
inductive ElementHandle where
  | ValueComplexCOO (index : Nat)
  | TrashCOO
  | spGetElement (Row Col : Int)
deriving DecidableEq, Repr

/-- `SMPmakeEltKLUforCIDER (Matrix, Row, Col)`. -/
def SMPmakeEltKLUforCIDER (Matrix : SMPmatrix) (Row Col : Int) : SMPmatrix × ElementHandle :=
  if Matrix.CKTkluMODE then
    if Row > 0 ∧ Col > 0 then
      let Row := Row - 1
      let Col := Col - 1
      let K := Matrix.SMPkluMatrix
      let index := (Row * (K.KLUmatrixN : Int) + Col).toNat
      ({ Matrix with
          SMPkluMatrix :=
            { K with
              KLUmatrixRowCOO := K.KLUmatrixRowCOO.set index Row
              KLUmatrixColCOO := K.KLUmatrixColCOO.set index Col } },
        ElementHandle.ValueComplexCOO (2 * index))
    else
      (Matrix, ElementHandle.TrashCOO)
  else
    (Matrix, ElementHandle.spGetElement Row Col)

/-- `SMPnewMatrixKLUforCIDER (Matrix, size, KLUmatrixIsComplex)` in KLU mode
(the other branch only calls `spCreate`). -/
def SMPnewMatrixKLUforCIDER (Matrix : SMPmatrix) (size : Nat) (KLUmatrixIsComplex : Nat) :
    SMPmatrix :=
  if Matrix.CKTkluMODE then
    { Matrix with
      SMPkluMatrix :=
        { KLUmatrixN := size
          KLUmatrixNZ := 0
          KLUmatrixIsComplex :=
            if KLUmatrixIsComplex ≠ 0 then KluMatrixKind.CKTkluMatrixComplex
            else KluMatrixKind.CKTkluMatrixReal
          KLUmatrixRowCOO := List.replicate (size * size) (-1)
          KLUmatrixColCOO := List.replicate (size * size) (-1)
          KLUmatrixValueComplexCOO := malloc (2 * size * size)
          KLUmatrixTrashCOO := malloc 1
          KLUmatrixAp := []
          KLUmatrixAi := []
          KLUmatrixAxComplex := []
          KLUmatrixIntermediateComplex := []
          KLUmatrixBindStructCOO := [] } }
  else
    Matrix

/-- The matrix after `SMPnewMatrixKLUforCIDER (N)` and one call of
`SMPmakeEltKLUforCIDER` for each coordinate of `coords`, in order. -/
def declare (N : Nat) (coords : List (Nat × Nat)) : SMPmatrix :=
  coords.foldl (fun M rc => (SMPmakeEltKLUforCIDER M rc.1 rc.2).1)
    (SMPnewMatrixKLUforCIDER {} N 0)

/-- The order of the compressed-column form: by column, and by row within a
column, strictly. -/
def cscOrder (a b : Element) : Prop := a.col < b.col ∨ (a.col = b.col ∧ a.row < b.row)

/-- The cell of the COO tables that belongs to the coordinate `rc = (Row, Col)`,
counted from 1. -/
def cellOf (N : Nat) (rc : Nat × Nat) : Nat := (rc.1 - 1) * N + (rc.2 - 1)

/-- The coordinates a matrix of dimension `N` admits. -/
def validCoord (N : Nat) (rc : Nat × Nat) : Prop :=
  1 ≤ rc.1 ∧ rc.1 ≤ N ∧ 1 ≤ rc.2 ∧ rc.2 ≤ N

/-- The COO tables of `Matrix` hold `(i / N, i % N)` in the cells `i` of `D` and
`(-1, -1)` in the others. -/
def cooTables (N : Nat) (Matrix : SMPmatrix) (D : Nat → Prop) : Prop :=
  Matrix.CKTkluMODE = true ∧ Matrix.SMPkluMatrix.KLUmatrixN = N ∧
  Matrix.SMPkluMatrix.KLUmatrixRowCOO.length = N * N ∧
  Matrix.SMPkluMatrix.KLUmatrixColCOO.length = N * N ∧
  ∀ i, i < N * N →
    (D i → Matrix.SMPkluMatrix.KLUmatrixRowCOO.getD i 0 = ((i / N : Nat) : Int) ∧
      Matrix.SMPkluMatrix.KLUmatrixColCOO.getD i 0 = ((i % N : Nat) : Int)) ∧
    (¬ D i → Matrix.SMPkluMatrix.KLUmatrixRowCOO.getD i 0 = -1 ∧
      Matrix.SMPkluMatrix.KLUmatrixColCOO.getD i 0 = -1)

/-- The element built for the cell `i` of the COO tables. -/
def cellElement (N i : Nat) : Element := ⟨i / N, i % N, 2 * i⟩

/-! ## Clearing the values -/

/-- `for (i = 0 ; i < n ; i++) a [i] = 0 ;` -/
def zeroLoop (n : Nat) (a : List ℚ) : List ℚ :=
  (List.range n).foldl (fun a i => a.set i 0) a

/-- `SMPclear (Matrix)`. The call `spClear (Matrix->SPmatrix)` works on the
element store of `SPmatrix`, which is no part of this state. An array that is
`NULL` is the list without cells, in which the loop writes nothing. -/
def SMPclear (Matrix : SMPmatrix) : SMPmatrix :=
  if Matrix.CKTkluMODE then
    { Matrix with CKTkluAx := zeroLoop Matrix.CKTklunz Matrix.CKTkluAx }
  else
    Matrix

/-- `SMPcClear (Matrix)`, with the same conventions as `SMPclear`. -/
def SMPcClear (Matrix : SMPmatrix) : SMPmatrix :=
  if Matrix.CKTkluMODE then
    { Matrix with CKTkluAx_Complex := zeroLoop (2 * Matrix.CKTklunz) Matrix.CKTkluAx_Complex }
  else
    Matrix

/-- `SMPclearKLUforCIDER (Matrix)`. -/
def SMPclearKLUforCIDER (Matrix : SMPmatrix) : SMPmatrix :=
  { Matrix with
    SMPkluMatrix :=
      { Matrix.SMPkluMatrix with
        KLUmatrixAxComplex :=
          zeroLoop (2 * Matrix.SMPkluMatrix.KLUmatrixNZ) Matrix.SMPkluMatrix.KLUmatrixAxComplex } }

/-! ## Ordering and factorization -/

/-- The statement `LoadGmin_CSC (Matrix->CKTdiag_CSC, Matrix->CKTkluN, Gmin) ;`
of `SMPluFac` and `SMPreorder`: the diagonal pointers point into `CKTkluAx`. -/
def callLoadGmin_CSC (Matrix : SMPmatrix) (Gmin : ℚ) : SMPmatrix :=
  { Matrix with
    CKTkluAx := LoadGmin_CSC Matrix.CKTdiag_CSC (Matrix.CKTkluN : Int) Gmin Matrix.CKTkluAx }

/-- The operator `!` of C on an `int`. -/
def lnot (ret : Int) : Int := if ret = 0 then 1 else 0

/-- `SMPcLUfac (Matrix, PivTol)`: the state left and the `int` returned.
`spSetComplex` sets a flag of `SPmatrix` that is no part of this state. -/
def SMPcLUfac (klu : KluBackend) (sp : SparseBackend) (Matrix : SMPmatrix) (_PivTol : ℚ) :
    SMPmatrix × Int :=
  if Matrix.CKTkluMODE then
    let r := klu.klu_z_refactor Matrix.CKTkluAp Matrix.CKTkluAi Matrix.CKTkluAx_Complex
      Matrix.CKTkluSymbolic Matrix.CKTkluNumeric
    let ret := r.1
    let Matrix := { Matrix with status := r.2.1, singular_col := r.2.2 }
    if Matrix.status = KluStatus.KLU_EMPTY_MATRIX then
      (Matrix, 0)
    else
      (Matrix, lnot ret)
  else
    (Matrix, sp.spFactor)

/-- `SMPluFac (Matrix, PivTol, Gmin)`: the state left and the `int` returned.
`spSetReal` sets a flag of `SPmatrix`, and `LoadGmin` of the other branch works
on its element store; neither is part of this state. -/
def SMPluFac (klu : KluBackend) (sp : SparseBackend) (Matrix : SMPmatrix) (_PivTol : ℚ)
    (Gmin : ℚ) : SMPmatrix × Int :=
  if Matrix.CKTkluMODE then
    let Matrix := callLoadGmin_CSC Matrix Gmin
    let r := klu.klu_refactor Matrix.CKTkluAp Matrix.CKTkluAi Matrix.CKTkluAx
      Matrix.CKTkluSymbolic Matrix.CKTkluNumeric
    let ret := r.1
    let Matrix := { Matrix with status := r.2.1, singular_col := r.2.2 }
    if Matrix.status = KluStatus.KLU_EMPTY_MATRIX then
      (Matrix, 0)
    else
      (Matrix, lnot ret)
  else
    (Matrix, sp.spFactor)

/-- `SMPcReorder (Matrix, PivTol, PivRel, NumSwaps)`: the state left, the `int`
returned and the value stored in `*NumSwaps`. `klu_z_free_numeric` leaves `NULL`
in `CKTkluNumeric`, which the result of `klu_z_factor` then replaces. -/
def SMPcReorder (klu : KluBackend) (sp : SparseBackend) (Matrix : SMPmatrix)
    (_PivTol _PivRel : ℚ) : SMPmatrix × Int × Int :=
  if Matrix.CKTkluMODE then
    let NumSwaps : Int := 1
    let r :=
      if Matrix.CKTkluNumeric ≠ none then
        klu.klu_z_factor Matrix.CKTkluAp Matrix.CKTkluAi Matrix.CKTkluAx_Complex
          Matrix.CKTkluSymbolic
      else
        klu.klu_z_factor Matrix.CKTkluAp Matrix.CKTkluAi Matrix.CKTkluAx_Complex
          Matrix.CKTkluSymbolic
    let Matrix := { Matrix with CKTkluNumeric := r.1, status := r.2.1, singular_col := r.2.2 }
    if Matrix.CKTkluNumeric = none then
      if Matrix.status = KluStatus.KLU_EMPTY_MATRIX then
        (Matrix, 0, NumSwaps)
      else
        (Matrix, 1, NumSwaps)
    else
      (Matrix, 0, NumSwaps)
  else
    (Matrix, sp.spOrderAndFactor, 1)

/-- `SMPreorder (Matrix, PivTol, PivRel, Gmin)`: the state left and the `int`
returned. -/
def SMPreorder (klu : KluBackend) (sp : SparseBackend) (Matrix : SMPmatrix)
    (_PivTol _PivRel : ℚ) (Gmin : ℚ) : SMPmatrix × Int :=
  if Matrix.CKTkluMODE then
    let Matrix := callLoadGmin_CSC Matrix Gmin
    let r :=
      if Matrix.CKTkluNumeric ≠ none then
        klu.klu_factor Matrix.CKTkluAp Matrix.CKTkluAi Matrix.CKTkluAx Matrix.CKTkluSymbolic
      else
        klu.klu_factor Matrix.CKTkluAp Matrix.CKTkluAi Matrix.CKTkluAx Matrix.CKTkluSymbolic
    let Matrix := { Matrix with CKTkluNumeric := r.1, status := r.2.1, singular_col := r.2.2 }
    if Matrix.CKTkluNumeric = none then
      if Matrix.status = KluStatus.KLU_EMPTY_MATRIX then
        (Matrix, 0)
      else
        (Matrix, 1)
    else
      (Matrix, 0)
  else
    (Matrix, sp.spOrderAndFactor)

/-- `SMPpreOrder (Matrix)`: the state left and the `int` returned. -/
def SMPpreOrder (klu : KluBackend) (sp : SparseBackend) (Matrix : SMPmatrix) :
    SMPmatrix × Int :=
  if Matrix.CKTkluMODE then
    let r := klu.klu_analyze Matrix.CKTkluN Matrix.CKTkluAp Matrix.CKTkluAi
    let Matrix := { Matrix with CKTkluSymbolic := r.1, status := r.2.1, singular_col := r.2.2 }
    if Matrix.CKTkluSymbolic = none then
      if Matrix.status = KluStatus.KLU_EMPTY_MATRIX then
        (Matrix, 0)
      else
        (Matrix, 1)
    else
      (Matrix, 0)
  else
    (Matrix, sp.spError)

/-! ## Where the matrix is singular -/

/-- `SMPgetError (Matrix, Col, Row)`: the values stored in `*Row` and in `*Col`,
in this order; `none` when `singular_col + 1` is no index of a map. -/
def SMPgetError (sp : SparseBackend) (Matrix : SMPmatrix) : Option (Int × Int) :=
  if Matrix.CKTkluMODE then
    let k := Matrix.singular_col + 1
    if 0 ≤ k then
      match Matrix.IntToExtRowMap.get? k.toNat, Matrix.IntToExtColMap.get? k.toNat with
      | some Row, some Col => some ((Row : Int), (Col : Int))
      | _, _ => none
    else
      none
  else
    some sp.spWhereSingular

/-! ## Finding an element -/

/-- What a `SMPelement *` points at: a slot of `CKTkluAx`, a slot of
`CKTkluAx_Complex`, or an element of the Sparse matrix. -/
inductive SMPelement
  | CKTkluAx (i : Nat)
  | CKTkluAx_Complex (i : Nat)
  | Element (e : Nat)
deriving DecidableEq, Repr

/-- `for (i = ... ; i < ... ; i++) if (CKTkluAi [i] == Row) ...` of `SMPfindElt`,
with the number of iterations left and the counter `i`: the first `i` at which
the test holds. -/
def findEltLoop (CKTkluAi : List Int) (Row : Int) : Nat → Nat → Option Nat
  | 0, _ => none
  | k + 1, i =>
    if CKTkluAi.getD i 0 = Row then some i else findEltLoop CKTkluAi Row k (i + 1)

/-- `SMPfindElt (eMatrix, Row, Col, CreateIfMissing)`; `none` is `NULL`. -/
def SMPfindElt (sp : SparseBackend) (eMatrix : SMPmatrix) (Row Col : Nat)
    (CreateIfMissing : Bool) : Option SMPelement :=
  if eMatrix.CKTkluMODE then
    let Row := eMatrix.ExtToIntRowMap.getD Row 0
    let Col := eMatrix.ExtToIntColMap.getD Col 0
    let Row := Row - 1
    let Col := Col - 1
    if Row < 0 ∨ Col < 0 then
      none
    else
      match findEltLoop eMatrix.CKTkluAi Row
          (eMatrix.CKTkluAp.getD (Col.toNat + 1) 0 - eMatrix.CKTkluAp.getD Col.toNat 0)
          (eMatrix.CKTkluAp.getD Col.toNat 0) with
      | some i =>
        if eMatrix.CKTkluMatrixIsComplex = KluMatrixKind.CKTkluMatrixReal then
          some (SMPelement.CKTkluAx i)
        else if eMatrix.CKTkluMatrixIsComplex = KluMatrixKind.CKTkluMatrixComplex then
          some (SMPelement.CKTkluAx_Complex (2 * i))
        else
          none
      | none => none
  else
    let Row := eMatrix.ExtToIntRowMap.getD Row 0
    let Col := eMatrix.ExtToIntColMap.getD Col 0
    (sp.spcFindElementInCol Row Col CreateIfMissing).map SMPelement.Element

/-! ## Determinant in base 2 -/

/-- `x = (int) y` for `y = p * M_LN10 / M_LN2`, in exact arithmetic: the integer
part, towards zero, of `p * log₂ 10`, which is `⌊log₂ (10 ^ p)⌋` for `0 ≤ p` and
`- ⌊log₂ (10 ^ (- p))⌋` for `p < 0`. -/
def intPartLog2 (p : Int) : Int :=
  if 0 ≤ p then (Nat.log 2 (10 ^ p.toNat) : Int) else -(Nat.log 2 (10 ^ (-p).toNat) : Int)

/-- `z = pow (2.0, y)` for the fraction `y = p * log₂ 10 - x` left by `y -= x`,
in exact arithmetic: `2 ^ y = 10 ^ p / 2 ^ x`. -/
def pow2Fraction (p x : Int) : ℚ := (10 : ℚ) ^ p / (2 : ℚ) ^ x

/-- `logb (a)` of the C library for `a ≠ 0`: `⌊log₂ |a|⌋`. -/
def logb (a : ℚ) : Int := Int.log 2 |a|

/-- `scalbn (a, n)` of the C library: `a * 2 ^ n`. -/
def scalbn (a : ℚ) (n : Int) : ℚ := a * (2 : ℚ) ^ n

/-- The part of `SMPcDProd` after the call of the determinant routine: from the
exponent `p` and the mantissa `re`, `im` in base 10 to `*pMantissa` and
`*pExponent`. -/
def SMPcDProd_base2 (p : Int) (re im : ℚ) : ComplexNumber × Int :=
  let x := intPartLog2 p
  let z := pow2Fraction p x
  let re := re * z
  let im := im * z
  let yz : Int × Int :=
    if re ≠ 0 then
      (logb re, if im ≠ 0 then logb im else 0)
    else if im ≠ 0 then
      (0, logb im)
    else
      (0, 0)
  let y := if yz.1 < yz.2 then yz.2 else yz.1
  (⟨scalbn re (-y), scalbn im (-y)⟩, x + y)

/-- What `SMPcDProd` leaves: `*pMantissa`, `*pExponent` and the `int` returned. -/
structure DProdOut where
  pMantissa : ComplexNumber
  pExponent : Int
  ret : Int
deriving DecidableEq, Repr

/-- `SMPcDProd (Matrix, pMantissa, pExponent)`. The argument `im` is the content
of the local `im` on entry, which no assignment precedes. The result is `none`
when the determinant routine gives none. -/
def SMPcDProd (klu : KluBackend) (sp : SparseBackend) (Matrix : SMPmatrix) (im : ℚ) :
    Option DProdOut :=
  if Matrix.CKTkluMODE then
    match spDeterminant_KLU klu Matrix im with
    | none => none
    | some d =>
      let r := SMPcDProd_base2 d.pExponent d.pDeterminant d.piDeterminant
      some { pMantissa := r.1, pExponent := r.2, ret := 0 }
  else
    let d := sp.spDeterminant
    let r := SMPcDProd_base2 d.1 d.2.1 d.2.2
    some { pMantissa := r.1, pExponent := r.2, ret := sp.spError }

/-! ## Zeroing a column -/

/-- `for (i = ... ; i < ... ; i++) { CKTkluAx_Complex [2 * i] = 0 ; CKTkluAx_Complex [2 * i + 1] = 0 ; }`
of `SMPcZeroCol`, with the number of iterations left and the counter `i`. -/
def zeroColLoop : Nat → Nat → List ℚ → List ℚ
  | 0, _, a => a
  | k + 1, i, a => zeroColLoop k (i + 1) ((a.set (2 * i) 0).set (2 * i + 1) 0)

/-- `SMPcZeroCol (eMatrix, Col)`: the state left and the `int` returned; `none`
when `Col - 1` is negative, so that `CKTkluAp [Col - 1]` is read before the
array. The other branch works on the element store of `SPmatrix`, which is no
part of this state. -/
def SMPcZeroCol (sp : SparseBackend) (eMatrix : SMPmatrix) (Col : Nat) :
    Option (SMPmatrix × Int) :=
  let Col := eMatrix.ExtToIntColMap.getD Col 0
  if eMatrix.CKTkluMODE then
    if Col - 1 < 0 then
      none
    else
      some
        ({ eMatrix with
            CKTkluAx_Complex :=
              zeroColLoop
                (eMatrix.CKTkluAp.getD Col.toNat 0 - eMatrix.CKTkluAp.getD (Col - 1).toNat 0)
                (eMatrix.CKTkluAp.getD (Col - 1).toNat 0) eMatrix.CKTkluAx_Complex },
          0)
  else
    some (eMatrix, sp.spError)

/-! ## Circuit setup (`cktsetup.c`) -/

/-- Modelled from the spec: the code `OK` of the error header, which is not
under `src/`: 0, the value that `if (error)` takes for no error. -/
def OK : Int := 0

/-- A call that `CKTsetup` or `CKTunsetup` makes of a routine outside
`cktsetup.c`, with the device type and the code returned where there is one. -/
inductive CktCall where
  | CKTsenSetup (ret : Int)
  | NIinit (ret : Int)
  | DEVsetup (i : Nat) (ret : Int)
  | TMALLOC (i : Nat)
  | NIsenReinit (ret : Int)
  | NIreinit (ret : Int)
  | conditionalSections (ret : Int)
  | tfree (i : Nat)
  | DEVunsetup (i : Nat) (ret : Int)
  | NIdestroy
deriving DecidableEq, Repr

/-- The fields of `CKTnode` that `CKTunsetup` reads or writes; `ptr` is `none`
for 0. -/
structure CKTnode where
  icGiven : Bool := false
  nsGiven : Bool := false
  ptr : Option Nat := none
deriving DecidableEq, Repr

/-- The fields of `CKTcircuit` that `cktsetup.c` reads or writes outside its
conditional sections; the declaration itself, in `cktdefs.h`, is not under
`src/`. `CKThead [i]` and `CKTsenInfo` are `true` for a pointer that is not
NULL, a cell of `CKTstates` is `none` for NULL, and `rest` stands for all the
other fields, which only the routines outside touch. -/
structure CKTcircuit where
  CKTnumStates : Int := 0
  CKTisSetup : Int := 0
  CKTsenInfo : Bool := false
  CKThead : List Bool := []
  CKTmaxOrder : Int := 1
  CKTstates : List (Option Nat) := []
  CKTniState : Nat := 0
  CKTnodes : List CKTnode := []
  rest : Nat := 0
deriving DecidableEq, Repr

/-- The two entries of a `SPICEdev` that `cktsetup.c` calls, `none` for NULL.
Each works on the circuit it is handed and returns an error code. -/
structure SPICEdev where
  DEVsetup : Option (CKTcircuit → CKTcircuit × Int) := none
  DEVunsetup : Option (CKTcircuit → CKTcircuit × Int) := none

/-- What `cktsetup.c` takes from outside: the device table, the numerical
routines, the allocator, the error codes and the options of the build. -/
structure CktEnv where
  DEVmaxnum : Nat := 0
  /-- `DEVices [i]`, `none` for NULL. -/
  DEVices : List (Option SPICEdev) := []
  NIinit : CKTcircuit → CKTcircuit × Int := fun ckt => (ckt, 0)
  NIreinit : CKTcircuit → CKTcircuit × Int := fun ckt => (ckt, 0)
  NIsenReinit : CKTcircuit → CKTcircuit × Int := fun ckt => (ckt, 0)
  CKTsenSetup : CKTcircuit → CKTcircuit × Int := fun ckt => (ckt, 0)
  NIdestroy : CKTcircuit → CKTcircuit := id
  /-- `TMALLOC (double, size)` for `CKTstates [i]`: the block, `none` for NULL. -/
  TMALLOC : Nat → Int → Option Nat := fun i _ => some i
  /-- The sections under `#ifdef XSPICE` and `#ifdef KIRCHHOFF` at the end of
  `CKTsetup`, as one step: the circuit they leave and the code they return with,
  0 when they run to their end. -/
  conditionalSections : CKTcircuit → CKTcircuit × Int := fun ckt => (ckt, 0)
  /-- Whether `WANT_SENSE2` is defined. -/
  WANT_SENSE2 : Bool := false
  E_NOCHANGE : Int := 13
  E_NOMEM : Int := 8
  NIUNINITIALIZED : Nat := 4

/-- The loop `for (i = 0 ; i < DEVmaxnum ; i++)` over the setup routines, with
the number of iterations left and `i`: the circuit, the code (nonzero when the
loop was left by `return (error)`) and the calls made. -/
def setupLoop (env : CktEnv) :
    Nat → Nat → CKTcircuit → List CktCall → CKTcircuit × Int × List CktCall
  | 0, _, ckt, calls => (ckt, 0, calls)
  | k + 1, i, ckt, calls =>
    match env.DEVices.getD i none with
    | none => setupLoop env k (i + 1) ckt calls
    | some dev =>
      match dev.DEVsetup with
      | none => setupLoop env k (i + 1) ckt calls
      | some DEVsetup =>
        if ckt.CKThead.getD i false then
          let r := DEVsetup ckt
          if r.2 ≠ 0 then
            (r.1, r.2, calls ++ [CktCall.DEVsetup i r.2])
          else
            setupLoop env k (i + 1) r.1 (calls ++ [CktCall.DEVsetup i r.2])
        else
          setupLoop env k (i + 1) ckt calls

/-- The loop `for (i = 0 ; i <= MAX (2, CKTmaxOrder) + 1 ; i++) { CKALLOC (CKTstates [i], CKTnumStates, double) ; }`,
with the number of iterations left and `i`. -/
def statesLoop (env : CktEnv) :
    Nat → Nat → CKTcircuit → List CktCall → CKTcircuit × Int × List CktCall
  | 0, _, ckt, calls => (ckt, 0, calls)
  | k + 1, i, ckt, calls =>
    if ckt.CKTnumStates ≠ 0 then
      let var := env.TMALLOC i ckt.CKTnumStates
      let ckt := { ckt with CKTstates := ckt.CKTstates.set i var }
      if var = none then
        (ckt, env.E_NOMEM, calls ++ [CktCall.TMALLOC i])
      else
        statesLoop env k (i + 1) ckt (calls ++ [CktCall.TMALLOC i])
    else
      statesLoop env k (i + 1) ckt calls

/-- `CKTsetup` from `error = NIinit (ckt)` on. The section under
`#ifdef USE_OMP`, which sets the number of threads, and the call of
`SetAnalyse` under `#ifdef HAS_PROGREP` do not touch the circuit and are left
out. -/
def CKTsetup_init (env : CktEnv) (ckt : CKTcircuit) (calls : List CktCall) :
    CKTcircuit × Int × List CktCall :=
  let r := env.NIinit ckt
  let calls := calls ++ [CktCall.NIinit r.2]
  if r.2 ≠ 0 then
    (r.1, r.2, calls)
  else
    let ckt := { r.1 with CKTisSetup := 1 }
    let s := setupLoop env env.DEVmaxnum 0 ckt calls
    if s.2.1 ≠ 0 then
      s
    else
      let s := statesLoop env (max 2 s.1.CKTmaxOrder + 1 + 1).toNat 0 s.1 s.2.2
      if s.2.1 ≠ 0 then
        s
      else
        let s : CKTcircuit × Int × List CktCall :=
          if env.WANT_SENSE2 ∧ s.1.CKTsenInfo then
            let r := env.NIsenReinit s.1
            (r.1, r.2, s.2.2 ++ [CktCall.NIsenReinit r.2])
          else
            s
        if s.2.1 ≠ 0 then
          s
        else
          let s : CKTcircuit × Int × List CktCall :=
            if Nat.land s.1.CKTniState env.NIUNINITIALIZED ≠ 0 then
              let r := env.NIreinit s.1
              (r.1, r.2, s.2.2 ++ [CktCall.NIreinit r.2])
            else
              s
          if s.2.1 ≠ 0 then
            s
          else
            let r := env.conditionalSections s.1
            if r.2 ≠ 0 then
              (r.1, r.2, s.2.2 ++ [CktCall.conditionalSections r.2])
            else
              (r.1, OK, s.2.2 ++ [CktCall.conditionalSections r.2])

/-- `CKTsetup (ckt)`: the circuit left, the code returned and the calls made of
routines outside the file. -/
def CKTsetup (env : CktEnv) (ckt : CKTcircuit) : CKTcircuit × Int × List CktCall :=
  let ckt := { ckt with CKTnumStates := 0 }
  let s : CKTcircuit × Int × List CktCall :=
    if env.WANT_SENSE2 ∧ ckt.CKTsenInfo then
      let r := env.CKTsenSetup ckt
      (r.1, r.2, [CktCall.CKTsenSetup r.2])
    else
      (ckt, 0, [])
  if s.2.1 ≠ 0 then
    s
  else if s.1.CKTisSetup ≠ 0 then
    (s.1, env.E_NOCHANGE, s.2.2)
  else
    CKTsetup_init env s.1 s.2.2

/-- The loop `for (i = 0 ; i <= CKTmaxOrder + 1 ; i++) { tfree (CKTstates [i]) ; }`,
with the number of iterations left and `i`; `tfree` leaves NULL in the cell. -/
def tfreeLoop : Nat → Nat → CKTcircuit → List CktCall → CKTcircuit × List CktCall
  | 0, _, ckt, calls => (ckt, calls)
  | k + 1, i, ckt, calls =>
    tfreeLoop k (i + 1) { ckt with CKTstates := ckt.CKTstates.set i none }
      (calls ++ [CktCall.tfree i])

/-- The loop `for (i = 0 ; i < DEVmaxnum ; i++)` over the unsetup routines, with
the number of iterations left, `i` and `error`. -/
def unsetupLoop (env : CktEnv) :
    Nat → Nat → CKTcircuit → Int → List CktCall → CKTcircuit × Int × List CktCall
  | 0, _, ckt, error, calls => (ckt, error, calls)
  | k + 1, i, ckt, error, calls =>
    match env.DEVices.getD i none with
    | none => unsetupLoop env k (i + 1) ckt error calls
    | some dev =>
      match dev.DEVunsetup with
      | none => unsetupLoop env k (i + 1) ckt error calls
      | some DEVunsetup =>
        if ckt.CKThead.getD i false then
          let r := DEVunsetup ckt
          let e2 := r.2
          let error := if error = 0 ∧ e2 ≠ 0 then e2 else error
          unsetupLoop env k (i + 1) r.1 error (calls ++ [CktCall.DEVunsetup i e2])
        else
          unsetupLoop env k (i + 1) ckt error calls

/-- The loop `for (node = ckt->CKTnodes ; node ; node = node->next)` of
`CKTunsetup`: `if (node->icGiven || node->nsGiven) { node->ptr = 0 ; }`. -/
def nodesLoop (ckt : CKTcircuit) : CKTcircuit :=
  { ckt with
    CKTnodes :=
      ckt.CKTnodes.map fun node =>
        if node.icGiven ∨ node.nsGiven then { node with ptr := none } else node }

/-- `CKTunsetup (ckt)`: the circuit left, the code returned and the calls made
of routines outside the file. -/
def CKTunsetup (env : CktEnv) (ckt : CKTcircuit) : CKTcircuit × Int × List CktCall :=
  let error := OK
  if ckt.CKTisSetup = 0 then
    (ckt, OK, [])
  else
    let s := tfreeLoop (ckt.CKTmaxOrder + 1 + 1).toNat 0 ckt []
    let ckt := nodesLoop s.1
    let u := unsetupLoop env env.DEVmaxnum 0 ckt error s.2
    let ckt := { u.1 with CKTisSetup := 0 }
    if u.2.1 ≠ 0 then
      (ckt, u.2.1, u.2.2)
    else
      (env.NIdestroy ckt, OK, u.2.2 ++ [CktCall.NIdestroy])

/-! ## Concrete inputs -/

/-- The extraction of a real factorization with `1 / (Ux [i] * Rs [i])` equal to
2 and 5 and no row or column exchanged: the system `[[2, 0], [0, 5]]`. -/
def diagTwoFive : KluBackend :=
  { klu_extract_Udiag := { Ux := [1 / 2, 1 / 5], Rs := [1, 1], P := [0, 1], Q := [0, 1] } }

/-- The extraction of a complex factorization of dimension 3 with unit pivots,
the row permutation `P` and the identity as column permutation. -/
def unitPivots (P : List Int) : KluBackend :=
  { klu_z_extract_Udiag :=
      { Ux := [1, 1, 1], Uz := [0, 0, 0], Rs := [1, 1, 1], P := P, Q := [0, 1, 2] } }

/-- A complex system of dimension 2 whose row map is the identity and whose
column map exchanges the two unknowns. -/
def exchangedColumns : SMPmatrix :=
  { CKTkluN := 2, CKTkluIntermediate_Complex := [0, 0, 0, 0], IntToExtRowMap := [0, 1, 2],
    IntToExtColMap := [0, 2, 1] }

/-- The extraction of a complex factorization of dimension 2 with
`Ux = [1/2, 1/5]`, `Uz = [1, 2]`, unit scale factors and the two rows exchanged. -/
def complexTwoFive : KluBackend :=
  { klu_z_extract_Udiag :=
      { Ux := [1 / 2, 1 / 5], Uz := [1, 2], Rs := [1, 1], P := [1, 0], Q := [0, 1] } }

/-- A KLU library that finds the matrix empty: no handle, a failed refactor,
and the status `KLU_EMPTY_MATRIX`. -/
def emptyMatrixKlu : KluBackend :=
  { klu_analyze := fun _ _ _ => (none, KluStatus.KLU_EMPTY_MATRIX, -1)
    klu_factor := fun _ _ _ _ => (none, KluStatus.KLU_EMPTY_MATRIX, -1)
    klu_z_factor := fun _ _ _ _ => (none, KluStatus.KLU_EMPTY_MATRIX, -1)
    klu_refactor := fun _ _ _ _ _ => (0, KluStatus.KLU_EMPTY_MATRIX, -1)
    klu_z_refactor := fun _ _ _ _ _ => (0, KluStatus.KLU_EMPTY_MATRIX, -1) }

/-- A KLU library that finds the matrix singular in column 1: no numeric handle,
a failed refactor, and the status `KLU_SINGULAR`. -/
def singularKlu : KluBackend :=
  { klu_factor := fun _ _ _ _ => (none, KluStatus.KLU_SINGULAR, 1)
    klu_z_factor := fun _ _ _ _ => (none, KluStatus.KLU_SINGULAR, 1)
    klu_refactor := fun _ _ _ _ _ => (0, KluStatus.KLU_SINGULAR, 1)
    klu_z_refactor := fun _ _ _ _ _ => (0, KluStatus.KLU_SINGULAR, 1) }

/-- A matrix of dimension 2 after a factorization that KLU found singular in
the internal column 1, with the external numbers 5, 7 of the internal rows and
6, 8 of the internal columns. -/
def singularInColumnOne : SMPmatrix :=
  { CKTkluN := 2
    status := KluStatus.KLU_SINGULAR
    singular_col := 1
    IntToExtRowMap := [0, 5, 7]
    IntToExtColMap := [0, 6, 8] }

/-- A matrix of dimension 2 with three nonzeros, in the real, the complex and
the CIDER arrays. -/
def threeNonzeros : SMPmatrix :=
  { CKTkluN := 2
    CKTklunz := 3
    CKTkluAp := [0, 2, 3]
    CKTkluAi := [0, 1, 1]
    CKTkluAx := [4, 5, 6]
    CKTkluAx_Complex := [4, 1, 5, 2, 6, 3]
    ExtToIntRowMap := [0, 1, 2]
    ExtToIntColMap := [0, 1, 2]
    SMPkluMatrix :=
      { KLUmatrixN := 2
        KLUmatrixNZ := 3
        KLUmatrixAp := [0, 2, 3]
        KLUmatrixAi := [0, 1, 1]
        KLUmatrixAxComplex := [4, 1, 5, 2, 6, 3] } }

/-- The extraction of a complex factorization of dimension 1 whose pivot is
`4 + i`: `1 / (Ux * Rs) = 4 / 17` and `Uz * Rs = - 1 / 17`. -/
def fourPlusI : KluBackend :=
  { klu_z_extract_Udiag := { Ux := [17 / 4], Uz := [-1 / 17], Rs := [1], P := [0], Q := [0] } }

/-- The extraction of a complex factorization of dimension 1 whose pivot is
`1 / 10`: `1 / (Ux * Rs) = 10` and `Uz * Rs = 0`. -/
def oneTenth : KluBackend :=
  { klu_z_extract_Udiag := { Ux := [1 / 10], Uz := [0], Rs := [1], P := [0], Q := [0] } }

/-- A complex matrix of dimension 1 in KLU mode. -/
def complexOne : SMPmatrix :=
  { CKTkluN := 1, CKTkluMatrixIsComplex := KluMatrixKind.CKTkluMatrixComplex }

/-- A factorization of dimension 1 as both extractions report it: `Ux = [1/2]`,
`Uz = [0]`, the scale factor 1 and no exchange. -/
def realHalf : KluBackend :=
  { klu_extract_Udiag := { Ux := [1 / 2], Rs := [1], P := [0], Q := [0] }
    klu_z_extract_Udiag := { Ux := [1 / 2], Uz := [0], Rs := [1], P := [0], Q := [0] } }

/-- A device type whose setup and unsetup routines count their calls in `rest`
and return the code `ret`. -/
def countingDevice (ret : Int) : SPICEdev :=
  { DEVsetup := some fun ckt => ({ ckt with rest := ckt.rest + 1 }, ret)
    DEVunsetup := some fun ckt => ({ ckt with rest := ckt.rest + 1 }, ret) }

/-- A device table with four types: the second has no routines, the first and
the third fail with the codes 7 and 9, the last succeeds. -/
def fourDevices : CktEnv :=
  { DEVmaxnum := 4
    DEVices := [some (countingDevice 7), some {}, some (countingDevice 9),
      some (countingDevice 0)] }

/-- A circuit that is set up, with five states and with instances of the device
types 1, 2 and 3, none of the type 0. -/
def circuitSetUp : CKTcircuit :=
  { CKTnumStates := 5
    CKTisSetup := 1
    CKThead := [false, true, true, true]
    CKTstates := [some 0, some 1, some 2, some 3]
    CKTnodes := [{ icGiven := true, ptr := some 1 }, { ptr := some 2 }] }

/-- Whether the device type `i` has an unsetup routine:
`DEVices [i] && DEVices [i]->DEVunsetup`. -/
def hasUnsetup (env : CktEnv) (i : Nat) : Bool :=
  match env.DEVices.getD i none with
  | none => false
  | some dev => dev.DEVunsetup.isSome

/-- The device type of a call of an unsetup routine. -/
def unsetupIndex : CktCall → Option Nat
  | CktCall.DEVunsetup i _ => some i
  | _ => none

/-- The code a call of an unsetup routine returned. -/
def unsetupCode : CktCall → Option Int
  | CktCall.DEVunsetup _ ret => some ret
  | _ => none

/-! ## Theorems -/

/-! ### Solve loops -/

theorem getD_set_eq_ite (l : List ℚ) (i j : Nat) (v : ℚ) :
    (l.set i v).getD j 0 = if i = j ∧ i < l.length then v else l.getD j 0 := by
  simp only [List.getD_eq_getElem?_getD, List.getElem?_set]
  by_cases h : i = j
  · subst h
    by_cases h2 : i < l.length
    · simp [h2]
    · simp [h2, List.getElem?_eq_none (Nat.le_of_not_lt h2)]
  · simp [h]

theorem solveGatherLoop_length (Map : List Nat) (RHS : List ℚ) :
    ∀ (k p : Nat) (buf : List ℚ), (solveGatherLoop Map RHS k p buf).length = buf.length := by
  intro k
  induction k with
  | zero => intro p buf; rfl
  | succ k ih => intro p buf; simp [solveGatherLoop, ih]

theorem solveGatherLoop_getD (Map : List Nat) (RHS : List ℚ) :
    ∀ (k : Nat) (buf : List ℚ), k ≤ buf.length → ∀ i,
      (solveGatherLoop Map RHS k k buf).getD i 0 =
        if i < k then RHS.getD (Map.getD (i + 1) 0) 0 else buf.getD i 0 := by
  intro k
  induction k with
  | zero => intro buf _ i; simp [solveGatherLoop]
  | succ k ih =>
    intro buf hk i
    simp only [solveGatherLoop, Nat.add_sub_cancel]
    rw [ih _ (by simp; omega), getD_set_eq_ite]
    by_cases h1 : i < k
    · simp [h1, Nat.lt_succ_of_lt h1]
    · by_cases h2 : k = i
      · subst h2; simp; omega
      · have : ¬ i < k + 1 := by omega
        simp [h1, h2, this]

theorem solveScatterLoop_length (Map : List Nat) (Inter : List ℚ) :
    ∀ (k p : Nat) (RHS : List ℚ), (solveScatterLoop Map Inter k p RHS).length = RHS.length := by
  intro k
  induction k with
  | zero => intro p buf; rfl
  | succ k ih => intro p buf; simp [solveScatterLoop, ih]

theorem solveScatterLoop_frame (Map : List Nat) (Inter : List ℚ) :
    ∀ (k : Nat) (RHS : List ℚ) (q : Nat), (∀ i, i < k → Map.getD (i + 1) 0 ≠ q) →
      (solveScatterLoop Map Inter k k RHS).getD q 0 = RHS.getD q 0 := by
  intro k
  induction k with
  | zero => intro RHS q _; rfl
  | succ k ih =>
    intro RHS q h
    simp only [solveScatterLoop, Nat.add_sub_cancel]
    rw [ih _ q (fun i hi => h i (Nat.lt_succ_of_lt hi)), getD_set_eq_ite]
    have := h k (Nat.lt_succ_self k)
    rw [if_neg (fun hh => this hh.1)]

theorem solveScatterLoop_getD (Map : List Nat) (Inter : List ℚ) :
    ∀ (k : Nat) (RHS : List ℚ),
      (∀ a b, a < k → b < k → Map.getD (a + 1) 0 = Map.getD (b + 1) 0 → a = b) →
      (∀ a, a < k → Map.getD (a + 1) 0 < RHS.length) →
      ∀ i, i < k → (solveScatterLoop Map Inter k k RHS).getD (Map.getD (i + 1) 0) 0
        = Inter.getD i 0 := by
  intro k
  induction k with
  | zero => intro RHS _ _ i hi; omega
  | succ k ih =>
    intro RHS hinj hb i hi
    simp only [solveScatterLoop, Nat.add_sub_cancel]
    by_cases h : i < k
    · exact ih _ (fun a b ha hb' => hinj a b (by omega) (by omega))
        (fun a ha => by simpa using hb a (by omega)) i h
    · have hik : i = k := by omega
      subst hik
      rw [solveScatterLoop_frame, getD_set_eq_ite]
      · rw [if_pos ⟨rfl, hb i hi⟩]
      · intro a ha e
        have := hinj a i (by omega) hi e
        omega

theorem csolveGatherLoop_succ (Map : List Nat) (RHS iRHS : List ℚ) (k : Nat) (buf : List ℚ) :
    csolveGatherLoop Map RHS iRHS (2 * (k + 1) - 1) (k + 1) buf =
      csolveGatherLoop Map RHS iRHS (2 * k - 1) k
        ((buf.set (2 * k + 1) (iRHS.getD (Map.getD (k + 1) 0) 0)).set (2 * k)
          (RHS.getD (Map.getD (k + 1) 0) 0)) := by
  cases k with
  | zero => rfl
  | succ m =>
    have e1 : 2 * (m + 1 + 1) - 1 = (2 * m + 1) + 2 := by omega
    have e2 : 2 * (m + 1) - 1 = 2 * m + 1 := by omega
    have e3 : 2 * (m + 1) + 1 = 2 * m + 1 + 2 := by omega
    have e4 : 2 * (m + 1) = 2 * m + 1 + 1 := by omega
    rw [e1, e2, e3, e4]
    simp only [csolveGatherLoop, Nat.add_sub_cancel]

theorem csolveScatterLoop_succ (Map : List Nat) (Inter : List ℚ) (k : Nat)
    (R : List ℚ × List ℚ) :
    csolveScatterLoop Map Inter (2 * (k + 1) - 1) (k + 1) R =
      csolveScatterLoop Map Inter (2 * k - 1) k
        (R.1.set (Map.getD (k + 1) 0) (Inter.getD (2 * k) 0),
         R.2.set (Map.getD (k + 1) 0) (Inter.getD (2 * k + 1) 0)) := by
  cases k with
  | zero => rfl
  | succ m =>
    have e1 : 2 * (m + 1 + 1) - 1 = (2 * m + 1) + 2 := by omega
    have e2 : 2 * (m + 1) - 1 = 2 * m + 1 := by omega
    have e3 : 2 * (m + 1) + 1 = 2 * m + 1 + 2 := by omega
    have e4 : 2 * (m + 1) = 2 * m + 1 + 1 := by omega
    rw [e1, e2, e3, e4]
    simp only [csolveScatterLoop, Nat.add_sub_cancel]

theorem csolveGatherLoop_length (Map : List Nat) (RHS iRHS : List ℚ) :
    ∀ (k : Nat) (buf : List ℚ),
      (csolveGatherLoop Map RHS iRHS (2 * k - 1) k buf).length = buf.length := by
  intro k
  induction k with
  | zero => intro buf; rfl
  | succ k ih => intro buf; rw [csolveGatherLoop_succ, ih]; simp

theorem csolveGatherLoop_getD (Map : List Nat) (RHS iRHS : List ℚ) :
    ∀ (k : Nat) (buf : List ℚ), 2 * k ≤ buf.length → ∀ i,
      (csolveGatherLoop Map RHS iRHS (2 * k - 1) k buf).getD i 0 =
        if i < 2 * k then
          (if i % 2 = 0 then RHS.getD (Map.getD (i / 2 + 1) 0) 0
           else iRHS.getD (Map.getD (i / 2 + 1) 0) 0)
        else buf.getD i 0 := by
  intro k
  induction k with
  | zero => intro buf _ i; simp [csolveGatherLoop]
  | succ k ih =>
    intro buf hk i
    rw [csolveGatherLoop_succ, ih _ (by simp; omega), getD_set_eq_ite, getD_set_eq_ite]
    by_cases h1 : i < 2 * k
    · have : i < 2 * (k + 1) := by omega
      rw [if_pos h1, if_pos this]
    · rw [if_neg h1]
      by_cases h2 : 2 * k = i
      · subst h2
        have h3 : 2 * k < 2 * (k + 1) := by omega
        have h4 : 2 * k < (buf.set (2 * k + 1) (iRHS.getD (Map.getD (k + 1) 0) 0)).length := by
          simp; omega
        rw [if_pos ⟨rfl, h4⟩, if_pos h3, if_pos (by omega)]
        congr 2
        omega
      · rw [if_neg (fun hh => h2 hh.1)]
        by_cases h3 : 2 * k + 1 = i
        · subst h3
          have h5 : 2 * k + 1 < 2 * (k + 1) := by omega
          rw [if_pos ⟨rfl, by omega⟩, if_pos h5, if_neg (by omega)]
          congr 2
          omega
        · rw [if_neg (fun hh => h3 hh.1), if_neg (by omega)]

theorem csolveScatterLoop_length (Map : List Nat) (Inter : List ℚ) :
    ∀ (k : Nat) (R : List ℚ × List ℚ),
      (csolveScatterLoop Map Inter (2 * k - 1) k R).1.length = R.1.length ∧
      (csolveScatterLoop Map Inter (2 * k - 1) k R).2.length = R.2.length := by
  intro k
  induction k with
  | zero => intro R; exact ⟨rfl, rfl⟩
  | succ k ih =>
    intro R
    rw [csolveScatterLoop_succ]
    have := ih (R.1.set (Map.getD (k + 1) 0) (Inter.getD (2 * k) 0),
         R.2.set (Map.getD (k + 1) 0) (Inter.getD (2 * k + 1) 0))
    simpa using this

theorem csolveScatterLoop_frame (Map : List Nat) (Inter : List ℚ) :
    ∀ (k : Nat) (R : List ℚ × List ℚ) (q : Nat), (∀ i, i < k → Map.getD (i + 1) 0 ≠ q) →
      (csolveScatterLoop Map Inter (2 * k - 1) k R).1.getD q 0 = R.1.getD q 0 ∧
      (csolveScatterLoop Map Inter (2 * k - 1) k R).2.getD q 0 = R.2.getD q 0 := by
  intro k
  induction k with
  | zero => intro R q _; exact ⟨rfl, rfl⟩
  | succ k ih =>
    intro R q h
    rw [csolveScatterLoop_succ]
    have h1 := ih (R.1.set (Map.getD (k + 1) 0) (Inter.getD (2 * k) 0),
         R.2.set (Map.getD (k + 1) 0) (Inter.getD (2 * k + 1) 0)) q
         (fun i hi => h i (Nat.lt_succ_of_lt hi))
    have h2 := h k (Nat.lt_succ_self k)
    rw [h1.1, h1.2, getD_set_eq_ite, getD_set_eq_ite, if_neg (fun hh => h2 hh.1),
      if_neg (fun hh => h2 hh.1)]
    exact ⟨rfl, rfl⟩

theorem csolveScatterLoop_getD (Map : List Nat) (Inter : List ℚ) :
    ∀ (k : Nat) (R : List ℚ × List ℚ),
      (∀ a b, a < k → b < k → Map.getD (a + 1) 0 = Map.getD (b + 1) 0 → a = b) →
      (∀ a, a < k → Map.getD (a + 1) 0 < R.1.length ∧ Map.getD (a + 1) 0 < R.2.length) →
      ∀ i, i < k →
        (csolveScatterLoop Map Inter (2 * k - 1) k R).1.getD (Map.getD (i + 1) 0) 0
          = Inter.getD (2 * i) 0 ∧
        (csolveScatterLoop Map Inter (2 * k - 1) k R).2.getD (Map.getD (i + 1) 0) 0
          = Inter.getD (2 * i + 1) 0 := by
  intro k
  induction k with
  | zero => intro R _ _ i hi; omega
  | succ k ih =>
    intro R hinj hb i hi
    rw [csolveScatterLoop_succ]
    by_cases h : i < k
    · exact ih _ (fun a b ha hb' => hinj a b (by omega) (by omega))
        (fun a ha => by simpa using hb a (by omega)) i h
    · have hik : i = k := by omega
      subst hik
      have hf := csolveScatterLoop_frame Map Inter i
        (R.1.set (Map.getD (i + 1) 0) (Inter.getD (2 * i) 0),
         R.2.set (Map.getD (i + 1) 0) (Inter.getD (2 * i + 1) 0)) (Map.getD (i + 1) 0)
        (fun a ha e => by have := hinj a i (by omega) hi e; omega)
      rw [hf.1, hf.2, getD_set_eq_ite, getD_set_eq_ite, if_pos ⟨rfl, (hb i hi).1⟩,
        if_pos ⟨rfl, (hb i hi).2⟩]
      exact ⟨rfl, rfl⟩


/-- C8: in KLU mode `SMPsolve` hands the backend a scratch vector holding
`RHS [IntToExtRowMap [i + 1]]` at every `i < N` (read from `RHS` before anything
is written to it), and afterwards `RHS [IntToExtColMap [i + 1]]` holds the `i`-th
entry of the backend solution for every `i < N`, the column map being injective
on `1..N`; every other cell of `RHS` keeps its value. -/
theorem C8_SMPsolve_gather_scatter (sp : SparseBackend) (Matrix : SMPmatrix) (RHS : List ℚ)
    (hmode : Matrix.CKTkluMODE = true)
    (hlen : Matrix.CKTkluIntermediate.length = Matrix.CKTkluN)
    (hbound : ∀ a, a < Matrix.CKTkluN → Matrix.IntToExtColMap.getD (a + 1) 0 < RHS.length)
    (hinj : ∀ a b, a < Matrix.CKTkluN → b < Matrix.CKTkluN →
      Matrix.IntToExtColMap.getD (a + 1) 0 = Matrix.IntToExtColMap.getD (b + 1) 0 → a = b) :
    ∃ scratch : List ℚ, scratch.length = Matrix.CKTkluN ∧
      (∀ i, i < Matrix.CKTkluN →
        scratch.getD i 0 = RHS.getD (Matrix.IntToExtRowMap.getD (i + 1) 0) 0) ∧
      ∀ klu : KluBackend,
        (SMPsolve sp klu Matrix RHS).1.CKTkluIntermediate = klu.klu_solve scratch ∧
        (SMPsolve sp klu Matrix RHS).2.length = RHS.length ∧
        (∀ i, i < Matrix.CKTkluN →
          (SMPsolve sp klu Matrix RHS).2.getD (Matrix.IntToExtColMap.getD (i + 1) 0) 0
            = (klu.klu_solve scratch).getD i 0) ∧
        (∀ q, (∀ i, i < Matrix.CKTkluN → Matrix.IntToExtColMap.getD (i + 1) 0 ≠ q) →
          (SMPsolve sp klu Matrix RHS).2.getD q 0 = RHS.getD q 0) := by
  refine ⟨solveGatherLoop Matrix.IntToExtRowMap RHS Matrix.CKTkluN Matrix.CKTkluN
    Matrix.CKTkluIntermediate, ?_, ?_, ?_⟩
  · rw [solveGatherLoop_length, hlen]
  · intro i hi
    rw [solveGatherLoop_getD _ _ _ _ (le_of_eq hlen.symm), if_pos hi]
  · intro klu
    simp only [SMPsolve, hmode, if_true]
    refine ⟨trivial, solveScatterLoop_length _ _ _ _ _, ?_, ?_⟩
    · intro i hi
      exact solveScatterLoop_getD _ _ _ _ hinj hbound i hi
    · intro q hq
      exact solveScatterLoop_frame _ _ _ _ q hq

/-- Witness of C8: a system of dimension 2 whose column map exchanges the two
unknowns. -/
theorem C8_SMPsolve_gather_scatter_witness :
    ∃ scratch : List ℚ, scratch.length = 2 ∧
      (∀ i, i < 2 → scratch.getD i 0 = ([0, 7, 9] : List ℚ).getD (([0, 1, 2] : List Nat).getD (i + 1) 0) 0) ∧
      ∀ klu : KluBackend,
        (SMPsolve {} klu
            { CKTkluN := 2, CKTkluIntermediate := [0, 0], IntToExtRowMap := [0, 1, 2],
              IntToExtColMap := [0, 2, 1] } [0, 7, 9]).1.CKTkluIntermediate
          = klu.klu_solve scratch ∧
        (SMPsolve {} klu
            { CKTkluN := 2, CKTkluIntermediate := [0, 0], IntToExtRowMap := [0, 1, 2],
              IntToExtColMap := [0, 2, 1] } [0, 7, 9]).2.length = 3 ∧
        (∀ i, i < 2 →
          (SMPsolve {} klu
            { CKTkluN := 2, CKTkluIntermediate := [0, 0], IntToExtRowMap := [0, 1, 2],
              IntToExtColMap := [0, 2, 1] } [0, 7, 9]).2.getD
              (([0, 2, 1] : List Nat).getD (i + 1) 0) 0
            = (klu.klu_solve scratch).getD i 0) ∧
        (∀ q, (∀ i, i < 2 → ([0, 2, 1] : List Nat).getD (i + 1) 0 ≠ q) →
          (SMPsolve {} klu
            { CKTkluN := 2, CKTkluIntermediate := [0, 0], IntToExtRowMap := [0, 1, 2],
              IntToExtColMap := [0, 2, 1] } [0, 7, 9]).2.getD q 0
            = ([0, 7, 9] : List ℚ).getD q 0) :=
  C8_SMPsolve_gather_scatter {}
    { CKTkluN := 2, CKTkluIntermediate := [0, 0], IntToExtRowMap := [0, 1, 2],
      IntToExtColMap := [0, 2, 1] } [0, 7, 9] rfl rfl
    (by intro a ha; interval_cases a <;> decide)
    (by intro a b ha hb; interval_cases a <;> interval_cases b <;> decide)

/-- Counterexample to C9 as stated: on `exchangedColumns` with `RHS = [0, 10, 20]`
the transposed solve does not hand the backend `RHS [IntToExtColMap [k + 1]]` as
entry `k` of the scratch vector (the backend here returns its input, so the
scratch vector is the one left in the matrix): entry 0 is `RHS [1] = 10`, taken
through the row map, not `RHS [2] = 20`. -/
theorem C9_counterexample :
    ¬ (∀ k, k < exchangedColumns.CKTkluN →
        (SMPcaSolve {} {} exchangedColumns [0, 10, 20] [0, 30, 40]).1.CKTkluIntermediate_Complex.getD
            (2 * k) 0
          = ([0, 10, 20] : List ℚ).getD (exchangedColumns.IntToExtColMap.getD (k + 1) 0) 0) := by
  intro h
  have h0 := h 0 (by decide)
  revert h0
  simp [SMPcaSolve, exchangedColumns, csolveGatherLoop]

/-- C9, amended: in KLU mode `SMPcaSolve` gathers through the row map (entry `k`
of the scratch vector is `RHS [IntToExtRowMap [k + 1]]`, `iRHS [IntToExtRowMap [k + 1]]`)
and scatters through the column map (`RHS`, `iRHS` at `IntToExtColMap [k + 1]`
receive entry `k` of the solution), and it is `SMPcSolve` with `klu_z_tsolve` in
the place of `klu_z_solve`: the maps keep their roles. -/
theorem C9_SMPcaSolve_same_maps (sp : SparseBackend) (Matrix : SMPmatrix) (RHS iRHS : List ℚ)
    (hmode : Matrix.CKTkluMODE = true)
    (hlen : Matrix.CKTkluIntermediate_Complex.length = 2 * Matrix.CKTkluN)
    (hbound : ∀ a, a < Matrix.CKTkluN →
      Matrix.IntToExtColMap.getD (a + 1) 0 < RHS.length ∧
      Matrix.IntToExtColMap.getD (a + 1) 0 < iRHS.length)
    (hinj : ∀ a b, a < Matrix.CKTkluN → b < Matrix.CKTkluN →
      Matrix.IntToExtColMap.getD (a + 1) 0 = Matrix.IntToExtColMap.getD (b + 1) 0 → a = b) :
    ∃ scratch : List ℚ, scratch.length = 2 * Matrix.CKTkluN ∧
      (∀ k, k < Matrix.CKTkluN →
        scratch.getD (2 * k) 0 = RHS.getD (Matrix.IntToExtRowMap.getD (k + 1) 0) 0 ∧
        scratch.getD (2 * k + 1) 0 = iRHS.getD (Matrix.IntToExtRowMap.getD (k + 1) 0) 0) ∧
      ∀ klu : KluBackend,
        (SMPcaSolve sp klu Matrix RHS iRHS).1.CKTkluIntermediate_Complex
          = klu.klu_z_tsolve scratch ∧
        (∀ k, k < Matrix.CKTkluN →
          (SMPcaSolve sp klu Matrix RHS iRHS).2.1.getD (Matrix.IntToExtColMap.getD (k + 1) 0) 0
            = (klu.klu_z_tsolve scratch).getD (2 * k) 0 ∧
          (SMPcaSolve sp klu Matrix RHS iRHS).2.2.getD (Matrix.IntToExtColMap.getD (k + 1) 0) 0
            = (klu.klu_z_tsolve scratch).getD (2 * k + 1) 0) ∧
        SMPcaSolve sp klu Matrix RHS iRHS
          = SMPcSolve sp { klu with klu_z_solve := klu.klu_z_tsolve } Matrix RHS iRHS := by
  refine ⟨csolveGatherLoop Matrix.IntToExtRowMap RHS iRHS (2 * Matrix.CKTkluN - 1)
    Matrix.CKTkluN Matrix.CKTkluIntermediate_Complex, ?_, ?_, ?_⟩
  · rw [csolveGatherLoop_length, hlen]
  · intro k hk
    rw [csolveGatherLoop_getD _ _ _ _ _ (le_of_eq hlen.symm),
      csolveGatherLoop_getD _ _ _ _ _ (le_of_eq hlen.symm),
      if_pos (by omega), if_pos (by omega), if_pos (by omega), if_neg (by omega)]
    have e1 : 2 * k / 2 = k := by omega
    have e2 : (2 * k + 1) / 2 = k := by omega
    rw [e1, e2]
    exact ⟨rfl, rfl⟩
  · intro klu
    refine ⟨?_, ?_, ?_⟩
    · simp only [SMPcaSolve, hmode, if_true]
    · intro k hk
      simp only [SMPcaSolve, hmode, if_true]
      exact csolveScatterLoop_getD _ _ _ (RHS, iRHS) hinj hbound k hk
    · simp only [SMPcaSolve, SMPcSolve, hmode, if_true]

/-- Witness of the amended C9 on `exchangedColumns`. -/
theorem C9_SMPcaSolve_same_maps_witness :
    ∃ scratch : List ℚ, scratch.length = 2 * exchangedColumns.CKTkluN ∧
      (∀ k, k < exchangedColumns.CKTkluN →
        scratch.getD (2 * k) 0
          = ([0, 10, 20] : List ℚ).getD (exchangedColumns.IntToExtRowMap.getD (k + 1) 0) 0 ∧
        scratch.getD (2 * k + 1) 0
          = ([0, 30, 40] : List ℚ).getD (exchangedColumns.IntToExtRowMap.getD (k + 1) 0) 0) ∧
      ∀ klu : KluBackend,
        (SMPcaSolve {} klu exchangedColumns [0, 10, 20] [0, 30, 40]).1.CKTkluIntermediate_Complex
          = klu.klu_z_tsolve scratch ∧
        (∀ k, k < exchangedColumns.CKTkluN →
          (SMPcaSolve {} klu exchangedColumns [0, 10, 20] [0, 30, 40]).2.1.getD
              (exchangedColumns.IntToExtColMap.getD (k + 1) 0) 0
            = (klu.klu_z_tsolve scratch).getD (2 * k) 0 ∧
          (SMPcaSolve {} klu exchangedColumns [0, 10, 20] [0, 30, 40]).2.2.getD
              (exchangedColumns.IntToExtColMap.getD (k + 1) 0) 0
            = (klu.klu_z_tsolve scratch).getD (2 * k + 1) 0) ∧
        SMPcaSolve {} klu exchangedColumns [0, 10, 20] [0, 30, 40]
          = SMPcSolve {} { klu with klu_z_solve := klu.klu_z_tsolve } exchangedColumns
              [0, 10, 20] [0, 30, 40] :=
  C9_SMPcaSolve_same_maps {} exchangedColumns [0, 10, 20] [0, 30, 40] rfl rfl
    (by
      intro a ha
      have ha2 : a < 2 := ha
      interval_cases a <;> exact ⟨by decide, by decide⟩)
    (by
      intro a b ha hb
      have ha2 : a < 2 := ha
      have hb2 : b < 2 := hb
      interval_cases a <;> interval_cases b <;> decide)


/-! ### Gmin loading -/

theorem loadGmin_fold_length (diag : List (Option Nat)) (Gmin : ℚ) :
    ∀ (idxs : List Nat) (mem : List ℚ),
      (idxs.foldl
        (fun mem i =>
          match diag.getD i none with
          | some p => mem.set p (mem.getD p 0 + Gmin)
          | none => mem) mem).length = mem.length := by
  intro idxs
  induction idxs with
  | nil => intro mem; rfl
  | cons i t ih =>
    intro mem
    rw [List.foldl_cons, ih]
    cases diag.getD i none <;> simp

theorem loadGmin_fold_getD (diag : List (Option Nat)) (Gmin : ℚ) :
    ∀ (idxs : List Nat) (mem : List ℚ) (q : Nat), q < mem.length →
      (idxs.foldl
        (fun mem i =>
          match diag.getD i none with
          | some p => mem.set p (mem.getD p 0 + Gmin)
          | none => mem) mem).getD q 0
        = mem.getD q 0 + (idxs.countP (fun i => decide (diag.getD i none = some q)) : ℚ) * Gmin := by
  intro idxs
  induction idxs with
  | nil => intro mem q _; simp
  | cons i t ih =>
    intro mem q hq
    rw [List.foldl_cons, List.countP_cons]
    cases hd : diag.getD i none with
    | none =>
      rw [ih mem q hq]
      simp
    | some p =>
      rw [ih _ q (by simpa using hq), getD_set_eq_ite]
      by_cases hpq : p = q
      · subst hpq
        rw [if_pos ⟨rfl, hq⟩]
        simp
        ring
      · rw [if_neg (fun hh => hpq hh.1)]
        have : (some p = some q) = False := by simp [hpq]
        simp [hpq]

theorem LoadGmin_CSC_length (diag : List (Option Nat)) (n : Int) (Gmin : ℚ) (mem : List ℚ) :
    (LoadGmin_CSC diag n Gmin mem).length = mem.length := by
  unfold LoadGmin_CSC
  split
  · exact loadGmin_fold_length diag Gmin _ mem
  · rfl

theorem LoadGmin_CSC_getD (diag : List (Option Nat)) (n : Int) (Gmin : ℚ) (mem : List ℚ)
    (q : Nat) (hq : q < mem.length) :
    (LoadGmin_CSC diag n Gmin mem).getD q 0
      = mem.getD q 0
        + ((List.range n.toNat).countP (fun i => decide (diag.getD i none = some q)) : ℚ)
          * Gmin := by
  unfold LoadGmin_CSC
  split
  · exact loadGmin_fold_getD diag Gmin _ mem q hq
  · rename_i h
    have : Gmin = 0 := by simpa using h
    simp [this]

/-- C10: two calls of `LoadGmin_CSC`, with `g1` and then `g2`, leave the value
array as one call with `g1 + g2` does (so every diagonal slot holds the same
value), and either sequence leaves unchanged every slot that no non-NULL entry
`diag [i]`, `i < n`, points at: nothing is written for a NULL entry. -/
theorem C10_LoadGmin_CSC_additive (diag : List (Option Nat)) (n : Int) (g1 g2 : ℚ)
    (mem : List ℚ) :
    LoadGmin_CSC diag n g2 (LoadGmin_CSC diag n g1 mem) = LoadGmin_CSC diag n (g1 + g2) mem ∧
    ∀ q, (∀ i, i < n.toNat → diag.getD i none ≠ some q) →
      (LoadGmin_CSC diag n g2 (LoadGmin_CSC diag n g1 mem)).getD q 0 = mem.getD q 0 ∧
      (LoadGmin_CSC diag n (g1 + g2) mem).getD q 0 = mem.getD q 0 := by
  have hadd : LoadGmin_CSC diag n g2 (LoadGmin_CSC diag n g1 mem)
      = LoadGmin_CSC diag n (g1 + g2) mem := by
    apply List.ext_getElem
    · simp [LoadGmin_CSC_length]
    · intro q h1 h2
      have hq : q < mem.length := by simpa [LoadGmin_CSC_length] using h1
      have e1 := LoadGmin_CSC_getD diag n g2 (LoadGmin_CSC diag n g1 mem) q
        (by simpa [LoadGmin_CSC_length] using hq)
      have e2 := LoadGmin_CSC_getD diag n g1 mem q hq
      have e3 := LoadGmin_CSC_getD diag n (g1 + g2) mem q hq
      rw [List.getD_eq_getElem _ _ h1] at e1
      rw [List.getD_eq_getElem _ _ h2] at e3
      rw [e1, e3, e2]
      ring
  refine ⟨hadd, ?_⟩
  intro q hq
  have hkey : (LoadGmin_CSC diag n (g1 + g2) mem).getD q 0 = mem.getD q 0 := by
    by_cases hlt : q < mem.length
    · rw [LoadGmin_CSC_getD diag n (g1 + g2) mem q hlt]
      have : (List.range n.toNat).countP (fun i => decide (diag.getD i none = some q)) = 0 := by
        rw [List.countP_eq_zero]
        intro i hi
        have := hq i (List.mem_range.mp hi)
        simpa using this
      rw [this]
      simp
    · have h1 : (LoadGmin_CSC diag n (g1 + g2) mem).length ≤ q := by
        rw [LoadGmin_CSC_length]; omega
      rw [List.getD_eq_default _ _ h1, List.getD_eq_default _ _ (by omega)]
  exact ⟨by rw [hadd]; exact hkey, hkey⟩


/-! ### Determinant -/

theorem ABS_eq_abs (a : ℚ) : ABS a = |a| := by
  unfold ABS
  split
  · rename_i h; rw [abs_of_neg h]
  · rename_i h; rw [abs_of_nonneg (not_lt.mp h)]

theorem MAX_eq_max (a b : ℚ) : MAX a b = max a b := by
  unfold MAX
  split
  · rename_i h; rw [max_eq_left (le_of_lt h)]
  · rename_i h; rw [max_eq_right (not_lt.mp h)]

theorem NORM_eq_max (c : ComplexNumber) : NORM c = max |c.Real| |c.Imag| := by
  rw [NORM, MAX_eq_max, ABS_eq_abs, ABS_eq_abs]

theorem NORM_nonneg (c : ComplexNumber) : 0 ≤ NORM c := by
  rw [NORM, MAX_eq_max, ABS_eq_abs, ABS_eq_abs]
  exact le_max_of_le_left (abs_nonneg _)

theorem NORM_scale (c : ComplexNumber) (F : ℚ) (hF : 0 ≤ F) :
    NORM ⟨c.Real * F, c.Imag * F⟩ = NORM c * F := by
  simp only [NORM, MAX_eq_max, ABS_eq_abs, abs_mul, abs_of_nonneg hF]
  rw [max_mul_of_nonneg _ _ hF]

theorem ABS_scale (a F : ℚ) (hF : 0 ≤ F) : ABS (a * F) = ABS a * F := by
  simp only [ABS_eq_abs, abs_mul, abs_of_nonneg hF]

theorem floor_scale_lt (x F : ℚ) (hx : 1 ≤ x) (hF0 : 0 ≤ F) (hF : F ≤ 1 / 2) :
    floorNat (x * F) < floorNat x := by
  unfold floorNat
  by_contra h
  push_neg at h
  have hx0 : 0 ≤ x := by linarith
  have h1 : (⌊x⌋₊ : ℚ) ≤ (⌊x * F⌋₊ : ℚ) := by exact_mod_cast h
  have h2 : (⌊x * F⌋₊ : ℚ) ≤ x * F := Nat.floor_le (mul_nonneg hx0 hF0)
  have h3 : x < (⌊x⌋₊ : ℚ) + 1 := Nat.lt_floor_add_one x
  have h4 : (1 : ℚ) ≤ (⌊x⌋₊ : ℚ) := by
    have : 0 < ⌊x⌋₊ := Nat.floor_pos.mpr hx
    exact_mod_cast this
  have h5 : x * F ≤ x * (1 / 2) := mul_le_mul_of_nonneg_left hF hx0
  linarith

theorem NORM_eq_zero_iff (c : ComplexNumber) : NORM c = 0 ↔ c.Real = 0 ∧ c.Imag = 0 := by
  rw [NORM, MAX_eq_max, ABS_eq_abs, ABS_eq_abs]
  constructor
  · intro h
    have h1 : |c.Real| ≤ 0 := h ▸ le_max_left _ _
    have h2 : |c.Imag| ≤ 0 := h ▸ le_max_right _ _
    exact ⟨abs_eq_zero.mp (le_antisymm h1 (abs_nonneg _)),
      abs_eq_zero.mp (le_antisymm h2 (abs_nonneg _))⟩
  · rintro ⟨h1, h2⟩
    simp [h1, h2]

theorem cScaleWhileGE_spec (T F : ℚ) (D : Int) (hT : 1 ≤ T) (hF0 : 0 < F) (hF : F ≤ 1 / 2) :
    ∀ (fuel : Nat) (c : ComplexNumber) (e : Int), NORM c ≠ 0 → floorNat (NORM c) ≤ fuel →
      ∃ r, cScaleWhileGE T F D fuel c e = some r ∧ NORM r.1 < T ∧ NORM r.1 ≠ 0 := by
  intro fuel
  induction fuel with
  | zero =>
    intro c e hc hfuel
    have h0 : floorNat (NORM c) = 0 := Nat.le_zero.mp hfuel
    have hlt : NORM c < 1 := by
      unfold floorNat at h0
      exact Nat.floor_eq_zero.mp h0
    have : ¬ NORM c ≥ T := by
      intro h; linarith
    exact ⟨(c, e), by simp [cScaleWhileGE, this], by simpa using this, hc⟩
  | succ n ih =>
    intro c e hc hfuel
    by_cases h : NORM c ≥ T
    · have hlt := floor_scale_lt (NORM c) F (le_trans hT h) (le_of_lt hF0) hF
      have hn : NORM ⟨c.Real * F, c.Imag * F⟩ = NORM c * F := NORM_scale c F (le_of_lt hF0)
      obtain ⟨r, hr, h1, h2⟩ := ih ⟨c.Real * F, c.Imag * F⟩ (e + D)
        (by rw [hn]; exact mul_ne_zero hc (ne_of_gt hF0)) (by rw [hn]; omega)
      exact ⟨r, by simp only [cScaleWhileGE, if_pos h, hr], h1, h2⟩
    · exact ⟨(c, e), by simp only [cScaleWhileGE, if_neg h], by simpa using h, hc⟩

theorem cScaleWhileLT_spec (T F : ℚ) (D : Int) (hT : T ≤ 1) (hF : 2 ≤ F) (B : ℚ)
    (hB : T * F ≤ B) :
    ∀ (fuel : Nat) (c : ComplexNumber) (e : Int), NORM c ≠ 0 → NORM c < B →
      floorNat (1 / NORM c) ≤ fuel →
      ∃ r, cScaleWhileLT T F D fuel c e = some r ∧ T ≤ NORM r.1 ∧ NORM r.1 < B := by
  have hF0 : (0 : ℚ) < F := by linarith
  intro fuel
  induction fuel with
  | zero =>
    intro c e hc hcB hfuel
    have hpos : 0 < NORM c := lt_of_le_of_ne (NORM_nonneg c) (Ne.symm hc)
    have h0 : floorNat (1 / NORM c) = 0 := Nat.le_zero.mp hfuel
    have hlt : 1 / NORM c < 1 := by
      unfold floorNat at h0
      exact Nat.floor_eq_zero.mp h0
    have h1 : 1 < NORM c := by
      rw [div_lt_one hpos] at hlt; exact hlt
    have : ¬ NORM c < T := by
      intro h; linarith
    exact ⟨(c, e), by simp [cScaleWhileLT, this], by simpa using this, hcB⟩
  | succ n ih =>
    intro c e hc hcB hfuel
    have hpos : 0 < NORM c := lt_of_le_of_ne (NORM_nonneg c) (Ne.symm hc)
    by_cases h : NORM c < T
    · have hn : NORM ⟨c.Real * F, c.Imag * F⟩ = NORM c * F := NORM_scale c F (le_of_lt hF0)
      have e1 : 1 / (NORM c * F) = 1 / NORM c * (1 / F) := by field_simp
      have hlt := floor_scale_lt (1 / NORM c) (1 / F)
        (by rw [le_div_iff₀ hpos]; linarith) (by positivity)
        (one_div_le_one_div_of_le (by norm_num) hF)
      obtain ⟨r, hr, h1, h2⟩ := ih ⟨c.Real * F, c.Imag * F⟩ (e - D)
        (by rw [hn]; exact mul_ne_zero hc (ne_of_gt hF0))
        (by rw [hn]; exact lt_of_lt_of_le (mul_lt_mul_of_pos_right h hF0) hB)
        (by rw [hn, e1]; omega)
      exact ⟨r, by simp only [cScaleWhileLT, if_pos h, hr], h1, h2⟩
    · exact ⟨(c, e), by simp only [cScaleWhileLT, if_neg h], by simpa using h, hcB⟩

theorem cScaleStep_spec (c : ComplexNumber) (e : Int) (hc : NORM c ≠ 0) :
    ∃ r, cScaleStep c e = some r ∧ 1 / 10 ^ 12 ≤ NORM r.1 ∧ NORM r.1 < 10 ^ 12 := by
  obtain ⟨r1, hr1, h1, h2⟩ := cScaleWhileGE_spec (10 ^ 12) (1 / 10 ^ 12) 12 (by norm_num)
    (by norm_num) (by norm_num) (floorNat (NORM c)) c e hc (le_refl _)
  obtain ⟨r2, hr2, h3, h4⟩ := cScaleWhileLT_spec (1 / 10 ^ 12) (10 ^ 12) 12 (by norm_num)
    (by norm_num) (10 ^ 12) (by norm_num) (floorNat (1 / NORM r1.1)) r1.1 r1.2 h2 h1 (le_refl _)
  refine ⟨r2, ?_, h3, h4⟩
  simp only [cScaleStep, if_pos hc, hr1, hr2]

theorem cScaleStep_zero (c : ComplexNumber) (e : Int) (hc : NORM c = 0) :
    cScaleStep c e = some (c, e) := by
  simp [cScaleStep, hc]

theorem cScaleFinal_spec (c : ComplexNumber) (e : Int) (hc : NORM c ≠ 0) :
    ∃ r, cScaleFinal c e = some r ∧ 1 ≤ NORM r.1 ∧ NORM r.1 < 10 := by
  obtain ⟨r1, hr1, h1, h2⟩ := cScaleWhileGE_spec 10 (1 / 10) 1 (by norm_num)
    (by norm_num) (by norm_num) (floorNat (NORM c)) c e hc (le_refl _)
  obtain ⟨r2, hr2, h3, h4⟩ := cScaleWhileLT_spec 1 10 1 (by norm_num)
    (by norm_num) 10 (by norm_num) (floorNat (1 / NORM r1.1)) r1.1 r1.2 h2 h1 (le_refl _)
  refine ⟨r2, ?_, h3, h4⟩
  simp only [cScaleFinal, if_pos hc, hr1, hr2]

theorem CMPLX_MULT_ASSIGN_ne_zero (a b : ComplexNumber) (ha : NORM a ≠ 0) (hb : NORM b ≠ 0) :
    NORM (CMPLX_MULT_ASSIGN a b) ≠ 0 := by
  rw [Ne, NORM_eq_zero_iff] at ha hb ⊢
  rintro ⟨h1, h2⟩
  simp only [CMPLX_MULT_ASSIGN] at h1 h2
  have key : (a.Real * a.Real + a.Imag * a.Imag) * (b.Real * b.Real + b.Imag * b.Imag) = 0 := by
    have : (a.Real * a.Real + a.Imag * a.Imag) * (b.Real * b.Real + b.Imag * b.Imag)
        = (a.Real * b.Real - a.Imag * b.Imag) ^ 2 + (a.Real * b.Imag + a.Imag * b.Real) ^ 2 := by
      ring
    rw [this, h1, h2]; norm_num
  rcases mul_eq_zero.mp key with h | h
  · apply ha
    constructor <;> nlinarith [mul_self_nonneg a.Real, mul_self_nonneg a.Imag]
  · apply hb
    constructor <;> nlinarith [mul_self_nonneg b.Real, mul_self_nonneg b.Imag]

theorem CMPLX_RECIPROCAL_ne_zero (a : ComplexNumber) (ha : NORM a ≠ 0) :
    NORM (CMPLX_RECIPROCAL a) ≠ 0 := by
  rw [Ne, NORM_eq_zero_iff] at ha ⊢
  rintro ⟨h1, h2⟩
  simp only [CMPLX_RECIPROCAL] at h1 h2
  have hpos : a.Real * a.Real + a.Imag * a.Imag ≠ 0 := by
    intro h
    apply ha
    constructor <;> nlinarith [mul_self_nonneg a.Real, mul_self_nonneg a.Imag]
  rw [div_eq_zero_iff] at h1 h2
  rcases h1 with h1 | h1
  · rcases h2 with h2 | h2
    · exact ha ⟨h1, by linarith⟩
    · exact hpos h2
  · exact hpos h1

theorem cDeterminantLoop_succ (Ux Uz Rs : List ℚ) (k I : Nat) (c : ComplexNumber) (e : Int) :
    cDeterminantLoop Ux Uz Rs (k + 1) I c e =
      match cScaleStep (CMPLX_MULT_ASSIGN c (CMPLX_RECIPROCAL
          ⟨1 / (Ux.getD I 0 * Rs.getD I 0), Uz.getD I 0 * Rs.getD I 0⟩)) e with
      | none => none
      | some r => cDeterminantLoop Ux Uz Rs k (I + 1) r.1 r.2 := rfl

theorem cDeterminantLoop_spec (Ux Uz Rs : List ℚ) :
    ∀ (k I : Nat) (c : ComplexNumber) (e : Int), NORM c ≠ 0 →
      (∀ i, I ≤ i → i < I + k → Ux.getD i 0 * Rs.getD i 0 ≠ 0) →
      ∃ r, cDeterminantLoop Ux Uz Rs k I c e = some r ∧ NORM r.1 ≠ 0 := by
  intro k
  induction k with
  | zero => intro I c e hc _; exact ⟨(c, e), rfl, hc⟩
  | succ k ih =>
    intro I c e hc hU
    have hud : NORM (⟨1 / (Ux.getD I 0 * Rs.getD I 0), Uz.getD I 0 * Rs.getD I 0⟩ :
        ComplexNumber) ≠ 0 := by
      rw [Ne, NORM_eq_zero_iff]
      rintro ⟨h1, _⟩
      have := hU I (le_refl _) (by omega)
      simp only [one_div, inv_eq_zero] at h1
      exact this h1
    have hm := CMPLX_MULT_ASSIGN_ne_zero c _ hc (CMPLX_RECIPROCAL_ne_zero _ hud)
    obtain ⟨r, hr, h1, _⟩ := cScaleStep_spec _ e hm
    have hr0 : NORM r.1 ≠ 0 := by
      intro h0; rw [h0] at h1; norm_num at h1
    obtain ⟨r2, hr2, h2⟩ := ih (I + 1) r.1 r.2 hr0
      (fun i hi1 hi2 => hU i (by omega) (by omega))
    exact ⟨r2, by rw [cDeterminantLoop_succ, hr]; exact hr2, h2⟩

theorem NORM_CMPLX_NEGATE (c : ComplexNumber) : NORM (CMPLX_NEGATE c) = NORM c := by
  simp only [NORM, CMPLX_NEGATE, ABS_eq_abs, abs_neg]

theorem rScaleWhileGE_exit (T F : ℚ) (D : Int) (fuel : Nat) (d : ℚ) (e : Int)
    (h : ¬ ABS d ≥ T) : rScaleWhileGE T F D fuel d e = some (d, e) := by
  cases fuel <;> simp only [rScaleWhileGE, if_neg h]

theorem rScaleWhileLT_exit (T F : ℚ) (D : Int) (fuel : Nat) (d : ℚ) (e : Int)
    (h : ¬ ABS d < T) : rScaleWhileLT T F D fuel d e = some (d, e) := by
  cases fuel <;> simp only [rScaleWhileLT, if_neg h]

theorem rScaleFinal_one (e : Int) : rScaleFinal 1 e = some (1, e) := by
  have h1 : ¬ ABS (1 : ℚ) ≥ 10 := by rw [ABS_eq_abs]; norm_num
  have h2 : ¬ ABS (1 : ℚ) < 1 := by rw [ABS_eq_abs]; norm_num
  simp only [rScaleFinal, rScaleWhileGE_exit _ _ _ _ _ _ h1, rScaleWhileLT_exit _ _ _ _ _ _ h2]
  norm_num

theorem spDeterminant_KLU_real (klu : KluBackend) (Matrix : SMPmatrix) (piDeterminant : ℚ)
    (hs : Matrix.status ≠ KluStatus.KLU_SINGULAR)
    (hk : Matrix.CKTkluMatrixIsComplex ≠ KluMatrixKind.CKTkluMatrixComplex) :
    spDeterminant_KLU klu Matrix piDeterminant =
      some
        { pExponent := 0
          pDeterminant :=
            if nSwap klu.klu_extract_Udiag.P klu.klu_extract_Udiag.Q Matrix.CKTkluN % 2 ≠ 0
            then -1 else 1
          piDeterminant := piDeterminant
          calls := [BackendCall.klu_extract_Udiag] } := by
  simp only [spDeterminant_KLU, if_neg hs, if_neg hk, countMismatch, Nat.sub_self,
    rDeterminantLoop, rScaleFinal_one, nSwap]

theorem cScaleWhileGE_exit (T F : ℚ) (D : Int) (fuel : Nat) (c : ComplexNumber) (e : Int)
    (h : ¬ NORM c ≥ T) : cScaleWhileGE T F D fuel c e = some (c, e) := by
  cases fuel <;> simp only [cScaleWhileGE, if_neg h]

theorem cScaleWhileLT_exit (T F : ℚ) (D : Int) (fuel : Nat) (c : ComplexNumber) (e : Int)
    (h : ¬ NORM c < T) : cScaleWhileLT T F D fuel c e = some (c, e) := by
  cases fuel <;> simp only [cScaleWhileLT, if_neg h]

theorem cScaleStep_id (c : ComplexNumber) (e : Int) (h1 : ¬ NORM c ≥ 10 ^ 12)
    (h2 : ¬ NORM c < 1 / 10 ^ 12) : cScaleStep c e = some (c, e) := by
  simp only [cScaleStep, cScaleWhileGE_exit _ _ _ _ _ _ h1, cScaleWhileLT_exit _ _ _ _ _ _ h2]
  split <;> rfl

theorem cScaleFinal_id (c : ComplexNumber) (e : Int) (h1 : ¬ NORM c ≥ 10)
    (h2 : ¬ NORM c < 1) : cScaleFinal c e = some (c, e) := by
  simp only [cScaleFinal, cScaleWhileGE_exit _ _ _ _ _ _ h1, cScaleWhileLT_exit _ _ _ _ _ _ h2]
  split <;> rfl

/-- C5: with status `KLU_SINGULAR`, `spDeterminant_KLU` returns exponent 0 and
determinant 0 (the imaginary part too when the matrix is complex; the real case
leaves that cell alone), whatever the factorization holds and without a call of
`klu_extract_Udiag` or `klu_z_extract_Udiag`. -/
theorem C5_singular_short_circuit (klu : KluBackend) (Matrix : SMPmatrix) (piDeterminant : ℚ)
    (hs : Matrix.status = KluStatus.KLU_SINGULAR) :
    spDeterminant_KLU klu Matrix piDeterminant =
      some
        { pExponent := 0
          pDeterminant := 0
          piDeterminant :=
            if Matrix.CKTkluMatrixIsComplex = KluMatrixKind.CKTkluMatrixComplex then 0
            else piDeterminant
          calls := [] } := by
  simp only [spDeterminant_KLU, hs, if_true]

/-- Witness of C5: a singular complex matrix of dimension 2. -/
theorem C5_singular_short_circuit_witness :
    spDeterminant_KLU diagTwoFive
        { CKTkluN := 2, status := KluStatus.KLU_SINGULAR,
          CKTkluMatrixIsComplex := KluMatrixKind.CKTkluMatrixComplex } 7 =
      some { pExponent := 0, pDeterminant := 0, piDeterminant := 0, calls := [] } :=
  C5_singular_short_circuit diagTwoFive
    { CKTkluN := 2, status := KluStatus.KLU_SINGULAR,
      CKTkluMatrixIsComplex := KluMatrixKind.CKTkluMatrixComplex } 7 rfl

/-- C4 fails on the code: on the real path the loop over the diagonal is never
entered (`I` is left at `CKTkluN` by the loop that counts the mismatches of `Q`),
so for every non-singular real factorization the result is exponent 0 and
determinant 1 or -1, whatever `Ux` and `Rs` hold. -/
theorem C4_real_path_skips_diagonal (klu : KluBackend) (Matrix : SMPmatrix) (piDeterminant : ℚ)
    (hs : Matrix.status ≠ KluStatus.KLU_SINGULAR)
    (hk : Matrix.CKTkluMatrixIsComplex ≠ KluMatrixKind.CKTkluMatrixComplex) :
    ∃ out, spDeterminant_KLU klu Matrix piDeterminant = some out ∧ out.pExponent = 0 ∧
      (out.pDeterminant = 1 ∨ out.pDeterminant = -1) := by
  refine ⟨_, spDeterminant_KLU_real klu Matrix piDeterminant hs hk, rfl, ?_⟩
  simp only
  split
  · exact Or.inr rfl
  · exact Or.inl rfl

/-- C4 at the failing input: for the system `[[2, 0], [0, 5]]` the code returns
mantissa 1 with exponent 0, not exponent 1; `1 * 10 ^ 0` is not the product
`2 * 5` of the factors `1 / (Ux [i] * Rs [i])`. -/
theorem C4_real_path_skips_diagonal_witness :
    (∃ out, spDeterminant_KLU diagTwoFive { CKTkluN := 2 } 0 = some out ∧ out.pExponent = 0 ∧
      (out.pDeterminant = 1 ∨ out.pDeterminant = -1)) ∧
    spDeterminant_KLU diagTwoFive { CKTkluN := 2 } 0 =
      some { pExponent := 0, pDeterminant := 1, piDeterminant := 0,
             calls := [BackendCall.klu_extract_Udiag] } ∧
    (1 : ℚ) * 10 ^ (0 : ℤ) ≠ 1 / ((1 / 2) * 1) * (1 / ((1 / 5) * 1)) :=
  ⟨C4_real_path_skips_diagonal diagTwoFive { CKTkluN := 2 } 0 (by decide) (by decide),
   by
    rw [spDeterminant_KLU_real diagTwoFive { CKTkluN := 2 } 0 (by decide) (by decide)]
    simp [nSwap, countMismatch, diagTwoFive, List.range_succ],
   by norm_num⟩

theorem cDeterminantLoop_unit (k I : Nat) (e : Int) (P : List Int)
    (hk : I + k ≤ 3) :
    cDeterminantLoop (unitPivots P).klu_z_extract_Udiag.Ux
      (unitPivots P).klu_z_extract_Udiag.Uz (unitPivots P).klu_z_extract_Udiag.Rs k I ⟨1, 0⟩ e
      = some (⟨1, 0⟩, e) := by
  induction k generalizing I with
  | zero => rfl
  | succ k ih =>
    rw [cDeterminantLoop_succ]
    have hI : I = 0 ∨ I = 1 ∨ I = 2 := by omega
    have hp : CMPLX_MULT_ASSIGN ⟨1, 0⟩ (CMPLX_RECIPROCAL
        ⟨1 / ((unitPivots P).klu_z_extract_Udiag.Ux.getD I 0
            * (unitPivots P).klu_z_extract_Udiag.Rs.getD I 0),
          (unitPivots P).klu_z_extract_Udiag.Uz.getD I 0
            * (unitPivots P).klu_z_extract_Udiag.Rs.getD I 0⟩) = ⟨1, 0⟩ := by
      rcases hI with h | h | h <;> subst h <;>
        simp [unitPivots, CMPLX_MULT_ASSIGN, CMPLX_RECIPROCAL]
    rw [hp, cScaleStep_id _ _ (by norm_num [NORM, ABS, MAX]) (by norm_num [NORM, ABS, MAX])]
    exact ih (I + 1) (by omega)

/-- C6 fails on the code: with unit pivots the determinant of the identity
permutation is returned as 1, and that of the cyclic row permutation
`P = [1, 2, 0]` (`finRotate 3`, whose sign is 1: two exchanges realise it) is
returned as -1. The code negates although the parity of `P` and `Q` is even: it
takes half the number of moved indices, `3 / 2 = 1`, for the number of swaps. -/
theorem C6_three_cycle_negated :
    (∀ i : Fin 3, ([1, 2, 0] : List Int).getD i.val 0 = ((finRotate 3 i).val : Int)) ∧
    Equiv.Perm.sign (finRotate 3) = 1 ∧
    nSwap [1, 2, 0] [0, 1, 2] 3 = 1 ∧
    spDeterminant_KLU (unitPivots [0, 1, 2])
        { CKTkluN := 3, CKTkluMatrixIsComplex := KluMatrixKind.CKTkluMatrixComplex } 0 =
      some { pExponent := 0, pDeterminant := 1, piDeterminant := 0,
             calls := [BackendCall.klu_z_extract_Udiag] } ∧
    spDeterminant_KLU (unitPivots [1, 2, 0])
        { CKTkluN := 3, CKTkluMatrixIsComplex := KluMatrixKind.CKTkluMatrixComplex } 0 =
      some { pExponent := 0, pDeterminant := -1, piDeterminant := 0,
             calls := [BackendCall.klu_z_extract_Udiag] } := by
  have hfin : cScaleFinal ⟨1, 0⟩ 0 = some (⟨1, 0⟩, 0) :=
    cScaleFinal_id _ _ (by norm_num [NORM, ABS, MAX]) (by norm_num [NORM, ABS, MAX])
  refine ⟨by decide, by decide, by decide, ?_, ?_⟩
  · have h := cDeterminantLoop_unit 3 0 0 [0, 1, 2] (by omega)
    simp only [spDeterminant_KLU, Nat.sub_zero]
    rw [h]
    simp [hfin, countMismatch, unitPivots, List.range_succ]
  · have h := cDeterminantLoop_unit 3 0 0 [1, 2, 0] (by omega)
    simp only [spDeterminant_KLU, Nat.sub_zero]
    rw [h]
    simp [hfin, countMismatch, unitPivots, List.range_succ, CMPLX_NEGATE]

/-- C7: for a factorization that is not singular (status other than
`KLU_SINGULAR`, and `Ux [i] * Rs [i]` nonzero for every `i < N` on the complex
path, so that every pivot and their product are nonzero), `spDeterminant_KLU`
returns a mantissa of magnitude in `[1, 10)`: `|m|` on the real path,
`max (|re|, |im|)` on the complex path. -/
theorem C7_mantissa_magnitude (klu : KluBackend) (Matrix : SMPmatrix) (piDeterminant : ℚ)
    (hs : Matrix.status ≠ KluStatus.KLU_SINGULAR)
    (hU : Matrix.CKTkluMatrixIsComplex = KluMatrixKind.CKTkluMatrixComplex →
      ∀ i, i < Matrix.CKTkluN →
        klu.klu_z_extract_Udiag.Ux.getD i 0 * klu.klu_z_extract_Udiag.Rs.getD i 0 ≠ 0) :
    ∃ out, spDeterminant_KLU klu Matrix piDeterminant = some out ∧
      (Matrix.CKTkluMatrixIsComplex = KluMatrixKind.CKTkluMatrixComplex →
        1 ≤ max |out.pDeterminant| |out.piDeterminant| ∧
        max |out.pDeterminant| |out.piDeterminant| < 10) ∧
      (Matrix.CKTkluMatrixIsComplex ≠ KluMatrixKind.CKTkluMatrixComplex →
        1 ≤ |out.pDeterminant| ∧ |out.pDeterminant| < 10) := by
  by_cases hk : Matrix.CKTkluMatrixIsComplex = KluMatrixKind.CKTkluMatrixComplex
  · obtain ⟨r, hr, hr0⟩ := cDeterminantLoop_spec klu.klu_z_extract_Udiag.Ux
      klu.klu_z_extract_Udiag.Uz klu.klu_z_extract_Udiag.Rs (Matrix.CKTkluN - 0) 0 ⟨1, 0⟩ 0
      (by norm_num [NORM, ABS, MAX]) (fun i _ hi => hU hk i (by omega))
    obtain ⟨r2, hr2, h1, h2⟩ := cScaleFinal_spec r.1 r.2 hr0
    refine ⟨_, by simp only [spDeterminant_KLU, if_neg hs, if_pos hk, hr, hr2]; rfl, ?_, ?_⟩
    · intro _
      simp only
      split
      · rw [← NORM_eq_max, NORM_CMPLX_NEGATE]
        exact ⟨h1, h2⟩
      · rw [← NORM_eq_max]
        exact ⟨h1, h2⟩
    · intro h; exact absurd hk h
  · refine ⟨_, spDeterminant_KLU_real klu Matrix piDeterminant hs hk, ?_, ?_⟩
    · intro h; exact absurd h hk
    · intro _
      simp only
      split <;> norm_num

/-- Witness of C7: the complex extraction `complexTwoFive`. -/
theorem C7_mantissa_magnitude_witness :
    ∃ out,
      spDeterminant_KLU complexTwoFive
          { CKTkluN := 2, CKTkluMatrixIsComplex := KluMatrixKind.CKTkluMatrixComplex } 0
        = some out ∧
      ((KluMatrixKind.CKTkluMatrixComplex = KluMatrixKind.CKTkluMatrixComplex →
        1 ≤ max |out.pDeterminant| |out.piDeterminant| ∧
        max |out.pDeterminant| |out.piDeterminant| < 10) ∧
      (KluMatrixKind.CKTkluMatrixComplex ≠ KluMatrixKind.CKTkluMatrixComplex →
        1 ≤ |out.pDeterminant| ∧ |out.pDeterminant| < 10)) :=
  C7_mantissa_magnitude complexTwoFive
    { CKTkluN := 2, CKTkluMatrixIsComplex := KluMatrixKind.CKTkluMatrixComplex } 0
    (by decide)
    (by
      intro _ i hi
      have hi2 : i < 2 := hi
      interval_cases i <;> norm_num [complexTwoFive])


/-! ### COO to CSC conversion -/

/-! ### Compress -/

theorem getD_set_nat (l : List Nat) (i j v : Nat) :
    (l.set i v).getD j 0 = if i = j ∧ i < l.length then v else l.getD j 0 := by
  simp only [List.getD_eq_getElem?_getD, List.getElem?_set]
  by_cases h : i = j
  · subst h
    by_cases h2 : i < l.length
    · simp [h2]
    · simp [h2, List.getElem?_eq_none (Nat.le_of_not_lt h2)]
  · simp [h]

theorem fillLoop_spec (v : Nat) :
    ∀ (k j : Nat) (Bp : List Nat), j + k ≤ Bp.length →
      ∃ Bp', fillLoop v k j Bp = some (Bp', j + k) ∧ Bp'.length = Bp.length ∧
        ∀ t, Bp'.getD t 0 = if j ≤ t ∧ t < j + k then v else Bp.getD t 0 := by
  intro k
  induction k with
  | zero =>
    intro j Bp _
    refine ⟨Bp, rfl, rfl, ?_⟩
    intro t
    rw [if_neg (by omega)]
  | succ k ih =>
    intro j Bp h
    obtain ⟨Bp', h1, h2, h3⟩ := ih (j + 1) (Bp.set j v) (by simp; omega)
    refine ⟨Bp', ?_, ?_, ?_⟩
    · simp only [fillLoop, if_pos (show j < Bp.length by omega), h1]
      congr 2
      omega
    · simpa using h2
    · intro t
      rw [h3 t]
      by_cases ht : j = t
      · subst ht
        rw [if_neg (by omega), getD_set_nat, if_pos ⟨rfl, by omega⟩, if_pos (by omega)]
      · by_cases h4 : j + 1 ≤ t ∧ t < j + 1 + k
        · rw [if_pos h4, if_pos (by omega)]
        · rw [if_neg h4, getD_set_nat, if_neg (fun hh => ht hh.1), if_neg (by omega)]

theorem countP_prefix (t : Nat) :
    ∀ (l : List Nat) (i : Nat), i ≤ l.length → (∀ k, k < i → l.getD k 0 < t) →
      (∀ k, i ≤ k → k < l.length → t ≤ l.getD k 0) →
      l.countP (fun a => decide (a < t)) = i := by
  intro l
  induction l with
  | nil => intro i hi _ _; simp at hi; simp [hi]
  | cons x l ih =>
    intro i hi h1 h2
    cases i with
    | zero =>
      have hx : ¬ x < t := by
        have := h2 0 (le_refl _) (by simp)
        simpa using this
      have := ih 0 (Nat.zero_le _) (fun k hk => absurd hk (Nat.not_lt_zero k))
        (fun k _ hk => by
          have := h2 (k + 1) (Nat.zero_le _) (by simpa using hk)
          simpa using this)
      rw [List.countP_cons, this]
      simp [hx]
    | succ i =>
      have hx : x < t := by
        have := h1 0 (Nat.succ_pos i)
        simpa using this
      have := ih i (by simpa using hi)
        (fun k hk => by
          have := h1 (k + 1) (by omega)
          simpa using this)
        (fun k hk1 hk2 => by
          have := h2 (k + 1) (by omega) (by simpa using hk2)
          simpa using this)
      rw [List.countP_cons, this]
      simp [hx]

theorem compressLoop_spec (Ai : List Nat) (n : Nat)
    (hmono : ∀ p q, p ≤ q → q < Ai.length → Ai.getD p 0 ≤ Ai.getD q 0)
    (hlt : ∀ p, p < Ai.length → Ai.getD p 0 < n) :
    ∀ (k i j : Nat) (Bp : List Nat), 1 ≤ i → i + k = Ai.length → Bp.length = n + 1 →
      j = Ai.getD (i - 1) 0 + 1 →
      (∀ t, t < j → Bp.getD t 0 = Ai.countP (fun a => decide (a < t))) →
      ∃ Bp' j', compressLoop Ai k i j Bp = some (Bp', j', Ai.length) ∧ Bp'.length = n + 1 ∧
        j' = Ai.getD (Ai.length - 1) 0 + 1 ∧
        ∀ t, t < j' → Bp'.getD t 0 = Ai.countP (fun a => decide (a < t)) := by
  intro k
  induction k with
  | zero =>
    intro i j Bp hi hik hBp hj hcnt
    have : i = Ai.length := by omega
    subst this
    exact ⟨Bp, j, rfl, hBp, hj, hcnt⟩
  | succ k ih =>
    intro i j Bp hi hik hBp hj hcnt
    have hi1 : i < Ai.length := by omega
    have hi0 : i - 1 < Ai.length := by omega
    have ea : Ai[i]? = some (Ai.getD i 0) := by
      rw [List.getD_eq_getElem _ _ hi1]; exact List.getElem?_eq_getElem hi1
    have eb : Ai[i - 1]? = some (Ai.getD (i - 1) 0) := by
      rw [List.getD_eq_getElem _ _ hi0]; exact List.getElem?_eq_getElem hi0
    have hab : Ai.getD (i - 1) 0 ≤ Ai.getD i 0 := hmono (i - 1) i (by omega) hi1
    have hcount : ∀ t, Ai.getD (i - 1) 0 < t → t ≤ Ai.getD i 0 →
        Ai.countP (fun a => decide (a < t)) = i := by
      intro t ht1 ht2
      apply countP_prefix t Ai i (le_of_lt hi1)
      · intro p hp
        exact lt_of_le_of_lt (hmono p (i - 1) (by omega) hi0) ht1
      · intro p hp1 hp2
        exact le_trans ht2 (hmono i p hp1 hp2)
    simp only [compressLoop, ea, eb]
    by_cases h1 : Ai.getD i 0 = Ai.getD (i - 1) 0 + 1
    · have hjlt : j < Bp.length := by
        have := hlt i hi1
        omega
      rw [if_pos h1, if_pos hjlt]
      apply ih (i + 1) (j + 1) (Bp.set j i) (by omega) (by omega) (by simpa using hBp)
      · simp only [Nat.add_sub_cancel]; omega
      · intro t ht
        rw [getD_set_nat]
        by_cases htj : j = t
        · subst htj
          rw [if_pos ⟨rfl, hjlt⟩]
          exact (hcount j (by omega) (by omega)).symm
        · rw [if_neg (fun hh => htj hh.1)]
          exact hcnt t (by omega)
    · rw [if_neg h1]
      by_cases h2 : Ai.getD i 0 > Ai.getD (i - 1) 0 + 1
      · rw [if_pos h2]
        obtain ⟨Bp1, e1, l1, g1⟩ := fillLoop_spec i (Ai.getD i 0 + 1 - j) j Bp (by
          have := hlt i hi1
          omega)
        rw [e1]
        simp only
        apply ih (i + 1) (j + (Ai.getD i 0 + 1 - j)) Bp1 (by omega) (by omega) (by omega)
        · simp only [Nat.add_sub_cancel]; omega
        · intro t ht
          rw [g1 t]
          by_cases h3 : j ≤ t ∧ t < j + (Ai.getD i 0 + 1 - j)
          · rw [if_pos h3]
            exact (hcount t (by omega) (by omega)).symm
          · rw [if_neg h3]
            exact hcnt t (by omega)
      · rw [if_neg h2]
        apply ih (i + 1) j Bp (by omega) (by omega) hBp
        · simp only [Nat.add_sub_cancel]; omega
        · exact hcnt

/-- `Compress` on a non-empty, non-decreasing list of column indices below `n`
fills `Bp [j]`, for every `j <= n`, with the number of entries whose column is
below `j`. -/
theorem Compress_spec (Ai Bp : List Nat) (n : Nat) (hne : 1 ≤ Ai.length)
    (hmono : ∀ p q, p ≤ q → q < Ai.length → Ai.getD p 0 ≤ Ai.getD q 0)
    (hlt : ∀ p, p < Ai.length → Ai.getD p 0 < n) (hBp : Bp.length = n + 1) :
    ∃ Bp', Compress Ai Bp n Ai.length = some Bp' ∧ Bp'.length = n + 1 ∧
      ∀ t, t ≤ n → Bp'.getD t 0 = Ai.countP (fun a => decide (a < t)) := by
  have h0 : 0 < Ai.length := hne
  have e0 : Ai[0]? = some (Ai.getD 0 0) := by
    rw [List.getD_eq_getElem _ _ h0]; exact List.getElem?_eq_getElem h0
  have ha0 := hlt 0 h0
  obtain ⟨Bp1, e1, l1, g1⟩ := fillLoop_spec 0 (Ai.getD 0 0 + 1 - 0) 0 Bp (by omega)
  obtain ⟨Bp2, j2, e2, l2, hj2, g2⟩ := compressLoop_spec Ai n hmono hlt (Ai.length - 1) 1
    (Ai.getD 0 0 + 1) Bp1 (le_refl _) (by omega) (by omega) (by simp)
    (by
      intro t ht
      rw [g1 t, if_pos (by omega)]
      symm
      apply countP_prefix t Ai 0 (Nat.zero_le _)
      · intro k hk; omega
      · intro k _ hk
        exact le_trans (by omega) (hmono 0 k (Nat.zero_le _) hk))
  have hlast := hlt (Ai.length - 1) (by omega)
  obtain ⟨Bp3, e3, l3, g3⟩ := fillLoop_spec Ai.length (n + 1 - j2) j2 Bp2 (by omega)
  refine ⟨Bp3, ?_, by omega, ?_⟩
  · simp only [Compress, e0, e1, e2, e3]
  · intro t ht
    rw [g3 t]
    by_cases h : j2 ≤ t ∧ t < j2 + (n + 1 - j2)
    · rw [if_pos h]
      symm
      apply countP_prefix t Ai Ai.length (le_refl _)
      · intro k hk
        have := hmono k (Ai.length - 1) (by omega) (by omega)
        omega
      · intro k hk1 hk2; omega
    · rw [if_neg h]
      exact g2 t (by omega)

/-! ### Sorting the working list -/

theorem CompareRow_le (a b : Element) : CompareRow a b ≤ 0 ↔ a.row ≤ b.row := by
  unfold CompareRow
  by_cases h1 : a.row > b.row
  · simp [h1]
  · by_cases h2 : a.row < b.row
    · simp [h1, h2]; omega
    · simp [h1, h2]; omega

theorem CompareColumn_le (a b : Element) : CompareColumn a b ≤ 0 ↔ a.col ≤ b.col := by
  unfold CompareColumn
  by_cases h1 : a.col > b.col
  · simp [h1]
  · by_cases h2 : a.col < b.col
    · simp [h1, h2]; omega
    · simp [h1, h2]; omega

theorem qsort_CompareRow (qsort : QsortFn) (hq : QsortSpec qsort) (l : List Element) :
    (qsort Element CompareRow l).Pairwise (fun a b => a.row ≤ b.row) := by
  have := hq.sorted Element CompareRow l
    (fun a b => by simp only [CompareRow_le]; omega)
    (fun a b c => by simp only [CompareRow_le]; omega)
  exact this.imp (fun h => (CompareRow_le _ _).mp h)

theorem qsort_CompareColumn (qsort : QsortFn) (hq : QsortSpec qsort) (l : List Element) :
    (qsort Element CompareColumn l).Pairwise (fun a b => a.col ≤ b.col) := by
  have := hq.sorted Element CompareColumn l
    (fun a b => by simp only [CompareColumn_le]; omega)
    (fun a b c => by simp only [CompareColumn_le]; omega)
  exact this.imp (fun h => (CompareColumn_le _ _).mp h)

theorem getD_append_cons (P : List Element) (y : Element) (S : List Element) :
    (P ++ y :: S).getD P.length default = y := by
  induction P with
  | nil => rfl
  | cons a P ih => simpa using ih

theorem nextColumn_spec (M : List Element) (i : Nat) :
    ∀ (S P : List Element) (j k : Nat), M = P ++ S → j = P.length → k = S.length →
      nextColumn M M.length i k j =
        j + (S.takeWhile (fun e => decide (e.col = (M.getD i default).col))).length := by
  intro S
  induction S with
  | nil =>
    intro P j k _ _ hk
    subst hk
    simp [nextColumn]
  | cons y S ih =>
    intro P j k hM hj hk
    subst hk
    have hjlt : j < M.length := by rw [hM]; simp; omega
    have hy : M.getD j default = y := by
      rw [hM, hj]
      exact getD_append_cons P y S
    simp only [nextColumn, List.length_cons, if_pos hjlt, hy]
    by_cases hc : y.col = (M.getD i default).col
    · rw [if_neg (by simpa using hc), List.takeWhile_cons_of_pos (by simpa using hc)]
      rw [ih (P ++ [y]) (j + 1) S.length (by simp [hM]) (by simp [hj]) rfl]
      simp only [List.length_cons]
      omega
    · rw [if_pos (by simpa using hc), List.takeWhile_cons_of_neg (by simpa using hc)]
      simp

theorem dropWhile_col_gt (c : Nat) :
    ∀ (B : List Element), B.Pairwise (fun a b => a.col ≤ b.col) → (∀ b ∈ B, c ≤ b.col) →
      ∀ b ∈ B.dropWhile (fun e => decide (e.col = c)), c < b.col := by
  intro B
  induction B with
  | nil => intro _ _ b hb; simp at hb
  | cons y B ih =>
    intro hp hge b hb
    by_cases hy : y.col = c
    · rw [List.dropWhile_cons_of_pos (by simpa using hy)] at hb
      exact ih (List.Pairwise.of_cons hp) (fun b hb => hge b (List.mem_cons_of_mem _ hb)) b hb
    · rw [List.dropWhile_cons_of_neg (by simpa using hy)] at hb
      have hyc : c < y.col := lt_of_le_of_ne (hge y (List.mem_cons_self _ _)) (Ne.symm hy)
      rcases List.mem_cons.mp hb with h | h
      · rw [h]; exact hyc
      · exact lt_of_lt_of_le hyc (List.rel_of_pairwise_cons hp h)

theorem rowSortLoop_spec (qsort : QsortFn) (hq : QsortSpec qsort) :
    ∀ (fuel : Nat) (A B : List Element), B.length ≤ fuel →
      A.Pairwise cscOrder → B.Pairwise (fun a b => a.col ≤ b.col) →
      (∀ a ∈ A, ∀ b ∈ B, a.col < b.col) →
      (A ++ B).Pairwise (fun a b => ¬ (a.row = b.row ∧ a.col = b.col)) →
      ∃ M', rowSortLoop qsort (A ++ B).length fuel (A ++ B) A.length = some M' ∧
        M'.Perm (A ++ B) ∧ M'.Pairwise cscOrder := by
  intro fuel
  induction fuel with
  | zero =>
    intro A B hB hA _ _ _
    have : B = [] := List.length_eq_zero.mp (Nat.le_zero.mp hB)
    subst this
    refine ⟨A, ?_, by simp, hA⟩
    simp [rowSortLoop]
  | succ fuel ih =>
    intro A B hB hA hBs hAB hne
    cases B with
    | nil =>
      refine ⟨A, ?_, by simp, hA⟩
      simp [rowSortLoop]
    | cons x B =>
      have hi : A.length < (A ++ x :: B).length := by simp
      have hx : (A ++ x :: B).getD A.length default = x := getD_append_cons A x B
      have hj := nextColumn_spec (A ++ x :: B) A.length B (A ++ [x]) (A.length + 1)
        ((A ++ x :: B).length - (A.length + 1)) (by simp) (by simp) (by simp; omega)
      rw [hx] at hj
      simp only [rowSortLoop, if_pos hi, hj]
      set tw := B.takeWhile (fun e => decide (e.col = x.col)) with htw
      set dw := B.dropWhile (fun e => decide (e.col = x.col)) with hdw
      have hBsplit : B = tw ++ dw := (List.takeWhile_append_dropWhile _ B).symm
      have e1 : List.take A.length (A ++ x :: B) = A := by simp
      have e2 : List.take (A.length + 1 + tw.length - A.length)
          (List.drop A.length (A ++ x :: B)) = x :: tw := by
        have : A.length + 1 + tw.length - A.length = (x :: tw).length := by simp; omega
        rw [this, List.drop_left]
        conv_lhs => rw [hBsplit]
        rw [← List.cons_append, List.take_left]
      have e3 : List.drop (A.length + 1 + tw.length) (A ++ x :: B) = dw := by
        have : A ++ x :: B = (A ++ x :: tw) ++ dw := by
          conv_lhs => rw [hBsplit]
          simp
        rw [this]
        have hl : A.length + 1 + tw.length = (A ++ x :: tw).length := by simp; omega
        rw [hl, List.drop_left]
      rw [e1, e2, e3]
      set R := qsort Element CompareRow (x :: tw) with hR
      have hRperm : R.Perm (x :: tw) := hq.perm _ _ _
      have hRsorted := qsort_CompareRow qsort hq (x :: tw)
      have htwcol : ∀ e ∈ x :: tw, e.col = x.col := by
        intro e he
        rcases List.mem_cons.mp he with h | h
        · rw [h]
        · have := List.mem_takeWhile_imp h
          simpa using this
      have hRcol : ∀ e ∈ R, e.col = x.col := fun e he => htwcol e (hRperm.subset he)
      have hsub : ∀ e ∈ x :: tw, e ∈ x :: B := by
        intro e he
        rcases List.mem_cons.mp he with h | h
        · rw [h]; exact List.mem_cons_self _ _
        · exact List.mem_cons_of_mem _ ((List.takeWhile_sublist _).subset h)
      have hdwsub : ∀ e ∈ dw, e ∈ B := fun e he => (List.dropWhile_sublist _).subset he
      have hxB : ∀ b ∈ B, x.col ≤ b.col := fun b hb => List.rel_of_pairwise_cons hBs hb
      have hdwgt : ∀ b ∈ dw, x.col < b.col :=
        dropWhile_col_gt x.col B (List.Pairwise.of_cons hBs) hxB
      -- the distinct keys of the run
      have hneR : R.Pairwise (fun a b => ¬ (a.row = b.row ∧ a.col = b.col)) := by
        have h1 : (x :: B).Pairwise (fun a b => ¬ (a.row = b.row ∧ a.col = b.col)) :=
          (List.pairwise_append.mp hne).2.1
        have h2 : (x :: tw).Pairwise (fun a b => ¬ (a.row = b.row ∧ a.col = b.col)) := by
          apply List.Pairwise.sublist _ h1
          exact List.Sublist.cons₂ _ (List.takeWhile_sublist _)
        exact (hRperm.pairwise_iff (fun {a b} h hh => h ⟨hh.1.symm, hh.2.symm⟩)).mpr h2
      have hRcsc : R.Pairwise cscOrder := by
        have h3 := List.Pairwise.and hRsorted hneR
        apply List.Pairwise.imp_of_mem _ h3
        intro a b ha hb hab
        right
        refine ⟨by rw [hRcol a ha, hRcol b hb], ?_⟩
        rcases Nat.lt_or_ge a.row b.row with h | h
        · exact h
        · exfalso
          exact hab.2 ⟨le_antisymm hab.1 h, by rw [hRcol a ha, hRcol b hb]⟩
      have hA' : (A ++ R).Pairwise cscOrder := by
        rw [List.pairwise_append]
        refine ⟨hA, hRcsc, ?_⟩
        intro a ha b hb
        left
        rw [hRcol b hb]
        exact hAB a ha x (List.mem_cons_self _ _)
      have hAB' : ∀ a ∈ A ++ R, ∀ b ∈ dw, a.col < b.col := by
        intro a ha b hb
        rcases List.mem_append.mp ha with h | h
        · exact hAB a h b (List.mem_cons_of_mem _ (hdwsub b hb))
        · rw [hRcol a h]; exact hdwgt b hb
      have hperm : (A ++ R ++ dw).Perm (A ++ x :: B) := by
        have : A ++ x :: B = A ++ (x :: tw) ++ dw := by
          conv_lhs => rw [hBsplit]
          simp
        rw [this]
        exact List.Perm.append_right _ (List.Perm.append_left _ hRperm)
      have hne' : (A ++ R ++ dw).Pairwise (fun a b => ¬ (a.row = b.row ∧ a.col = b.col)) :=
        (hperm.pairwise_iff (fun {a b} h hh => h ⟨hh.1.symm, hh.2.symm⟩)).mpr hne
      have hdws : dw.Pairwise (fun a b => a.col ≤ b.col) :=
        List.Pairwise.sublist (List.dropWhile_sublist _) (List.Pairwise.of_cons hBs)
      have hlen : dw.length ≤ fuel := by
        have : dw.length ≤ B.length := (List.dropWhile_sublist _).length_le
        simp at hB
        omega
      obtain ⟨M', hM', hp', hs'⟩ := ih (A ++ R) dw hlen hA' hdws hAB' hne'
      have hlenR : R.length = tw.length + 1 := by
        rw [hRperm.length_eq]; simp
      have hlen2 : (A ++ R ++ dw).length = (A ++ x :: B).length := hperm.length_eq
      have hidx : (A ++ R).length = A.length + 1 + tw.length := by
        simp [hlenR]; omega
      rw [hlen2, hidx] at hM'
      exact ⟨M', hM', hp'.trans hperm, hs'⟩

/-! ### The COO tables after the declarations -/

theorem cellOf_lt (N : Nat) (rc : Nat × Nat) (h : validCoord N rc) : cellOf N rc < N * N := by
  obtain ⟨h1, h2, h3, h4⟩ := h
  unfold cellOf
  have : (rc.1 - 1) * N ≤ (N - 1) * N := Nat.mul_le_mul_right N (by omega)
  have e : (N - 1) * N + N = N * N := by
    have : N - 1 + 1 = N := by omega
    calc (N - 1) * N + N = (N - 1 + 1) * N := by ring
      _ = N * N := by rw [this]
  omega

theorem cellOf_div (N : Nat) (rc : Nat × Nat) (h : validCoord N rc) :
    cellOf N rc / N = rc.1 - 1 := by
  obtain ⟨h1, h2, h3, h4⟩ := h
  unfold cellOf
  rw [Nat.add_comm, Nat.add_mul_div_right _ _ (by omega : 0 < N),
    Nat.div_eq_of_lt (by omega : rc.2 - 1 < N), Nat.zero_add]

theorem cellOf_mod (N : Nat) (rc : Nat × Nat) (h : validCoord N rc) :
    cellOf N rc % N = rc.2 - 1 := by
  obtain ⟨h1, h2, h3, h4⟩ := h
  unfold cellOf
  rw [Nat.add_comm, Nat.add_mul_mod_self_right, Nat.mod_eq_of_lt (by omega : rc.2 - 1 < N)]

theorem cellOf_inj (N : Nat) (a b : Nat × Nat) (ha : validCoord N a) (hb : validCoord N b)
    (h : cellOf N a = cellOf N b) : a = b := by
  have h1 := cellOf_div N a ha
  have h2 := cellOf_div N b hb
  have h3 := cellOf_mod N a ha
  have h4 := cellOf_mod N b hb
  rw [h] at h1 h3
  obtain ⟨a1, _, a3, _⟩ := ha
  obtain ⟨b1, _, b3, _⟩ := hb
  apply Prod.ext <;> omega

theorem getD_set_int (l : List Int) (i j : Nat) (v : Int) :
    (l.set i v).getD j 0 = if i = j ∧ i < l.length then v else l.getD j 0 := by
  simp only [List.getD_eq_getElem?_getD, List.getElem?_set]
  by_cases h : i = j
  · subst h
    by_cases h2 : i < l.length
    · simp [h2]
    · simp [h2, List.getElem?_eq_none (Nat.le_of_not_lt h2)]
  · simp [h]

theorem cooTables_makeElt (N : Nat) (Matrix : SMPmatrix) (D : Nat → Prop) (rc : Nat × Nat)
    (hM : cooTables N Matrix D) (hrc : validCoord N rc) :
    cooTables N (SMPmakeEltKLUforCIDER Matrix rc.1 rc.2).1 (fun i => D i ∨ cellOf N rc = i) := by
  obtain ⟨h1, h2, h3, h4, h5⟩ := hM
  have hv := hrc
  obtain ⟨r1, r2, c1, c2⟩ := hrc
  have hidx : (((rc.1 : Int) - 1) * (Matrix.SMPkluMatrix.KLUmatrixN : Int)
      + ((rc.2 : Int) - 1)).toNat = cellOf N rc := by
    have e1 : ((rc.1 : Int) - 1) = ((rc.1 - 1 : Nat) : Int) := by omega
    have e2 : ((rc.2 : Int) - 1) = ((rc.2 - 1 : Nat) : Int) := by omega
    rw [e1, e2, h2, ← Nat.cast_mul, ← Nat.cast_add, Int.toNat_natCast]
    rfl
  have hpos : (rc.1 : Int) > 0 ∧ (rc.2 : Int) > 0 := by omega
  have hlt := cellOf_lt N rc hv
  simp only [SMPmakeEltKLUforCIDER, h1, if_true, if_pos hpos, hidx]
  refine ⟨rfl, h2, by simpa using h3, by simpa using h4, ?_⟩
  intro i hi
  simp only [getD_set_int]
  by_cases hk : cellOf N rc = i
  · subst hk
    rw [if_pos ⟨rfl, by omega⟩, if_pos ⟨rfl, by omega⟩]
    refine ⟨fun _ => ?_, fun h => absurd (Or.inr rfl) h⟩
    rw [cellOf_div N rc hv, cellOf_mod N rc hv]
    constructor <;> omega
  · rw [if_neg (fun hh => hk hh.1), if_neg (fun hh => hk hh.1)]
    refine ⟨fun h => ?_, fun h => ?_⟩
    · rcases h with h | h
      · exact (h5 i hi).1 h
      · exact absurd h hk
    · exact (h5 i hi).2 (fun hh => h (Or.inl hh))

theorem cooTables_congr (N : Nat) (Matrix : SMPmatrix) (D D' : Nat → Prop)
    (h : ∀ i, D i ↔ D' i) (hM : cooTables N Matrix D) : cooTables N Matrix D' := by
  obtain ⟨h1, h2, h3, h4, h5⟩ := hM
  refine ⟨h1, h2, h3, h4, fun i hi => ⟨fun hd => (h5 i hi).1 ((h i).mpr hd), fun hd => ?_⟩⟩
  exact (h5 i hi).2 (fun hh => hd ((h i).mp hh))

theorem cooTables_fold (N : Nat) :
    ∀ (coords : List (Nat × Nat)) (Matrix : SMPmatrix) (D : Nat → Prop),
      cooTables N Matrix D → (∀ rc ∈ coords, validCoord N rc) →
      cooTables N (coords.foldl (fun M rc => (SMPmakeEltKLUforCIDER M rc.1 rc.2).1) Matrix)
        (fun i => D i ∨ ∃ rc ∈ coords, cellOf N rc = i) := by
  intro coords
  induction coords with
  | nil =>
    intro Matrix D hM _
    exact cooTables_congr N Matrix D _ (fun i => by simp) hM
  | cons rc t ih =>
    intro Matrix D hM hv
    have h1 := cooTables_makeElt N Matrix D rc hM (hv rc (List.mem_cons_self _ _))
    have h2 := ih _ _ h1 (fun rc' h => hv rc' (List.mem_cons_of_mem _ h))
    rw [List.foldl_cons]
    apply cooTables_congr N _ _ _ _ h2
    intro i
    simp only [List.mem_cons, exists_eq_or_imp]
    tauto

theorem cooTables_new (N : Nat) :
    cooTables N (SMPnewMatrixKLUforCIDER {} N 0) (fun _ => False) := by
  refine ⟨rfl, rfl, by simp [SMPnewMatrixKLUforCIDER], by simp [SMPnewMatrixKLUforCIDER], ?_⟩
  intro i hi
  refine ⟨fun h => absurd h id, fun _ => ?_⟩
  simp [SMPnewMatrixKLUforCIDER, List.getD_eq_getElem?_getD, List.getElem?_replicate, hi]

/-- The tables of `declare N coords` hold `(i / N, i % N)` in the cells of the
declared coordinates and `(-1, -1)` in the others. -/
theorem cooTables_declare (N : Nat) (coords : List (Nat × Nat))
    (hv : ∀ rc ∈ coords, validCoord N rc) :
    cooTables N (declare N coords) (fun i => ∃ rc ∈ coords, cellOf N rc = i) := by
  have := cooTables_fold N coords _ _ (cooTables_new N) hv
  exact cooTables_congr N _ _ _ (fun i => by simp) this

/-! ### The conversion -/

theorem range_map_getD_map {β : Type} (l : List Element) (f : Element → β) :
    (List.range l.length).map (fun i => f (l.getD i default)) = l.map f := by
  apply List.ext_getElem
  · simp
  · intro n h1 h2
    have hn : n < l.length := by simpa using h1
    simp [List.getElem?_eq_getElem hn]

theorem pairwise_le_getD (l : List Nat) (h : l.Pairwise (fun a b => a ≤ b)) :
    ∀ p q, p ≤ q → q < l.length → l.getD p 0 ≤ l.getD q 0 := by
  intro p q hpq hq
  rcases Nat.eq_or_lt_of_le hpq with e | e
  · rw [e]
  · rw [List.getD_eq_getElem _ _ (by omega : p < l.length), List.getD_eq_getElem _ _ hq]
    exact (List.pairwise_iff_getElem.mp h) p q (by omega) hq e

theorem sorted_count (t : Nat) :
    ∀ (l : List Nat), l.Pairwise (fun a b => a ≤ b) → ∀ p, p < l.length →
      (l.getD p 0 < t ↔ p < l.countP (fun a => decide (a < t))) := by
  intro l
  induction l with
  | nil => intro _ p hp; simp at hp
  | cons x l ih =>
    intro hs p hp
    rw [List.countP_cons]
    by_cases hx : x < t
    · cases p with
      | zero => simp [hx]
      | succ p =>
        have := ih (List.Pairwise.of_cons hs) p (by simpa using hp)
        simp only [List.getD_cons_succ, this, hx, decide_True, if_true]
        omega
    · have hzero : l.countP (fun a => decide (a < t)) = 0 := by
        rw [List.countP_eq_zero]
        intro a ha
        have := List.rel_of_pairwise_cons hs ha
        simp only [decide_eq_true_eq]
        omega
      rw [hzero]
      simp only [hx, decide_False, Bool.false_eq_true, if_false, Nat.add_zero, Nat.not_lt_zero,
        iff_false]
      cases p with
      | zero => simpa using hx
      | succ p =>
        have hp' : p < l.length := by simpa using hp
        have hmem : l.getD p 0 ∈ l := by
          rw [List.getD_eq_getElem _ _ hp']; exact List.getElem_mem _
        have := List.rel_of_pairwise_cons hs hmem
        simp only [List.getD_cons_succ]
        omega

theorem cellElement_key_inj (N i j : Nat)
    (h : (cellElement N i).row = (cellElement N j).row ∧
      (cellElement N i).col = (cellElement N j).col) : i = j := by
  simp only [cellElement] at h
  rw [← Nat.div_add_mod i N, ← Nat.div_add_mod j N, h.1, h.2]

theorem convert_spec (qsort : QsortFn) (hq : QsortSpec qsort) (N : Nat) (Matrix : SMPmatrix)
    (D : Nat → Prop) (hM : cooTables N Matrix D) (hne : ∃ i, i < N * N ∧ D i) :
    ∃ (M' : SMPmatrix) (L : List Element),
      SMPconvertCOOtoCSCKLUforCIDER qsort Matrix = some M' ∧
      L.Pairwise cscOrder ∧
      (∀ e, e ∈ L ↔ ∃ i, i < N * N ∧ D i ∧ e = cellElement N i) ∧
      (L.map (fun e => e.pointer)).Nodup ∧
      L.length = ((List.range (N * N)).filter (cooSet Matrix.SMPkluMatrix)).length ∧
      (∀ i, i < N * N → (cooSet Matrix.SMPkluMatrix i = true ↔ D i)) ∧
      M'.SMPkluMatrix.KLUmatrixN = N ∧
      M'.SMPkluMatrix.KLUmatrixNZ = L.length ∧
      M'.SMPkluMatrix.KLUmatrixAi = L.map (fun e => (e.row : Int)) ∧
      M'.SMPkluMatrix.KLUmatrixAp.length = N + 1 ∧
      (∀ t, t ≤ N → M'.SMPkluMatrix.KLUmatrixAp.getD t 0
          = (L.map (fun e => e.col)).countP (fun a => decide (a < t))) ∧
      M'.SMPkluMatrix.KLUmatrixBindStructCOO.Perm
        ((List.range L.length).map fun i => ⟨(L.getD i default).pointer, 2 * i⟩) ∧
      M'.SMPkluMatrix.KLUmatrixBindStructCOO.Pairwise (fun a b => a.COO ≤ b.COO) := by
  obtain ⟨_, h2, _, _, h5⟩ := hM
  subst h2
  have hset : ∀ i, i < Matrix.SMPkluMatrix.KLUmatrixN * Matrix.SMPkluMatrix.KLUmatrixN →
      (cooSet Matrix.SMPkluMatrix i = true ↔ D i) := by
    intro i hi
    by_cases hd : D i
    · obtain ⟨r, c⟩ := (h5 i hi).1 hd
      have hnat : ∀ m : Nat, (m : Int) ≠ -1 := fun m => by omega
      unfold cooSet
      rw [r, c]
      simp only [Bool.and_eq_true, decide_eq_true_eq]
      exact ⟨fun _ => hd, fun _ => ⟨hnat _, hnat _⟩⟩
    · obtain ⟨r, c⟩ := (h5 i hi).2 hd
      unfold cooSet
      rw [r, c]
      simp [hd]
  have hfl : ∀ i ∈ (List.range (Matrix.SMPkluMatrix.KLUmatrixN * Matrix.SMPkluMatrix.KLUmatrixN)).filter
      (cooSet Matrix.SMPkluMatrix),
      i < Matrix.SMPkluMatrix.KLUmatrixN * Matrix.SMPkluMatrix.KLUmatrixN ∧ D i := by
    intro i hi
    rw [List.mem_filter, List.mem_range] at hi
    exact ⟨hi.1, (hset i hi.1).mp hi.2⟩
  have hL0 : ((List.range (Matrix.SMPkluMatrix.KLUmatrixN * Matrix.SMPkluMatrix.KLUmatrixN)).filter
      (cooSet Matrix.SMPkluMatrix)).map (fun i =>
        (⟨(Matrix.SMPkluMatrix.KLUmatrixRowCOO.getD i 0).toNat,
          (Matrix.SMPkluMatrix.KLUmatrixColCOO.getD i 0).toNat, 2 * i⟩ : Element))
      = ((List.range (Matrix.SMPkluMatrix.KLUmatrixN * Matrix.SMPkluMatrix.KLUmatrixN)).filter
          (cooSet Matrix.SMPkluMatrix)).map (cellElement Matrix.SMPkluMatrix.KLUmatrixN) := by
    apply List.map_congr_left
    intro i hi
    obtain ⟨h1, hd⟩ := hfl i hi
    obtain ⟨r, c⟩ := (h5 i h1).1 hd
    simp only [r, c, cellElement, Int.toNat_natCast]
  set fl := (List.range (Matrix.SMPkluMatrix.KLUmatrixN * Matrix.SMPkluMatrix.KLUmatrixN)).filter
      (cooSet Matrix.SMPkluMatrix) with hfldef
  set L0 := fl.map (cellElement Matrix.SMPkluMatrix.KLUmatrixN) with hL0def
  have hflnodup : fl.Nodup := List.Nodup.filter _ (List.nodup_range _)
  have hL0mem : ∀ e, e ∈ L0 ↔ ∃ i, i < Matrix.SMPkluMatrix.KLUmatrixN *
      Matrix.SMPkluMatrix.KLUmatrixN ∧ D i ∧ e = cellElement Matrix.SMPkluMatrix.KLUmatrixN i := by
    intro e
    rw [hL0def, List.mem_map]
    constructor
    · rintro ⟨i, hi, rfl⟩
      exact ⟨i, (hfl i hi).1, (hfl i hi).2, rfl⟩
    · rintro ⟨i, hi, hd, rfl⟩
      refine ⟨i, ?_, rfl⟩
      rw [hfldef, List.mem_filter, List.mem_range]
      exact ⟨hi, (hset i hi).mpr hd⟩
  have hL0ptr : (L0.map (fun e => e.pointer)).Nodup := by
    rw [hL0def, List.map_map]
    apply List.Nodup.map _ hflnodup
    intro a b hab
    simp only [Function.comp, cellElement] at hab
    omega
  have hL0key : L0.Pairwise (fun a b => ¬ (a.row = b.row ∧ a.col = b.col)) := by
    rw [hL0def, List.pairwise_map]
    apply List.Pairwise.imp _ hflnodup
    intro a b hab hk
    exact hab (cellElement_key_inj _ a b hk)
  -- the column sort
  set L1 := qsort Element CompareColumn L0 with hL1def
  have hL1perm : L1.Perm L0 := hq.perm _ _ _
  have hL1sorted := qsort_CompareColumn qsort hq L0
  -- the row sorts
  obtain ⟨L2, hL2, hL2perm, hL2csc⟩ := rowSortLoop_spec qsort hq L1.length [] L1 (le_refl _)
    List.Pairwise.nil hL1sorted (fun a ha => absurd ha (List.not_mem_nil a))
    (by
      rw [List.nil_append]
      exact (hL1perm.pairwise_iff (fun {a b} h hh => h ⟨hh.1.symm, hh.2.symm⟩)).mpr hL0key)
  simp only [List.nil_append, List.length_nil] at hL2 hL2perm
  have hperm20 : L2.Perm L0 := hL2perm.trans hL1perm
  have hlen21 : L1.length = L2.length := hL2perm.length_eq.symm
  have hlen10 : L1.length = fl.length := by rw [hL1perm.length_eq, hL0def, List.length_map]
  have hnz : (List.range (Matrix.SMPkluMatrix.KLUmatrixN * Matrix.SMPkluMatrix.KLUmatrixN)).countP
      (cooSet Matrix.SMPkluMatrix) = L2.length := by
    rw [List.countP_eq_length_filter, ← hfldef, ← hlen10, hlen21]
  have hL2mem : ∀ e, e ∈ L2 ↔ ∃ i, i < Matrix.SMPkluMatrix.KLUmatrixN *
      Matrix.SMPkluMatrix.KLUmatrixN ∧ D i ∧ e = cellElement Matrix.SMPkluMatrix.KLUmatrixN i :=
    fun e => (hperm20.mem_iff).trans (hL0mem e)
  have hpos : 1 ≤ L2.length := by
    obtain ⟨i, hi, hd⟩ := hne
    have : cellElement Matrix.SMPkluMatrix.KLUmatrixN i ∈ L2 := (hL2mem _).mpr ⟨i, hi, hd, rfl⟩
    exact List.length_pos_of_mem this
  have hcolsorted : (L2.map (fun e => e.col)).Pairwise (fun a b => a ≤ b) := by
    rw [List.pairwise_map]
    apply List.Pairwise.imp _ hL2csc
    intro a b hab
    rcases hab with h | h
    · exact le_of_lt h
    · exact le_of_eq h.1
  have hcollt : ∀ p, p < (L2.map (fun e => e.col)).length →
      (L2.map (fun e => e.col)).getD p 0 < Matrix.SMPkluMatrix.KLUmatrixN := by
    intro p hp
    rw [List.getD_eq_getElem _ _ hp, List.getElem_map]
    have hp2 : p < L2.length := by simpa using hp
    obtain ⟨i, hi, _, he⟩ := (hL2mem _).mp (List.getElem_mem hp2)
    rw [he]
    simp only [cellElement]
    apply Nat.mod_lt
    rcases Nat.eq_zero_or_pos Matrix.SMPkluMatrix.KLUmatrixN with h0 | h0
    · rw [h0] at hi; simp at hi
    · exact h0
  obtain ⟨Ap, hAp, hAplen, hApval⟩ := Compress_spec (L2.map (fun e => e.col))
    (malloc (Matrix.SMPkluMatrix.KLUmatrixN + 1)) Matrix.SMPkluMatrix.KLUmatrixN
    (by simpa using hpos) (pairwise_le_getD _ hcolsorted) hcollt (by simp [malloc])
  rw [List.length_map] at hAp
  have hconv : SMPconvertCOOtoCSCKLUforCIDER qsort Matrix =
      some
        { Matrix with
          SMPkluMatrix :=
            { Matrix.SMPkluMatrix with
              KLUmatrixNZ := L2.length
              KLUmatrixAp := Ap
              KLUmatrixAi := L2.map (fun e => (e.row : Int))
              KLUmatrixBindStructCOO :=
                qsort BindKluElementCOO BindKluCompareCOO
                  ((List.range L2.length).map fun i => ⟨(L2.getD i default).pointer, 2 * i⟩)
              KLUmatrixAxComplex := malloc (2 * L2.length)
              KLUmatrixIntermediateComplex := malloc (2 * Matrix.SMPkluMatrix.KLUmatrixN) } } := by
    simp only [SMPconvertCOOtoCSCKLUforCIDER, hL0]
    rw [← hL1def, hnz, ← hlen21, hL2]
    simp only [hlen21, range_map_getD_map, hAp]
    rw [range_map_getD_map L2 (fun e => (e.row : Int))]
  refine ⟨_, L2, hconv, hL2csc, hL2mem, ?_, ?_, hset, ?_⟩
  · exact (hperm20.map _).nodup_iff.mpr hL0ptr
  · rw [← hlen21, hlen10]
  · refine ⟨rfl, rfl, rfl, hAplen, hApval, hq.perm _ _ _, ?_⟩
    have := hq.sorted BindKluElementCOO BindKluCompareCOO
      ((List.range L2.length).map fun i => ⟨(L2.getD i default).pointer, 2 * i⟩)
      (fun a b => by
        unfold BindKluCompareCOO
        by_cases h1 : a.COO > b.COO <;> by_cases h2 : b.COO > a.COO <;> simp [h1, h2]
        omega)
      (fun a b c => by
        unfold BindKluCompareCOO
        by_cases h1 : a.COO > b.COO <;> by_cases h2 : b.COO > c.COO <;>
          by_cases h3 : a.COO > c.COO <;> simp [h1, h2, h3] <;> omega)
    apply this.imp
    intro a b hab
    unfold BindKluCompareCOO at hab
    by_cases h1 : a.COO > b.COO
    · simp [h1] at hab
    · omega

theorem insertionQsort_spec : QsortSpec insertionQsort := by
  constructor
  · intro α compar l
    exact List.perm_insertionSort _ l
  · intro α compar l htot htrans
    haveI : IsTotal α (fun a b => compar a b ≤ 0) := ⟨htot⟩
    haveI : IsTrans α (fun a b => compar a b ≤ 0) := ⟨htrans⟩
    exact List.sorted_insertionSort (fun a b => compar a b ≤ 0) l

theorem declared_count (N : Nat) (coords : List (Nat × Nat)) (K : KLUmatrix)
    (hv : ∀ rc ∈ coords, validCoord N rc)
    (hset : ∀ i, i < N * N → (cooSet K i = true ↔ ∃ rc ∈ coords, cellOf N rc = i)) :
    ((List.range (N * N)).filter (cooSet K)).length = coords.toFinset.card := by
  have hnodup : ((List.range (N * N)).filter (cooSet K)).Nodup :=
    List.Nodup.filter _ (List.nodup_range _)
  rw [← List.toFinset_card_of_nodup hnodup]
  have himg : ((List.range (N * N)).filter (cooSet K)).toFinset
      = coords.toFinset.image (cellOf N) := by
    ext i
    simp only [List.mem_toFinset, List.mem_filter, List.mem_range, Finset.mem_image]
    constructor
    · rintro ⟨hi, hs⟩
      exact (hset i hi).mp hs
    · rintro ⟨rc, hrc, rfl⟩
      have hlt := cellOf_lt N rc (hv rc hrc)
      exact ⟨hlt, (hset _ hlt).mpr ⟨rc, hrc, rfl⟩⟩
  rw [himg]
  apply Finset.card_image_of_injOn
  intro a ha b hb hab
  exact cellOf_inj N a b (hv a (List.mem_toFinset.mp ha)) (hv b (List.mem_toFinset.mp hb)) hab

theorem column_of_position (L : List Element) (hL : L.Pairwise cscOrder) (c p : Nat)
    (h1 : (L.map (fun e => e.col)).countP (fun a => decide (a < c)) ≤ p)
    (h2 : p < (L.map (fun e => e.col)).countP (fun a => decide (a < c + 1))) :
    p < L.length ∧ (L.getD p default).col = c := by
  have hsorted : (L.map (fun e => e.col)).Pairwise (fun a b => a ≤ b) := by
    rw [List.pairwise_map]
    apply List.Pairwise.imp _ hL
    intro a b hab
    rcases hab with h | h
    · exact le_of_lt h
    · exact le_of_eq h.1
  have hlen : p < (L.map (fun e => e.col)).length :=
    lt_of_lt_of_le h2 (List.countP_le_length _)
  have hp : p < L.length := by simpa using hlen
  have ha := sorted_count c _ hsorted p hlen
  have hb := sorted_count (c + 1) _ hsorted p hlen
  have hget : (L.map (fun e => e.col)).getD p 0 = (L.getD p default).col := by
    rw [List.getD_eq_getElem _ _ hlen, List.getD_eq_getElem _ _ hp, List.getElem_map]
  rw [hget] at ha hb
  refine ⟨hp, ?_⟩
  have h3 : ¬ (L.getD p default).col < c := fun h => absurd (ha.mp h) (by omega)
  have h4 := hb.mpr h2
  omega

theorem position_of_column (L : List Element) (hL : L.Pairwise cscOrder) (c p : Nat)
    (hp : p < L.length) (hc : (L.getD p default).col = c) :
    (L.map (fun e => e.col)).countP (fun a => decide (a < c)) ≤ p ∧
    p < (L.map (fun e => e.col)).countP (fun a => decide (a < c + 1)) := by
  have hsorted : (L.map (fun e => e.col)).Pairwise (fun a b => a ≤ b) := by
    rw [List.pairwise_map]
    apply List.Pairwise.imp _ hL
    intro a b hab
    rcases hab with h | h
    · exact le_of_lt h
    · exact le_of_eq h.1
  have hlen : p < (L.map (fun e => e.col)).length := by simpa using hp
  have ha := sorted_count c _ hsorted p hlen
  have hb := sorted_count (c + 1) _ hsorted p hlen
  have hget : (L.map (fun e => e.col)).getD p 0 = (L.getD p default).col := by
    rw [List.getD_eq_getElem _ _ hlen, List.getD_eq_getElem _ _ hp, List.getElem_map]
  rw [hget, hc] at ha hb
  constructor
  · by_contra h
    have := ha.mpr (by omega)
    omega
  · exact hb.mp (by omega)

theorem cscOrder_getD (L : List Element) (hL : L.Pairwise cscOrder) (p q : Nat) (hpq : p < q)
    (hq : q < L.length) : cscOrder (L.getD p default) (L.getD q default) := by
  rw [List.getD_eq_getElem _ _ (by omega : p < L.length), List.getD_eq_getElem _ _ hq]
  exact (List.pairwise_iff_getElem.mp hL) p q (by omega) hq hpq

theorem getD_map_row (L : List Element) (p : Nat) (hp : p < L.length) :
    (L.map (fun e => (e.row : Int))).getD p 0 = ((L.getD p default).row : Int) := by
  rw [List.getD_eq_getElem _ _ (by simpa using hp), List.getD_eq_getElem _ _ hp,
    List.getElem_map]

/-- C1: after `SMPnewMatrixKLUforCIDER (N)` and at least one declaration through
`SMPmakeEltKLUforCIDER`, all with `1 <= Row, Col <= N`, the conversion returns
and its arrays are a valid compressed-column form: `KLUmatrixNZ` is the number
of distinct declared coordinates, `KLUmatrixAp` has `N + 1` entries, is
non-decreasing and ends in `KLUmatrixNZ`, and the row indices of every column
are strictly increasing. This holds for every `qsort` that meets the contract
of the C library. -/
theorem C1_CSC_validity (qsort : QsortFn) (hq : QsortSpec qsort) (N : Nat)
    (coords : List (Nat × Nat)) (hne : coords ≠ [])
    (hv : ∀ rc ∈ coords, validCoord N rc) :
    ∃ M', SMPconvertCOOtoCSCKLUforCIDER qsort (declare N coords) = some M' ∧
      M'.SMPkluMatrix.KLUmatrixNZ = coords.toFinset.card ∧
      M'.SMPkluMatrix.KLUmatrixAp.length = N + 1 ∧
      M'.SMPkluMatrix.KLUmatrixAi.length = M'.SMPkluMatrix.KLUmatrixNZ ∧
      (∀ c, c < N →
        M'.SMPkluMatrix.KLUmatrixAp.getD c 0 ≤ M'.SMPkluMatrix.KLUmatrixAp.getD (c + 1) 0) ∧
      M'.SMPkluMatrix.KLUmatrixAp.getD N 0 = M'.SMPkluMatrix.KLUmatrixNZ ∧
      (∀ c, c < N → ∀ p q, M'.SMPkluMatrix.KLUmatrixAp.getD c 0 ≤ p → p < q →
        q < M'.SMPkluMatrix.KLUmatrixAp.getD (c + 1) 0 →
        M'.SMPkluMatrix.KLUmatrixAi.getD p 0 < M'.SMPkluMatrix.KLUmatrixAi.getD q 0) := by
  have hT := cooTables_declare N coords hv
  obtain ⟨rc0, hrc0⟩ := List.exists_mem_of_ne_nil coords hne
  obtain ⟨M', L, hconv, hcsc, hmem, _, hlen, hset, _, hNZ, hAi, hAplen, hAp, _, _⟩ :=
    convert_spec qsort hq N (declare N coords) _ hT
      ⟨cellOf N rc0, cellOf_lt N rc0 (hv rc0 hrc0), rc0, hrc0, rfl⟩
  refine ⟨M', hconv, ?_, hAplen, ?_, ?_, ?_, ?_⟩
  · rw [hNZ, hlen]
    exact declared_count N coords _ hv hset
  · rw [hAi, hNZ, List.length_map]
  · intro c hc
    rw [hAp c (by omega), hAp (c + 1) (by omega)]
    apply List.countP_mono_left
    intro a _ ha
    simp only [decide_eq_true_eq] at ha ⊢
    omega
  · rw [hAp N (le_refl _), hNZ]
    have : (L.map (fun e => e.col)).countP (fun a => decide (a < N))
        = (L.map (fun e => e.col)).length := by
      rw [List.countP_eq_length]
      intro a ha
      obtain ⟨e, he, rfl⟩ := List.mem_map.mp ha
      obtain ⟨i, hi, _, rfl⟩ := (hmem e).mp he
      simp only [cellElement, decide_eq_true_eq]
      apply Nat.mod_lt
      rcases Nat.eq_zero_or_pos N with h0 | h0
      · rw [h0] at hi; simp at hi
      · exact h0
    rw [this, List.length_map]
  · intro c hc p q hp hpq hq
    rw [hAp c (by omega)] at hp
    rw [hAp (c + 1) (by omega)] at hq
    obtain ⟨hq1, hq2⟩ := column_of_position L hcsc c q (by omega) hq
    obtain ⟨hp1, hp2⟩ := column_of_position L hcsc c p hp (by omega)
    rw [hAi, getD_map_row L p hp1, getD_map_row L q hq1]
    have := cscOrder_getD L hcsc p q hpq hq1
    rcases this with h | h
    · omega
    · exact_mod_cast h.2

/-- Witness of C1: six declarations (one repeated) in a matrix of dimension 3,
sorted by insertion sort. -/
theorem C1_CSC_validity_witness :
    ∃ M', SMPconvertCOOtoCSCKLUforCIDER insertionQsort
        (declare 3 [(3, 3), (1, 1), (3, 1), (1, 3), (3, 3), (2, 3)]) = some M' ∧
      M'.SMPkluMatrix.KLUmatrixNZ
        = ([(3, 3), (1, 1), (3, 1), (1, 3), (3, 3), (2, 3)] : List (Nat × Nat)).toFinset.card ∧
      M'.SMPkluMatrix.KLUmatrixAp.length = 3 + 1 ∧
      M'.SMPkluMatrix.KLUmatrixAi.length = M'.SMPkluMatrix.KLUmatrixNZ ∧
      (∀ c, c < 3 →
        M'.SMPkluMatrix.KLUmatrixAp.getD c 0 ≤ M'.SMPkluMatrix.KLUmatrixAp.getD (c + 1) 0) ∧
      M'.SMPkluMatrix.KLUmatrixAp.getD 3 0 = M'.SMPkluMatrix.KLUmatrixNZ ∧
      (∀ c, c < 3 → ∀ p q, M'.SMPkluMatrix.KLUmatrixAp.getD c 0 ≤ p → p < q →
        q < M'.SMPkluMatrix.KLUmatrixAp.getD (c + 1) 0 →
        M'.SMPkluMatrix.KLUmatrixAi.getD p 0 < M'.SMPkluMatrix.KLUmatrixAi.getD q 0) :=
  C1_CSC_validity insertionQsort insertionQsort_spec 3
    [(3, 3), (1, 1), (3, 1), (1, 3), (3, 3), (2, 3)] (by simp) (by simp [validCoord])

theorem filter_eq_singleton {α : Type} (f : α → Nat) :
    ∀ (l : List α) (e : α), (l.map f).Nodup → e ∈ l →
      l.filter (fun b => decide (f b = f e)) = [e] := by
  intro l
  induction l with
  | nil => intro e _ he; simp at he
  | cons x l ih =>
    intro e hnd he
    rw [List.map_cons, List.nodup_cons] at hnd
    rcases List.mem_cons.mp he with h | h
    · subst h
      rw [List.filter_cons_of_pos (by simp)]
      congr 1
      rw [List.filter_eq_nil_iff]
      intro b hb
      simp only [decide_eq_true_eq]
      intro hfb
      exact hnd.1 (hfb ▸ List.mem_map_of_mem f hb)
    · have hx : f x ≠ f e := by
        intro hfx
        exact hnd.1 (hfx ▸ List.mem_map_of_mem f h)
      rw [List.filter_cons_of_neg (by simpa using hx)]
      exact ih e hnd.2 h

/-- C2: for every declared coordinate `rc = (Row, Col)` the binding table holds
exactly one entry whose `COO` is the value slot of `rc` in the COO table (the
slot `SMPmakeEltKLUforCIDER` returned); its `CSC_Complex` is slot `2 * p` of the
CSC value array for the one position `p` of column `Col - 1` whose row index is
`Row - 1`; distinct entries have distinct destinations. So a value stored
through that entry is the value read at the CSC slot of `rc`. -/
theorem C2_binding_table (qsort : QsortFn) (hq : QsortSpec qsort) (N : Nat)
    (coords : List (Nat × Nat)) (hv : ∀ rc ∈ coords, validCoord N rc)
    (rc : Nat × Nat) (hrc : rc ∈ coords) :
    ∃ M', SMPconvertCOOtoCSCKLUforCIDER qsort (declare N coords) = some M' ∧
      (M'.SMPkluMatrix.KLUmatrixBindStructCOO.map (fun b => b.CSC_Complex)).Nodup ∧
      ∃ e p,
        M'.SMPkluMatrix.KLUmatrixBindStructCOO.filter
            (fun b => decide (b.COO = 2 * cellOf N rc)) = [e] ∧
        e.CSC_Complex = 2 * p ∧ p < M'.SMPkluMatrix.KLUmatrixNZ ∧
        M'.SMPkluMatrix.KLUmatrixAi.getD p 0 = ((rc.1 - 1 : Nat) : Int) ∧
        M'.SMPkluMatrix.KLUmatrixAp.getD (rc.2 - 1) 0 ≤ p ∧
        p < M'.SMPkluMatrix.KLUmatrixAp.getD (rc.2 - 1 + 1) 0 ∧
        (∀ p', M'.SMPkluMatrix.KLUmatrixAp.getD (rc.2 - 1) 0 ≤ p' →
          p' < M'.SMPkluMatrix.KLUmatrixAp.getD (rc.2 - 1 + 1) 0 →
          M'.SMPkluMatrix.KLUmatrixAi.getD p' 0 = ((rc.1 - 1 : Nat) : Int) → p' = p) ∧
        ∀ (Ax : List ℚ) (v : ℚ), Ax.length = 2 * M'.SMPkluMatrix.KLUmatrixNZ →
          (Ax.set e.CSC_Complex v).getD (2 * p) 0 = v := by
  have hT := cooTables_declare N coords hv
  have hvrc := hv rc hrc
  have hcell := cellOf_lt N rc hvrc
  obtain ⟨M', L, hconv, hcsc, hmem, hptr, _, _, _, hNZ, hAi, _, hAp, hBperm, _⟩ :=
    convert_spec qsort hq N (declare N coords) _ hT ⟨cellOf N rc, hcell, rc, hrc, rfl⟩
  have he0 : cellElement N (cellOf N rc) ∈ L := (hmem _).mpr ⟨_, hcell, ⟨rc, hrc, rfl⟩, rfl⟩
  obtain ⟨p, hp, hLp⟩ := List.getElem_of_mem he0
  have hLpD : L.getD p default = cellElement N (cellOf N rc) := by
    rw [List.getD_eq_getElem _ _ hp, hLp]
  have hrow : (L.getD p default).row = rc.1 - 1 := by
    rw [hLpD]; exact cellOf_div N rc hvrc
  have hcol : (L.getD p default).col = rc.2 - 1 := by
    rw [hLpD]; exact cellOf_mod N rc hvrc
  have hmapCOO : ((List.range L.length).map
      (fun i => (⟨(L.getD i default).pointer, 2 * i⟩ : BindKluElementCOO))).map
        (fun b => b.COO) = L.map (fun e => e.pointer) := by
    rw [List.map_map]
    exact range_map_getD_map L (fun e => e.pointer)
  have hmapCSC : ((List.range L.length).map
      (fun i => (⟨(L.getD i default).pointer, 2 * i⟩ : BindKluElementCOO))).map
        (fun b => b.CSC_Complex) = (List.range L.length).map (fun i => 2 * i) := by
    rw [List.map_map]
    rfl
  have hBCOO : (M'.SMPkluMatrix.KLUmatrixBindStructCOO.map (fun b => b.COO)).Nodup := by
    rw [(hBperm.map _).nodup_iff, hmapCOO]
    exact hptr
  have hBCSC : (M'.SMPkluMatrix.KLUmatrixBindStructCOO.map (fun b => b.CSC_Complex)).Nodup := by
    rw [(hBperm.map _).nodup_iff, hmapCSC]
    apply List.Nodup.map _ (List.nodup_range _)
    intro a b hab
    simp only at hab
    omega
  have heB : (⟨2 * cellOf N rc, 2 * p⟩ : BindKluElementCOO)
      ∈ M'.SMPkluMatrix.KLUmatrixBindStructCOO := by
    rw [hBperm.mem_iff, List.mem_map]
    refine ⟨p, List.mem_range.mpr hp, ?_⟩
    rw [hLpD]
    rfl
  have hpos := position_of_column L hcsc (rc.2 - 1) p hp hcol
  have hle : rc.2 - 1 + 1 ≤ N := by
    obtain ⟨_, _, h3, h4⟩ := hvrc
    omega
  refine ⟨M', hconv, hBCSC, ⟨2 * cellOf N rc, 2 * p⟩, p, ?_, rfl, by rw [hNZ]; exact hp, ?_, ?_,
    ?_, ?_, ?_⟩
  · exact filter_eq_singleton (fun b => b.COO) _ _ hBCOO heB
  · rw [hAi, getD_map_row L p hp, hrow]
  · rw [hAp _ (by omega)]; exact hpos.1
  · rw [hAp _ hle]; exact hpos.2
  · intro p' h1 h2 h3
    rw [hAp _ (by omega)] at h1
    rw [hAp _ hle] at h2
    obtain ⟨hp', hcol'⟩ := column_of_position L hcsc (rc.2 - 1) p' h1 h2
    rw [hAi, getD_map_row L p' hp'] at h3
    have hrow' : (L.getD p' default).row = rc.1 - 1 := by exact_mod_cast h3
    rcases Nat.lt_trichotomy p' p with h | h | h
    · have := cscOrder_getD L hcsc p' p h hp
      rcases this with h' | h'
      · omega
      · omega
    · exact h
    · have := cscOrder_getD L hcsc p p' h hp'
      rcases this with h' | h'
      · omega
      · omega
  · intro Ax v hAx
    show (Ax.set (2 * p) v).getD (2 * p) 0 = v
    rw [getD_set_eq_ite, if_pos ⟨rfl, by rw [hAx, hNZ]; omega⟩]

/-- Witness of C2: the coordinate `(3, 1)` among six declarations in a matrix of
dimension 3, sorted by insertion sort. -/
theorem C2_binding_table_witness :
    ∃ M', SMPconvertCOOtoCSCKLUforCIDER insertionQsort
        (declare 3 [(3, 3), (1, 1), (3, 1), (1, 3), (3, 3), (2, 3)]) = some M' ∧
      (M'.SMPkluMatrix.KLUmatrixBindStructCOO.map (fun b => b.CSC_Complex)).Nodup ∧
      ∃ e p,
        M'.SMPkluMatrix.KLUmatrixBindStructCOO.filter
            (fun b => decide (b.COO = 2 * cellOf 3 (3, 1))) = [e] ∧
        e.CSC_Complex = 2 * p ∧ p < M'.SMPkluMatrix.KLUmatrixNZ ∧
        M'.SMPkluMatrix.KLUmatrixAi.getD p 0 = ((3 - 1 : Nat) : Int) ∧
        M'.SMPkluMatrix.KLUmatrixAp.getD (1 - 1) 0 ≤ p ∧
        p < M'.SMPkluMatrix.KLUmatrixAp.getD (1 - 1 + 1) 0 ∧
        (∀ p', M'.SMPkluMatrix.KLUmatrixAp.getD (1 - 1) 0 ≤ p' →
          p' < M'.SMPkluMatrix.KLUmatrixAp.getD (1 - 1 + 1) 0 →
          M'.SMPkluMatrix.KLUmatrixAi.getD p' 0 = ((3 - 1 : Nat) : Int) → p' = p) ∧
        ∀ (Ax : List ℚ) (v : ℚ), Ax.length = 2 * M'.SMPkluMatrix.KLUmatrixNZ →
          (Ax.set e.CSC_Complex v).getD (2 * p) 0 = v :=
  C2_binding_table insertionQsort insertionQsort_spec 3
    [(3, 3), (1, 1), (3, 1), (1, 3), (3, 3), (2, 3)] (by simp [validCoord]) (3, 1) (by simp)

/-- C3 fails on the code: with no coordinate declared, `Compress` is called with
`nz = 0` and an empty column list, and its first statement reads `Ai [0]`: the
conversion makes an access outside an array, for every dimension. Were the word
read there `0`, the column pointers of dimension 2 would come out as `[0, 1, 1]`:
the loop `for (i = 1 ; i < nz ; i++)` leaves `i = 1`, which the last loop
stores. -/
theorem C3_empty_matrix_reads_outside :
    (∀ (Bp : List Nat) (n : Nat), Compress [] Bp n 0 = none) ∧
    (∀ (qsort : QsortFn) (N : Nat),
      SMPconvertCOOtoCSCKLUforCIDER qsort (declare N []) = none) ∧
    Compress [0] [0, 0, 0] 2 0 = some [0, 1, 1] := by
  refine ⟨fun _ _ => rfl, ?_, by decide⟩
  intro qsort N
  have hT := cooTables_declare N [] (fun rc h => absurd h (List.not_mem_nil rc))
  obtain ⟨_, h2, _, _, h5⟩ := hT
  have hzero : (List.range ((declare N []).SMPkluMatrix.KLUmatrixN
      * (declare N []).SMPkluMatrix.KLUmatrixN)).countP (cooSet (declare N []).SMPkluMatrix)
      = 0 := by
    rw [List.countP_eq_zero]
    intro i hi
    rw [h2] at hi
    obtain ⟨r, _⟩ := (h5 i (List.mem_range.mp hi)).2 (by simp)
    unfold cooSet
    rw [r]
    simp
  simp only [SMPconvertCOOtoCSCKLUforCIDER, hzero, rowSortLoop, Nat.lt_irrefl, if_false,
    List.range_zero, List.map_nil, Compress, List.getElem?_nil]

/-! ### Gmin loading: what is left unchanged -/

theorem countP_range_unique (p : Nat → Bool) (i : Nat) :
    ∀ n, i < n → p i = true → (∀ k, k < n → p k = true → k = i) →
      (List.range n).countP p = 1 := by
  intro n
  induction n with
  | zero => intro h; omega
  | succ n ih =>
    intro hi hp hu
    rw [List.range_succ, List.countP_append]
    by_cases hin : i = n
    · subst hin
      have h0 : (List.range i).countP p = 0 := by
        rw [List.countP_eq_zero]
        intro k hk
        have hk2 : k < i := List.mem_range.mp hk
        intro hpk
        have := hu k (by omega) hpk
        omega
      rw [h0]
      simp [hp]
    · have h1 := ih (by omega) hp (fun k hk hpk => hu k (by omega) hpk)
      rw [h1]
      have : p n = false := by
        by_contra hcon
        have hpn : p n = true := by simpa using hcon
        have := hu n (by omega) hpn
        omega
      simp [this]

theorem LoadGmin_CSC_untouched (diag : List (Option Nat)) (n : Int) (Gmin : ℚ) (mem : List ℚ)
    (q : Nat) (hq : ∀ i, i < n.toNat → diag.getD i none ≠ some q) :
    (LoadGmin_CSC diag n Gmin mem).getD q 0 = mem.getD q 0 := by
  by_cases hlt : q < mem.length
  · rw [LoadGmin_CSC_getD diag n Gmin mem q hlt]
    have : (List.range n.toNat).countP (fun i => decide (diag.getD i none = some q)) = 0 := by
      rw [List.countP_eq_zero]
      intro i hi
      have := hq i (List.mem_range.mp hi)
      simpa using this
    rw [this]
    simp
  · have h1 : mem.length ≤ q := by omega
    have h2 : (LoadGmin_CSC diag n Gmin mem).length ≤ q := by
      rw [LoadGmin_CSC_length]; exact h1
    rw [List.getD_eq_default _ _ h1, List.getD_eq_default _ _ h2]

/-- C11: `LoadGmin_CSC (diag, n, Gmin)` adds `Gmin` to the value slot that each
non-NULL `diag [i]`, `i < n`, points at (once for every such `i`, so exactly
`Gmin` where one entry points), and changes nothing else: the value array keeps
its length, a slot no such entry points at keeps its value, and the statement
that calls it leaves the diagonal pointers, the pattern arrays and the complex
values as they were; with `Gmin = 0` the value array is unchanged. -/
theorem C11_LoadGmin_CSC_frame (diag : List (Option Nat)) (n : Int) (Gmin : ℚ)
    (mem : List ℚ) (Matrix : SMPmatrix) :
    (LoadGmin_CSC diag n Gmin mem).length = mem.length ∧
    (∀ q, q < mem.length →
      (LoadGmin_CSC diag n Gmin mem).getD q 0
        = mem.getD q 0
          + ((List.range n.toNat).countP (fun i => decide (diag.getD i none = some q)) : ℚ)
            * Gmin) ∧
    (∀ q i, q < mem.length → i < n.toNat → diag.getD i none = some q →
      (∀ k, k < n.toNat → diag.getD k none = some q → k = i) →
      (LoadGmin_CSC diag n Gmin mem).getD q 0 = mem.getD q 0 + Gmin) ∧
    (∀ q, (∀ i, i < n.toNat → diag.getD i none ≠ some q) →
      (LoadGmin_CSC diag n Gmin mem).getD q 0 = mem.getD q 0) ∧
    (Gmin = 0 → LoadGmin_CSC diag n Gmin mem = mem) ∧
    (callLoadGmin_CSC Matrix Gmin).CKTkluAx
      = LoadGmin_CSC Matrix.CKTdiag_CSC (Matrix.CKTkluN : Int) Gmin Matrix.CKTkluAx ∧
    (callLoadGmin_CSC Matrix Gmin).CKTdiag_CSC = Matrix.CKTdiag_CSC ∧
    (callLoadGmin_CSC Matrix Gmin).CKTkluAp = Matrix.CKTkluAp ∧
    (callLoadGmin_CSC Matrix Gmin).CKTkluAi = Matrix.CKTkluAi ∧
    (callLoadGmin_CSC Matrix Gmin).CKTkluAx_Complex = Matrix.CKTkluAx_Complex ∧
    (callLoadGmin_CSC Matrix Gmin).CKTkluN = Matrix.CKTkluN ∧
    (callLoadGmin_CSC Matrix Gmin).CKTklunz = Matrix.CKTklunz := by
  refine ⟨LoadGmin_CSC_length diag n Gmin mem, fun q hq => LoadGmin_CSC_getD diag n Gmin mem q hq,
    ?_, fun q hq => LoadGmin_CSC_untouched diag n Gmin mem q hq, ?_,
    rfl, rfl, rfl, rfl, rfl, rfl, rfl⟩
  · intro q i hq hi hd hu
    rw [LoadGmin_CSC_getD diag n Gmin mem q hq,
      countP_range_unique (fun i => decide (diag.getD i none = some q)) i n.toNat hi
        (by simpa using hd) (fun k hk hpk => hu k hk (by simpa using hpk))]
    simp
  · intro h
    simp [LoadGmin_CSC, h]

/-! ### Ordering and factorization -/

/-- C12: in KLU mode each of `SMPpreOrder`, `SMPreorder`, `SMPcReorder`,
`SMPluFac` and `SMPcLUfac` leaves in `status` what its call of the library
reported, and returns 0 whenever that is `KLU_EMPTY_MATRIX`, whatever handle or
`int` the call itself returned. -/
theorem C12_empty_matrix_is_success (klu : KluBackend) (sp : SparseBackend)
    (Matrix : SMPmatrix) (PivTol PivRel Gmin : ℚ) (hmode : Matrix.CKTkluMODE = true) :
    ((SMPpreOrder klu sp Matrix).1.status
        = (klu.klu_analyze Matrix.CKTkluN Matrix.CKTkluAp Matrix.CKTkluAi).2.1 ∧
      ((SMPpreOrder klu sp Matrix).1.status = KluStatus.KLU_EMPTY_MATRIX →
        (SMPpreOrder klu sp Matrix).2 = 0)) ∧
    ((SMPreorder klu sp Matrix PivTol PivRel Gmin).1.status
        = (klu.klu_factor Matrix.CKTkluAp Matrix.CKTkluAi
            (callLoadGmin_CSC Matrix Gmin).CKTkluAx Matrix.CKTkluSymbolic).2.1 ∧
      ((SMPreorder klu sp Matrix PivTol PivRel Gmin).1.status = KluStatus.KLU_EMPTY_MATRIX →
        (SMPreorder klu sp Matrix PivTol PivRel Gmin).2 = 0)) ∧
    ((SMPcReorder klu sp Matrix PivTol PivRel).1.status
        = (klu.klu_z_factor Matrix.CKTkluAp Matrix.CKTkluAi Matrix.CKTkluAx_Complex
            Matrix.CKTkluSymbolic).2.1 ∧
      ((SMPcReorder klu sp Matrix PivTol PivRel).1.status = KluStatus.KLU_EMPTY_MATRIX →
        (SMPcReorder klu sp Matrix PivTol PivRel).2.1 = 0)) ∧
    ((SMPluFac klu sp Matrix PivTol Gmin).1.status
        = (klu.klu_refactor Matrix.CKTkluAp Matrix.CKTkluAi
            (callLoadGmin_CSC Matrix Gmin).CKTkluAx Matrix.CKTkluSymbolic
            Matrix.CKTkluNumeric).2.1 ∧
      ((SMPluFac klu sp Matrix PivTol Gmin).1.status = KluStatus.KLU_EMPTY_MATRIX →
        (SMPluFac klu sp Matrix PivTol Gmin).2 = 0)) ∧
    ((SMPcLUfac klu sp Matrix PivTol).1.status
        = (klu.klu_z_refactor Matrix.CKTkluAp Matrix.CKTkluAi Matrix.CKTkluAx_Complex
            Matrix.CKTkluSymbolic Matrix.CKTkluNumeric).2.1 ∧
      ((SMPcLUfac klu sp Matrix PivTol).1.status = KluStatus.KLU_EMPTY_MATRIX →
        (SMPcLUfac klu sp Matrix PivTol).2 = 0)) := by
  refine ⟨?_, ?_, ?_, ?_, ?_⟩
  · simp only [SMPpreOrder, hmode, if_true]
    split_ifs <;> simp_all
  · simp only [SMPreorder, hmode, if_true, callLoadGmin_CSC, ite_self]
    split_ifs <;> simp_all
  · simp only [SMPcReorder, hmode, if_true, ite_self]
    split_ifs <;> simp_all
  · simp only [SMPluFac, hmode, if_true, callLoadGmin_CSC]
    split_ifs <;> simp_all
  · simp only [SMPcLUfac, hmode, if_true]
    split_ifs <;> simp_all

/-- Witness of C12: the library that finds the matrix empty, called on the
initial state: every routine returns 0. -/
theorem C12_empty_matrix_is_success_witness :
    (SMPpreOrder emptyMatrixKlu {} {}).2 = 0 ∧
    (SMPreorder emptyMatrixKlu {} {} 0 0 0).2 = 0 ∧
    (SMPcReorder emptyMatrixKlu {} {} 0 0).2.1 = 0 ∧
    (SMPluFac emptyMatrixKlu {} {} 0 0).2 = 0 ∧
    (SMPcLUfac emptyMatrixKlu {} {} 0).2 = 0 :=
  have h := C12_empty_matrix_is_success emptyMatrixKlu {} {} 0 0 0 rfl
  ⟨h.1.2 rfl, h.2.1.2 rfl, h.2.2.1.2 rfl, h.2.2.2.1.2 rfl, h.2.2.2.2.2 rfl⟩

/-- C13: in KLU mode `SMPluFac` and `SMPcLUfac` return 0 exactly when the
refactor call of the library returned nonzero (success) or left the status
`KLU_EMPTY_MATRIX`, and 1 otherwise; `SMPreorder` and `SMPcReorder` return 0
exactly when the factor call returned a numeric handle or left the status
`KLU_EMPTY_MATRIX`, and 1 otherwise. So a factorization that the library fails
with the status `KLU_SINGULAR` gives 1 in each of the four. -/
theorem C13_definite_result (klu : KluBackend) (sp : SparseBackend) (Matrix : SMPmatrix)
    (PivTol PivRel Gmin : ℚ) (hmode : Matrix.CKTkluMODE = true) :
    (((SMPluFac klu sp Matrix PivTol Gmin).2 = 0 ↔
        ((klu.klu_refactor Matrix.CKTkluAp Matrix.CKTkluAi
            (callLoadGmin_CSC Matrix Gmin).CKTkluAx Matrix.CKTkluSymbolic
            Matrix.CKTkluNumeric).1 ≠ 0 ∨
          (klu.klu_refactor Matrix.CKTkluAp Matrix.CKTkluAi
            (callLoadGmin_CSC Matrix Gmin).CKTkluAx Matrix.CKTkluSymbolic
            Matrix.CKTkluNumeric).2.1 = KluStatus.KLU_EMPTY_MATRIX)) ∧
      ((SMPluFac klu sp Matrix PivTol Gmin).2 = 0 ∨ (SMPluFac klu sp Matrix PivTol Gmin).2 = 1) ∧
      ((klu.klu_refactor Matrix.CKTkluAp Matrix.CKTkluAi
            (callLoadGmin_CSC Matrix Gmin).CKTkluAx Matrix.CKTkluSymbolic
            Matrix.CKTkluNumeric).1 = 0 →
        (klu.klu_refactor Matrix.CKTkluAp Matrix.CKTkluAi
            (callLoadGmin_CSC Matrix Gmin).CKTkluAx Matrix.CKTkluSymbolic
            Matrix.CKTkluNumeric).2.1 = KluStatus.KLU_SINGULAR →
        (SMPluFac klu sp Matrix PivTol Gmin).2 = 1)) ∧
    (((SMPcLUfac klu sp Matrix PivTol).2 = 0 ↔
        ((klu.klu_z_refactor Matrix.CKTkluAp Matrix.CKTkluAi Matrix.CKTkluAx_Complex
            Matrix.CKTkluSymbolic Matrix.CKTkluNumeric).1 ≠ 0 ∨
          (klu.klu_z_refactor Matrix.CKTkluAp Matrix.CKTkluAi Matrix.CKTkluAx_Complex
            Matrix.CKTkluSymbolic Matrix.CKTkluNumeric).2.1 = KluStatus.KLU_EMPTY_MATRIX)) ∧
      ((SMPcLUfac klu sp Matrix PivTol).2 = 0 ∨ (SMPcLUfac klu sp Matrix PivTol).2 = 1) ∧
      ((klu.klu_z_refactor Matrix.CKTkluAp Matrix.CKTkluAi Matrix.CKTkluAx_Complex
            Matrix.CKTkluSymbolic Matrix.CKTkluNumeric).1 = 0 →
        (klu.klu_z_refactor Matrix.CKTkluAp Matrix.CKTkluAi Matrix.CKTkluAx_Complex
            Matrix.CKTkluSymbolic Matrix.CKTkluNumeric).2.1 = KluStatus.KLU_SINGULAR →
        (SMPcLUfac klu sp Matrix PivTol).2 = 1)) ∧
    (((SMPreorder klu sp Matrix PivTol PivRel Gmin).2 = 0 ↔
        ((klu.klu_factor Matrix.CKTkluAp Matrix.CKTkluAi
            (callLoadGmin_CSC Matrix Gmin).CKTkluAx Matrix.CKTkluSymbolic).1 ≠ none ∨
          (klu.klu_factor Matrix.CKTkluAp Matrix.CKTkluAi
            (callLoadGmin_CSC Matrix Gmin).CKTkluAx Matrix.CKTkluSymbolic).2.1
              = KluStatus.KLU_EMPTY_MATRIX)) ∧
      ((SMPreorder klu sp Matrix PivTol PivRel Gmin).2 = 0 ∨
        (SMPreorder klu sp Matrix PivTol PivRel Gmin).2 = 1) ∧
      ((klu.klu_factor Matrix.CKTkluAp Matrix.CKTkluAi
            (callLoadGmin_CSC Matrix Gmin).CKTkluAx Matrix.CKTkluSymbolic).1 = none →
        (klu.klu_factor Matrix.CKTkluAp Matrix.CKTkluAi
            (callLoadGmin_CSC Matrix Gmin).CKTkluAx Matrix.CKTkluSymbolic).2.1
              = KluStatus.KLU_SINGULAR →
        (SMPreorder klu sp Matrix PivTol PivRel Gmin).2 = 1)) ∧
    (((SMPcReorder klu sp Matrix PivTol PivRel).2.1 = 0 ↔
        ((klu.klu_z_factor Matrix.CKTkluAp Matrix.CKTkluAi Matrix.CKTkluAx_Complex
            Matrix.CKTkluSymbolic).1 ≠ none ∨
          (klu.klu_z_factor Matrix.CKTkluAp Matrix.CKTkluAi Matrix.CKTkluAx_Complex
            Matrix.CKTkluSymbolic).2.1 = KluStatus.KLU_EMPTY_MATRIX)) ∧
      ((SMPcReorder klu sp Matrix PivTol PivRel).2.1 = 0 ∨
        (SMPcReorder klu sp Matrix PivTol PivRel).2.1 = 1) ∧
      ((klu.klu_z_factor Matrix.CKTkluAp Matrix.CKTkluAi Matrix.CKTkluAx_Complex
            Matrix.CKTkluSymbolic).1 = none →
        (klu.klu_z_factor Matrix.CKTkluAp Matrix.CKTkluAi Matrix.CKTkluAx_Complex
            Matrix.CKTkluSymbolic).2.1 = KluStatus.KLU_SINGULAR →
        (SMPcReorder klu sp Matrix PivTol PivRel).2.1 = 1)) := by
  refine ⟨?_, ?_, ?_, ?_⟩
  · simp only [SMPluFac, hmode, if_true, callLoadGmin_CSC, lnot]
    split_ifs <;> simp_all
  · simp only [SMPcLUfac, hmode, if_true, lnot]
    split_ifs <;> simp_all
  · simp only [SMPreorder, hmode, if_true, callLoadGmin_CSC, ite_self]
    split_ifs <;> simp_all
  · simp only [SMPcReorder, hmode, if_true, ite_self]
    split_ifs <;> simp_all

/-- Witness of C13: the library that finds the matrix singular, called on the
initial state: every routine returns 1. -/
theorem C13_definite_result_witness :
    (SMPluFac singularKlu {} {} 0 0).2 = 1 ∧
    (SMPcLUfac singularKlu {} {} 0).2 = 1 ∧
    (SMPreorder singularKlu {} {} 0 0 0).2 = 1 ∧
    (SMPcReorder singularKlu {} {} 0 0).2.1 = 1 :=
  have h := C13_definite_result singularKlu {} {} 0 0 0 rfl
  ⟨h.1.2.2 rfl rfl, h.2.1.2.2 rfl rfl, h.2.2.1.2.2 rfl rfl, h.2.2.2.2.2 rfl rfl⟩

/-! ### Where the matrix is singular -/

/-- C14, counterexample: with the singular pivot in the internal row 0 and the
internal column 1, so that KLU reports `singular_col = 1`, `SMPgetError` does
not store `IntToExtRowMap [0 + 1] = 5` in `*Row`: it stores
`IntToExtRowMap [1 + 1] = 7`. -/
theorem C14_counterexample :
    ¬ (SMPgetError {} singularInColumnOne
        = some ((singularInColumnOne.IntToExtRowMap.getD (0 + 1) 0 : Int),
            (singularInColumnOne.IntToExtColMap.getD (1 + 1) 0 : Int))) ∧
    SMPgetError {} singularInColumnOne = some (7, 8) := by
  decide

/-- C14, amended: in KLU mode, with `c` the internal (0-based) column that the
library reports in `singular_col`, `SMPgetError` stores `IntToExtRowMap [c + 1]`
in `*Row` and `IntToExtColMap [c + 1]` in `*Col`: both come from the column
index and go through the maps to the external numbers. -/
theorem C14_SMPgetError_from_singular_col (sp : SparseBackend) (Matrix : SMPmatrix) (c : Nat)
    (hmode : Matrix.CKTkluMODE = true) (hc : Matrix.singular_col = (c : Int))
    (hRow : c + 1 < Matrix.IntToExtRowMap.length)
    (hCol : c + 1 < Matrix.IntToExtColMap.length) :
    SMPgetError sp Matrix
      = some ((Matrix.IntToExtRowMap.getD (c + 1) 0 : Int),
          (Matrix.IntToExtColMap.getD (c + 1) 0 : Int)) := by
  have hk : (Matrix.singular_col + 1).toNat = c + 1 := by rw [hc]; omega
  have h0 : 0 ≤ Matrix.singular_col + 1 := by rw [hc]; omega
  simp only [SMPgetError, hmode, if_true, if_pos h0, hk, List.get?_eq_getElem?,
    List.getElem?_eq_getElem hRow, List.getElem?_eq_getElem hCol,
    List.getD_eq_getElem _ _ hRow, List.getD_eq_getElem _ _ hCol]

/-- Witness of C14, amended: the matrix found singular in the internal column 1. -/
theorem C14_SMPgetError_from_singular_col_witness :
    SMPgetError {} singularInColumnOne
      = some ((singularInColumnOne.IntToExtRowMap.getD (1 + 1) 0 : Int),
          (singularInColumnOne.IntToExtColMap.getD (1 + 1) 0 : Int)) :=
  C14_SMPgetError_from_singular_col {} singularInColumnOne 1 rfl rfl (by decide) (by decide)

/-! ### Declaring an element twice -/

theorem SMPmakeEltKLUforCIDER_valid (N : Nat) (Matrix : SMPmatrix) (rc : Nat × Nat)
    (h1 : Matrix.CKTkluMODE = true) (h2 : Matrix.SMPkluMatrix.KLUmatrixN = N)
    (hrc : validCoord N rc) :
    SMPmakeEltKLUforCIDER Matrix rc.1 rc.2
      = ({ Matrix with
            SMPkluMatrix :=
              { Matrix.SMPkluMatrix with
                KLUmatrixRowCOO :=
                  Matrix.SMPkluMatrix.KLUmatrixRowCOO.set (cellOf N rc) ((rc.1 : Int) - 1)
                KLUmatrixColCOO :=
                  Matrix.SMPkluMatrix.KLUmatrixColCOO.set (cellOf N rc) ((rc.2 : Int) - 1) } },
          ElementHandle.ValueComplexCOO (2 * cellOf N rc)) := by
  obtain ⟨r1, r2, c1, c2⟩ := hrc
  have hidx : (((rc.1 : Int) - 1) * (Matrix.SMPkluMatrix.KLUmatrixN : Int)
      + ((rc.2 : Int) - 1)).toNat = cellOf N rc := by
    have e1 : ((rc.1 : Int) - 1) = ((rc.1 - 1 : Nat) : Int) := by omega
    have e2 : ((rc.2 : Int) - 1) = ((rc.2 - 1 : Nat) : Int) := by omega
    rw [e1, e2, h2, ← Nat.cast_mul, ← Nat.cast_add, Int.toNat_natCast]
    rfl
  have hpos : (rc.1 : Int) > 0 ∧ (rc.2 : Int) > 0 := by omega
  simp only [SMPmakeEltKLUforCIDER, h1, if_true, if_pos hpos, hidx]

theorem set_getD_self (l : List Int) (i : Nat) (v : Int) (hi : i < l.length)
    (h : l.getD i 0 = v) : l.set i v = l := by
  rw [List.getD_eq_getElem _ _ hi] at h
  apply List.ext_getElem
  · simp
  · intro j h1 h2
    rw [List.getElem_set]
    split
    · rename_i e
      subst e
      exact h.symm
    · rfl

/-- C15: in a matrix of dimension `N` made by `SMPnewMatrixKLUforCIDER` and any
declarations with `1 <= Row, Col <= N`, a call of `SMPmakeEltKLUforCIDER` with
such a `(Row, Col)` returns the slot `2 * ((Row - 1) * N + (Col - 1))` of
`KLUmatrixValueComplexCOO` and leaves `(Row - 1, Col - 1)` in the cell of the
COO tables that belongs to it; when `(Row, Col)` was declared before, the call
returns the same slot and leaves the matrix as it was; and two different
coordinates get different slots, whatever was declared before either call. -/
theorem C15_makeElt_get_or_create (N : Nat) (coords coords2 : List (Nat × Nat))
    (rc rc2 : Nat × Nat) (hv : ∀ c ∈ coords, validCoord N c)
    (hv2 : ∀ c ∈ coords2, validCoord N c) (hrc : validCoord N rc)
    (hrc2 : validCoord N rc2) :
    (SMPmakeEltKLUforCIDER (declare N coords) rc.1 rc.2).2
      = ElementHandle.ValueComplexCOO (2 * cellOf N rc) ∧
    (SMPmakeEltKLUforCIDER (declare N coords) rc.1 rc.2).1 = declare N (coords ++ [rc]) ∧
    (declare N (coords ++ [rc])).SMPkluMatrix.KLUmatrixRowCOO.getD (cellOf N rc) 0
      = (rc.1 : Int) - 1 ∧
    (declare N (coords ++ [rc])).SMPkluMatrix.KLUmatrixColCOO.getD (cellOf N rc) 0
      = (rc.2 : Int) - 1 ∧
    (rc ∈ coords →
      SMPmakeEltKLUforCIDER (declare N coords) rc.1 rc.2
        = (declare N coords, ElementHandle.ValueComplexCOO (2 * cellOf N rc))) ∧
    (rc ≠ rc2 →
      (SMPmakeEltKLUforCIDER (declare N coords) rc.1 rc.2).2
        ≠ (SMPmakeEltKLUforCIDER (declare N coords2) rc2.1 rc2.2).2) := by
  have hT := cooTables_declare N coords hv
  have hT2 := cooTables_declare N coords2 hv2
  have e1 := SMPmakeEltKLUforCIDER_valid N (declare N coords) rc hT.1 hT.2.1 hrc
  have e2 := SMPmakeEltKLUforCIDER_valid N (declare N coords2) rc2 hT2.1 hT2.2.1 hrc2
  have hv3 : ∀ c ∈ coords ++ [rc], validCoord N c := by
    intro c hc
    rcases List.mem_append.mp hc with h | h
    · exact hv c h
    · rw [List.mem_singleton.mp h]; exact hrc
  have hT3 := cooTables_declare N (coords ++ [rc]) hv3
  have hlt := cellOf_lt N rc hrc
  have hcell := (hT3.2.2.2.2 (cellOf N rc) hlt).1 ⟨rc, by simp, rfl⟩
  rw [cellOf_div N rc hrc, cellOf_mod N rc hrc] at hcell
  obtain ⟨r1, r2, c1, c2⟩ := hrc
  refine ⟨by rw [e1], ?_, by rw [hcell.1]; omega, by rw [hcell.2]; omega, ?_, ?_⟩
  · unfold declare
    rw [List.foldl_append]
    rfl
  · intro hmem
    have hc := (hT.2.2.2.2 (cellOf N rc) hlt).1 ⟨rc, hmem, rfl⟩
    rw [cellOf_div N rc ⟨r1, r2, c1, c2⟩, cellOf_mod N rc ⟨r1, r2, c1, c2⟩] at hc
    rw [e1, set_getD_self _ _ _ (by rw [hT.2.2.1]; exact hlt) (by rw [hc.1]; omega),
      set_getD_self _ _ _ (by rw [hT.2.2.2.1]; exact hlt) (by rw [hc.2]; omega)]
  · intro hne
    rw [e1, e2]
    intro heq
    have h3 : 2 * cellOf N rc = 2 * cellOf N rc2 := by
      simpa using heq
    exact hne (cellOf_inj N rc rc2 ⟨r1, r2, c1, c2⟩ hrc2 (by omega))

/-- Witness of C15: the coordinate (2, 3) in a matrix of dimension 3, after the
declarations of (1, 1) and (2, 3), against (3, 2) after the declaration of
(1, 1). -/
theorem C15_makeElt_get_or_create_witness :
    (SMPmakeEltKLUforCIDER (declare 3 [(1, 1), (2, 3)]) ((2, 3) : Nat × Nat).1
        ((2, 3) : Nat × Nat).2).2
      = ElementHandle.ValueComplexCOO (2 * cellOf 3 (2, 3)) ∧
    (SMPmakeEltKLUforCIDER (declare 3 [(1, 1), (2, 3)]) ((2, 3) : Nat × Nat).1
        ((2, 3) : Nat × Nat).2).1 = declare 3 ([(1, 1), (2, 3)] ++ [(2, 3)]) ∧
    (declare 3 ([(1, 1), (2, 3)] ++ [(2, 3)])).SMPkluMatrix.KLUmatrixRowCOO.getD
        (cellOf 3 (2, 3)) 0
      = (((2, 3) : Nat × Nat).1 : Int) - 1 ∧
    (declare 3 ([(1, 1), (2, 3)] ++ [(2, 3)])).SMPkluMatrix.KLUmatrixColCOO.getD
        (cellOf 3 (2, 3)) 0
      = (((2, 3) : Nat × Nat).2 : Int) - 1 ∧
    (((2, 3) : Nat × Nat) ∈ ([(1, 1), (2, 3)] : List (Nat × Nat)) →
      SMPmakeEltKLUforCIDER (declare 3 [(1, 1), (2, 3)]) ((2, 3) : Nat × Nat).1
          ((2, 3) : Nat × Nat).2
        = (declare 3 [(1, 1), (2, 3)], ElementHandle.ValueComplexCOO (2 * cellOf 3 (2, 3)))) ∧
    (((2, 3) : Nat × Nat) ≠ (3, 2) →
      (SMPmakeEltKLUforCIDER (declare 3 [(1, 1), (2, 3)]) ((2, 3) : Nat × Nat).1
          ((2, 3) : Nat × Nat).2).2
        ≠ (SMPmakeEltKLUforCIDER (declare 3 [(1, 1)]) ((3, 2) : Nat × Nat).1
            ((3, 2) : Nat × Nat).2).2) :=
  C15_makeElt_get_or_create 3 [(1, 1), (2, 3)] [(1, 1)] (2, 3) (3, 2)
    (by simp [validCoord]) (by simp [validCoord]) (by simp [validCoord])
    (by simp [validCoord])

/-! ### Clearing the values -/

theorem zeroLoop_length (n : Nat) (a : List ℚ) : (zeroLoop n a).length = a.length := by
  unfold zeroLoop
  induction n with
  | zero => rfl
  | succ n ih => rw [List.range_succ, List.foldl_append]; simpa using ih

theorem zeroLoop_getD (n : Nat) (a : List ℚ) (j : Nat) :
    (zeroLoop n a).getD j 0 = if j < n then 0 else a.getD j 0 := by
  induction n with
  | zero => simp [zeroLoop]
  | succ n ih =>
    have e : zeroLoop (n + 1) a = (zeroLoop n a).set n 0 := by
      unfold zeroLoop
      rw [List.range_succ, List.foldl_append]
      rfl
    rw [e, getD_set_eq_ite, ih]
    by_cases h1 : n = j
    · subst h1
      by_cases h2 : n < (zeroLoop n a).length
      · rw [if_pos ⟨rfl, h2⟩, if_pos (by omega)]
      · rw [if_neg (fun h => h2 h.2), if_neg (by omega), if_pos (by omega)]
        rw [zeroLoop_length] at h2
        exact List.getD_eq_default _ _ (by omega)
    · rw [if_neg (fun h => h1 h.1)]
      by_cases h3 : j < n
      · rw [if_pos h3, if_pos (by omega)]
      · rw [if_neg h3, if_neg (by omega)]

theorem zeroLoop_eq_replicate (n : Nat) (a : List ℚ) (h : a.length = n) :
    zeroLoop n a = List.replicate n 0 := by
  apply List.ext_getElem
  · rw [zeroLoop_length, h, List.length_replicate]
  · intro j h1 h2
    have := zeroLoop_getD n a j
    rw [List.getD_eq_getElem _ _ h1, if_pos (by simpa using h2)] at this
    rw [this, List.getElem_replicate]

/-- C16: in KLU mode `SMPclear` leaves 0 in each of the first `CKTklunz` slots
of `CKTkluAx` (the whole array, when it has `CKTklunz` slots) and `SMPcClear`
leaves 0 in each of the first `2 * CKTklunz` slots of `CKTkluAx_Complex`;
neither changes the column pointers, the row indices, the count of nonzeros or
the dimension. `SMPclearKLUforCIDER` does the same for the `2 * KLUmatrixNZ`
slots of `KLUmatrixAxComplex` and the pattern of `SMPkluMatrix`. -/
theorem C16_clear_values_keep_pattern (Matrix : SMPmatrix) (hmode : Matrix.CKTkluMODE = true) :
    ((∀ i, i < Matrix.CKTklunz → (SMPclear Matrix).CKTkluAx.getD i 0 = 0) ∧
      (SMPclear Matrix).CKTkluAx.length = Matrix.CKTkluAx.length ∧
      (Matrix.CKTkluAx.length = Matrix.CKTklunz →
        (SMPclear Matrix).CKTkluAx = List.replicate Matrix.CKTklunz 0) ∧
      (SMPclear Matrix).CKTkluAp = Matrix.CKTkluAp ∧
      (SMPclear Matrix).CKTkluAi = Matrix.CKTkluAi ∧
      (SMPclear Matrix).CKTklunz = Matrix.CKTklunz ∧
      (SMPclear Matrix).CKTkluN = Matrix.CKTkluN) ∧
    ((∀ i, i < 2 * Matrix.CKTklunz → (SMPcClear Matrix).CKTkluAx_Complex.getD i 0 = 0) ∧
      (SMPcClear Matrix).CKTkluAx_Complex.length = Matrix.CKTkluAx_Complex.length ∧
      (Matrix.CKTkluAx_Complex.length = 2 * Matrix.CKTklunz →
        (SMPcClear Matrix).CKTkluAx_Complex = List.replicate (2 * Matrix.CKTklunz) 0) ∧
      (SMPcClear Matrix).CKTkluAp = Matrix.CKTkluAp ∧
      (SMPcClear Matrix).CKTkluAi = Matrix.CKTkluAi ∧
      (SMPcClear Matrix).CKTklunz = Matrix.CKTklunz ∧
      (SMPcClear Matrix).CKTkluN = Matrix.CKTkluN) ∧
    ((∀ i, i < 2 * Matrix.SMPkluMatrix.KLUmatrixNZ →
        (SMPclearKLUforCIDER Matrix).SMPkluMatrix.KLUmatrixAxComplex.getD i 0 = 0) ∧
      (SMPclearKLUforCIDER Matrix).SMPkluMatrix.KLUmatrixAxComplex.length
        = Matrix.SMPkluMatrix.KLUmatrixAxComplex.length ∧
      (Matrix.SMPkluMatrix.KLUmatrixAxComplex.length = 2 * Matrix.SMPkluMatrix.KLUmatrixNZ →
        (SMPclearKLUforCIDER Matrix).SMPkluMatrix.KLUmatrixAxComplex
          = List.replicate (2 * Matrix.SMPkluMatrix.KLUmatrixNZ) 0) ∧
      (SMPclearKLUforCIDER Matrix).SMPkluMatrix.KLUmatrixAp = Matrix.SMPkluMatrix.KLUmatrixAp ∧
      (SMPclearKLUforCIDER Matrix).SMPkluMatrix.KLUmatrixAi = Matrix.SMPkluMatrix.KLUmatrixAi ∧
      (SMPclearKLUforCIDER Matrix).SMPkluMatrix.KLUmatrixNZ = Matrix.SMPkluMatrix.KLUmatrixNZ ∧
      (SMPclearKLUforCIDER Matrix).SMPkluMatrix.KLUmatrixN
        = Matrix.SMPkluMatrix.KLUmatrixN) := by
  refine ⟨?_, ?_, ?_⟩
  · simp only [SMPclear, hmode, if_true]
    refine ⟨fun i hi => ?_, zeroLoop_length _ _, fun h => zeroLoop_eq_replicate _ _ h,
      trivial, trivial, trivial, trivial⟩
    rw [zeroLoop_getD, if_pos hi]
  · simp only [SMPcClear, hmode, if_true]
    refine ⟨fun i hi => ?_, zeroLoop_length _ _, fun h => zeroLoop_eq_replicate _ _ h,
      trivial, trivial, trivial, trivial⟩
    rw [zeroLoop_getD, if_pos hi]
  · simp only [SMPclearKLUforCIDER]
    refine ⟨fun i hi => ?_, zeroLoop_length _ _, fun h => zeroLoop_eq_replicate _ _ h,
      trivial, trivial, trivial, trivial⟩
    rw [zeroLoop_getD, if_pos hi]

/-- Witness of C16: the three routines on the matrix with three nonzeros. -/
theorem C16_clear_values_keep_pattern_witness :
    (SMPclear threeNonzeros).CKTkluAx = List.replicate threeNonzeros.CKTklunz 0 ∧
    (SMPcClear threeNonzeros).CKTkluAx_Complex
      = List.replicate (2 * threeNonzeros.CKTklunz) 0 ∧
    (SMPclearKLUforCIDER threeNonzeros).SMPkluMatrix.KLUmatrixAxComplex
      = List.replicate (2 * threeNonzeros.SMPkluMatrix.KLUmatrixNZ) 0 :=
  have h := C16_clear_values_keep_pattern threeNonzeros rfl
  ⟨h.1.2.2.1 rfl, h.2.1.2.2.1 rfl, h.2.2.2.2.1 rfl⟩

/-! ### Finding an element -/

theorem findEltLoop_none (Ai : List Int) (Row : Int) :
    ∀ k i, (∀ q, i ≤ q → q < i + k → Ai.getD q 0 ≠ Row) → findEltLoop Ai Row k i = none := by
  intro k
  induction k with
  | zero => intro i _; rfl
  | succ k ih =>
    intro i h
    unfold findEltLoop
    rw [if_neg (h i (le_refl _) (by omega))]
    exact ih (i + 1) (fun q h1 h2 => h q (by omega) (by omega))

theorem findEltLoop_some (Ai : List Int) (Row : Int) (p : Nat) :
    ∀ k i, i ≤ p → p < i + k → Ai.getD p 0 = Row →
      (∀ q, i ≤ q → q < p → Ai.getD q 0 ≠ Row) → findEltLoop Ai Row k i = some p := by
  intro k
  induction k with
  | zero => intro i h1 h2; omega
  | succ k ih =>
    intro i h1 h2 h3 h4
    unfold findEltLoop
    by_cases hip : i = p
    · subst hip
      rw [if_pos h3]
    · rw [if_neg (h4 i (le_refl _) (by omega))]
      exact ih (i + 1) (by omega) (by omega) h3 (fun q h5 h6 => h4 q (by omega) h6)

/-- C17: in KLU mode, with `r = ExtToIntRowMap [Row] - 1` and
`c = ExtToIntColMap [Col] - 1`, and the row indices strictly increasing within
every column: `SMPfindElt` returns NULL when `r < 0` or `c < 0`; when `0 <= r`,
`0 <= c` and a position `p` with `CKTkluAp [c] <= p < CKTkluAp [c + 1]` and
`CKTkluAi [p] = r` exists, there is no other such position and it returns the
slot `p` of `CKTkluAx` for a real matrix and the slot `2 * p` of
`CKTkluAx_Complex` for a complex one; when no such position exists it returns
NULL. The flag `CreateIfMissing` has no part in it. -/
theorem C17_SMPfindElt_position (sp : SparseBackend) (eMatrix : SMPmatrix) (Row Col : Nat)
    (CreateIfMissing : Bool) (r c : Int) (hmode : eMatrix.CKTkluMODE = true)
    (hr : eMatrix.ExtToIntRowMap.getD Row 0 - 1 = r)
    (hc : eMatrix.ExtToIntColMap.getD Col 0 - 1 = c)
    (hstrict : ∀ j p q, eMatrix.CKTkluAp.getD j 0 ≤ p → p < q →
      q < eMatrix.CKTkluAp.getD (j + 1) 0 →
      eMatrix.CKTkluAi.getD p 0 < eMatrix.CKTkluAi.getD q 0) :
    (r < 0 ∨ c < 0 → SMPfindElt sp eMatrix Row Col CreateIfMissing = none) ∧
    (0 ≤ r → 0 ≤ c → ∀ p, eMatrix.CKTkluAp.getD c.toNat 0 ≤ p →
      p < eMatrix.CKTkluAp.getD (c.toNat + 1) 0 → eMatrix.CKTkluAi.getD p 0 = r →
      (∀ q, eMatrix.CKTkluAp.getD c.toNat 0 ≤ q → q < eMatrix.CKTkluAp.getD (c.toNat + 1) 0 →
        eMatrix.CKTkluAi.getD q 0 = r → q = p) ∧
      (eMatrix.CKTkluMatrixIsComplex = KluMatrixKind.CKTkluMatrixReal →
        SMPfindElt sp eMatrix Row Col CreateIfMissing = some (SMPelement.CKTkluAx p)) ∧
      (eMatrix.CKTkluMatrixIsComplex = KluMatrixKind.CKTkluMatrixComplex →
        SMPfindElt sp eMatrix Row Col CreateIfMissing
          = some (SMPelement.CKTkluAx_Complex (2 * p)))) ∧
    (0 ≤ r → 0 ≤ c →
      (∀ p, eMatrix.CKTkluAp.getD c.toNat 0 ≤ p → p < eMatrix.CKTkluAp.getD (c.toNat + 1) 0 →
        eMatrix.CKTkluAi.getD p 0 ≠ r) →
      SMPfindElt sp eMatrix Row Col CreateIfMissing = none) := by
  refine ⟨?_, ?_, ?_⟩
  · intro h
    simp only [SMPfindElt, hmode, if_true, hr, hc, if_pos h]
  · intro h1 h2 p hp1 hp2 hp3
    have hneg : ¬ (r < 0 ∨ c < 0) := by omega
    have huniq : ∀ q, eMatrix.CKTkluAp.getD c.toNat 0 ≤ q →
        q < eMatrix.CKTkluAp.getD (c.toNat + 1) 0 → eMatrix.CKTkluAi.getD q 0 = r → q = p := by
      intro q hq1 hq2 hq3
      rcases Nat.lt_trichotomy q p with h | h | h
      · have := hstrict c.toNat q p hq1 h hp2
        omega
      · exact h
      · have := hstrict c.toNat p q hp1 h hq2
        omega
    have hfind : findEltLoop eMatrix.CKTkluAi r
        (eMatrix.CKTkluAp.getD (c.toNat + 1) 0 - eMatrix.CKTkluAp.getD c.toNat 0)
        (eMatrix.CKTkluAp.getD c.toNat 0) = some p :=
      findEltLoop_some _ _ p _ _ hp1 (by omega) hp3
        (fun q hq1 hq2 hq3 => by have := huniq q hq1 (by omega) hq3; omega)
    refine ⟨huniq, ?_, ?_⟩
    · intro hk
      simp only [SMPfindElt, hmode, if_true, hr, hc, if_neg hneg, hfind, hk]
    · intro hk
      simp only [SMPfindElt, hmode, if_true, hr, hc, if_neg hneg, hfind, hk]
      rfl
  · intro h1 h2 hno
    have hneg : ¬ (r < 0 ∨ c < 0) := by omega
    have hfind : findEltLoop eMatrix.CKTkluAi r
        (eMatrix.CKTkluAp.getD (c.toNat + 1) 0 - eMatrix.CKTkluAp.getD c.toNat 0)
        (eMatrix.CKTkluAp.getD c.toNat 0) = none :=
      findEltLoop_none _ _ _ _ (fun q hq1 hq2 => hno q hq1 (by omega))
    simp only [SMPfindElt, hmode, if_true, hr, hc, if_neg hneg, hfind]

theorem threeNonzeros_strict :
    ∀ j p q, threeNonzeros.CKTkluAp.getD j 0 ≤ p → p < q →
      q < threeNonzeros.CKTkluAp.getD (j + 1) 0 →
      threeNonzeros.CKTkluAi.getD p 0 < threeNonzeros.CKTkluAi.getD q 0 := by
  intro j p q h1 h2 h3
  rcases j with _ | _ | j
  · have hq : q < 2 := h3
    have hp : p = 0 := by omega
    have hq1 : q = 1 := by omega
    subst hp hq1
    decide
  · have hq : q < 3 := h3
    have hp : 2 ≤ p := h1
    omega
  · have hq : q < 0 := h3
    omega

/-- Witness of C17: the element in the external row 2 and column 1 of the
matrix with three nonzeros is the position 1. -/
theorem C17_SMPfindElt_position_witness :
    SMPfindElt {} threeNonzeros 2 1 false = some (SMPelement.CKTkluAx 1) :=
  ((C17_SMPfindElt_position {} threeNonzeros 2 1 false 1 0 rfl rfl rfl
    threeNonzeros_strict).2.1 (by decide) (by decide) 1 (by decide) (by decide) rfl).2.1 rfl

/-- C18: in KLU mode `SMPfindElt` returns the same with `CreateIfMissing` true
as with it false, so it returns NULL for a position without element also when
the flag is true: in the matrix with the three nonzeros (1, 1), (2, 1), (2, 2)
the call for `Row = 1`, `Col = 2` with the flag true returns NULL. The other
branch hands the flag to `spcFindElementInCol`. -/
theorem C18_CreateIfMissing_not_read :
    (∀ (sp : SparseBackend) (eMatrix : SMPmatrix) (Row Col : Nat),
      eMatrix.CKTkluMODE = true →
      SMPfindElt sp eMatrix Row Col true = SMPfindElt sp eMatrix Row Col false) ∧
    SMPfindElt {} threeNonzeros 1 2 true = none ∧
    (∀ (sp : SparseBackend) (eMatrix : SMPmatrix) (Row Col : Nat) (CreateIfMissing : Bool),
      eMatrix.CKTkluMODE = false →
      SMPfindElt sp eMatrix Row Col CreateIfMissing
        = (sp.spcFindElementInCol (eMatrix.ExtToIntRowMap.getD Row 0)
            (eMatrix.ExtToIntColMap.getD Col 0) CreateIfMissing).map SMPelement.Element) := by
  refine ⟨?_, by decide, ?_⟩
  · intro sp eMatrix Row Col hmode
    simp only [SMPfindElt, hmode, if_true]
  · intro sp eMatrix Row Col flag hmode
    simp only [SMPfindElt, hmode]
    rfl

/-! ### Determinant in base 2 -/

theorem logb_spec (a : ℚ) (ha : a ≠ 0) :
    (2 : ℚ) ^ logb a ≤ |a| ∧ |a| < (2 : ℚ) ^ (logb a + 1) := by
  have hpos : 0 < |a| := abs_pos.mpr ha
  have h1 := Int.zpow_log_le_self (by norm_num : 1 < 2) hpos
  have h2 := Int.lt_zpow_succ_log_self (by norm_num : 1 < 2) |a|
  simp only [Nat.cast_ofNat] at h1 h2
  exact ⟨h1, h2⟩

theorem logb_eq (a : ℚ) (k : Int) (h1 : (2 : ℚ) ^ k ≤ |a|) (h2 : |a| < (2 : ℚ) ^ (k + 1)) :
    logb a = k := by
  have hpos : 0 < |a| := lt_of_lt_of_le (zpow_pos (by norm_num) k) h1
  have e1 : k ≤ Int.log 2 |a| := by
    rw [← Int.zpow_le_iff_le_log (by norm_num : 1 < 2) hpos]
    simpa using h1
  have e2 : Int.log 2 |a| < k + 1 := by
    rw [← Int.lt_zpow_iff_log_lt (by norm_num : 1 < 2) hpos]
    simpa using h2
  unfold logb
  omega

theorem scalbn_abs (a : ℚ) (n : Int) : |scalbn a n| = |a| * (2 : ℚ) ^ n := by
  unfold scalbn
  rw [abs_mul, abs_of_pos (zpow_pos (by norm_num : (0 : ℚ) < 2) n)]

theorem scalbn_lt_two (a : ℚ) (k y : Int) (h2 : |a| < (2 : ℚ) ^ (k + 1)) (hk : k ≤ y) :
    |scalbn a (-y)| < 2 := by
  rw [scalbn_abs]
  have hp : (0 : ℚ) < 2 ^ (-y) := zpow_pos (by norm_num) _
  calc |a| * (2 : ℚ) ^ (-y) < 2 ^ (k + 1) * 2 ^ (-y) := mul_lt_mul_of_pos_right h2 hp
    _ = 2 ^ (k + 1 + -y) := (zpow_add₀ (by norm_num) _ _).symm
    _ ≤ 2 ^ (1 : Int) := zpow_le_zpow_right₀ (by norm_num) (by omega)
    _ = 2 := zpow_one 2

theorem scalbn_ge_one (a : ℚ) (k : Int) (h1 : (2 : ℚ) ^ k ≤ |a|) : 1 ≤ |scalbn a (-k)| := by
  rw [scalbn_abs]
  have hp : (0 : ℚ) < 2 ^ (-k) := zpow_pos (by norm_num) _
  calc (1 : ℚ) = 2 ^ (k + -k) := by simp
    _ = 2 ^ k * 2 ^ (-k) := zpow_add₀ (by norm_num) _ _
    _ ≤ |a| * 2 ^ (-k) := mul_le_mul_of_nonneg_right h1 hp.le

theorem scalbn_zero (n : Int) : scalbn 0 n = 0 := by simp [scalbn]

theorem pow2Fraction_pos (p x : Int) : 0 < pow2Fraction p x := by
  unfold pow2Fraction
  exact div_pos (zpow_pos (by norm_num) _) (zpow_pos (by norm_num) _)

theorem pow2Fraction_mul (p x : Int) : pow2Fraction p x * (2 : ℚ) ^ x = (10 : ℚ) ^ p := by
  unfold pow2Fraction
  have : (2 : ℚ) ^ x ≠ 0 := (zpow_pos (by norm_num) _).ne'
  field_simp

theorem pow2Fraction_ge_one (p : Int) (hp : 0 ≤ p) : 1 ≤ pow2Fraction p (intPartLog2 p) := by
  unfold pow2Fraction intPartLog2
  rw [if_pos hp, le_div_iff₀ (zpow_pos (by norm_num) _), one_mul]
  obtain ⟨n, rfl⟩ := Int.eq_ofNat_of_zero_le hp
  simp only [Int.toNat_ofNat, zpow_natCast]
  have := Nat.pow_log_le_self 2 (show 10 ^ n ≠ 0 by positivity)
  exact_mod_cast this

theorem SMPcDProd_base2_eq (p : Int) (re im : ℚ) :
    ∃ y : Int,
      SMPcDProd_base2 p re im
        = (⟨scalbn (re * pow2Fraction p (intPartLog2 p)) (-y),
            scalbn (im * pow2Fraction p (intPartLog2 p)) (-y)⟩, intPartLog2 p + y) ∧
      (re ≠ 0 → im ≠ 0 →
        y = max (logb (re * pow2Fraction p (intPartLog2 p)))
          (logb (im * pow2Fraction p (intPartLog2 p)))) ∧
      (re ≠ 0 → im = 0 → y = max (logb (re * pow2Fraction p (intPartLog2 p))) 0) ∧
      (re = 0 → im ≠ 0 → y = max 0 (logb (im * pow2Fraction p (intPartLog2 p)))) ∧
      (re = 0 → im = 0 → y = 0) := by
  have hz := (pow2Fraction_pos p (intPartLog2 p)).ne'
  refine ⟨_, rfl, ?_, ?_, ?_, ?_⟩
  · intro h1 h2
    have e1 : re * pow2Fraction p (intPartLog2 p) ≠ 0 := mul_ne_zero h1 hz
    have e2 : im * pow2Fraction p (intPartLog2 p) ≠ 0 := mul_ne_zero h2 hz
    rw [if_pos e1, if_pos e2]
    simp only
    split
    · rw [max_eq_right (by omega)]
    · rw [max_eq_left (by omega)]
  · intro h1 h2
    have e1 : re * pow2Fraction p (intPartLog2 p) ≠ 0 := mul_ne_zero h1 hz
    have e2 : ¬ (im * pow2Fraction p (intPartLog2 p) ≠ 0) := by simp [h2]
    rw [if_pos e1, if_neg e2]
    simp only
    split
    · rw [max_eq_right (by omega)]
    · rw [max_eq_left (by omega)]
  · intro h1 h2
    have e1 : ¬ (re * pow2Fraction p (intPartLog2 p) ≠ 0) := by simp [h1]
    have e2 : im * pow2Fraction p (intPartLog2 p) ≠ 0 := mul_ne_zero h2 hz
    rw [if_neg e1, if_pos e2]
    simp only
    split
    · rw [max_eq_right (by omega)]
    · rw [max_eq_left (by omega)]
  · intro h1 h2
    have e1 : ¬ (re * pow2Fraction p (intPartLog2 p) ≠ 0) := by simp [h1]
    have e2 : ¬ (im * pow2Fraction p (intPartLog2 p) ≠ 0) := by simp [h2]
    rw [if_neg e1, if_neg e2]
    simp

theorem scalbn_back (a z T : ℚ) (x y : Int) (hz : z * (2 : ℚ) ^ x = T) :
    scalbn (a * z) (-y) * (2 : ℚ) ^ (x + y) = a * T := by
  unfold scalbn
  have e : (2 : ℚ) ^ (-y) * (2 : ℚ) ^ (x + y) = (2 : ℚ) ^ x := by
    rw [← zpow_add₀ (by norm_num : (2 : ℚ) ≠ 0)]
    congr 1
    omega
  calc a * z * (2 : ℚ) ^ (-y) * (2 : ℚ) ^ (x + y)
      = a * z * ((2 : ℚ) ^ (-y) * (2 : ℚ) ^ (x + y)) := by ring
    _ = a * (z * (2 : ℚ) ^ x) := by rw [e]; ring
    _ = a * T := by rw [hz]

theorem SMPcDProd_base2_value (p : Int) (re im : ℚ) :
    (SMPcDProd_base2 p re im).1.Real * (2 : ℚ) ^ (SMPcDProd_base2 p re im).2
      = re * (10 : ℚ) ^ p ∧
    (SMPcDProd_base2 p re im).1.Imag * (2 : ℚ) ^ (SMPcDProd_base2 p re im).2
      = im * (10 : ℚ) ^ p := by
  obtain ⟨y, e, _⟩ := SMPcDProd_base2_eq p re im
  rw [e]
  exact ⟨scalbn_back _ _ _ _ _ (pow2Fraction_mul _ _), scalbn_back _ _ _ _ _ (pow2Fraction_mul _ _)⟩

theorem SMPcDProd_base2_norm (p : Int) (re im : ℚ)
    (h : (re ≠ 0 ∧ im ≠ 0) ∨ ((re ≠ 0 ∨ im ≠ 0) ∧ 0 ≤ p ∧ 1 ≤ max |re| |im|)) :
    1 ≤ max |(SMPcDProd_base2 p re im).1.Real| |(SMPcDProd_base2 p re im).1.Imag| ∧
    max |(SMPcDProd_base2 p re im).1.Real| |(SMPcDProd_base2 p re im).1.Imag| < 2 := by
  obtain ⟨y, e, hy1, hy2, hy3, _⟩ := SMPcDProd_base2_eq p re im
  have hzpos := pow2Fraction_pos p (intPartLog2 p)
  have hz1 := pow2Fraction_ge_one p
  rw [e]
  simp only
  generalize pow2Fraction p (intPartLog2 p) = z at *
  -- the case of two nonzero components
  have both : ∀ a b : ℚ, a ≠ 0 → b ≠ 0 → ∀ y : Int, y = max (logb a) (logb b) →
      1 ≤ max |scalbn a (-y)| |scalbn b (-y)| ∧ max |scalbn a (-y)| |scalbn b (-y)| < 2 := by
    intro a b ha hb y hy
    obtain ⟨a1, a2⟩ := logb_spec a ha
    obtain ⟨b1, b2⟩ := logb_spec b hb
    have ha2 := scalbn_lt_two a (logb a) y a2 (by rw [hy]; exact le_max_left _ _)
    have hb2 := scalbn_lt_two b (logb b) y b2 (by rw [hy]; exact le_max_right _ _)
    refine ⟨?_, max_lt ha2 hb2⟩
    rcases le_total (logb a) (logb b) with hle | hle
    · rw [max_eq_right hle] at hy
      rw [hy]
      exact le_max_of_le_right (scalbn_ge_one b _ b1)
    · rw [max_eq_left hle] at hy
      rw [hy]
      exact le_max_of_le_left (scalbn_ge_one a _ a1)
  -- the case of one nonzero component of magnitude at least 1
  have one : ∀ a : ℚ, 1 ≤ |a| → ∀ y : Int, y = max (logb a) 0 →
      1 ≤ |scalbn a (-y)| ∧ |scalbn a (-y)| < 2 := by
    intro a ha y hy
    have ha0 : a ≠ 0 := by
      intro h0
      rw [h0, abs_zero] at ha
      norm_num at ha
    obtain ⟨a1, a2⟩ := logb_spec a ha0
    have hnn : 0 ≤ logb a := by
      have hpos : 0 < |a| := abs_pos.mpr ha0
      have := (Int.zpow_le_iff_le_log (by norm_num : 1 < 2) hpos (x := 0)).mp (by simpa using ha)
      exact this
    rw [max_eq_left hnn] at hy
    rw [hy]
    exact ⟨scalbn_ge_one a _ a1, scalbn_lt_two a _ _ a2 (le_refl _)⟩
  rcases h with ⟨h1, h2⟩ | ⟨hnz, hp, hge⟩
  · exact both _ _ (mul_ne_zero h1 hzpos.ne') (mul_ne_zero h2 hzpos.ne') y (hy1 h1 h2)
  · have hz1 : 1 ≤ z := hz1 hp
    have hscale : ∀ a : ℚ, 1 ≤ |a| → 1 ≤ |a * z| := by
      intro a ha
      rw [abs_mul, abs_of_pos hzpos]
      calc (1 : ℚ) = 1 * 1 := by norm_num
        _ ≤ |a| * z := mul_le_mul ha hz1 (by norm_num) (abs_nonneg _)
    by_cases h1 : re = 0
    · have h2 : im ≠ 0 := by tauto
      subst h1
      rw [abs_zero, max_eq_right (abs_nonneg _)] at hge
      rw [zero_mul, scalbn_zero, abs_zero, max_eq_right (abs_nonneg _)]
      exact one _ (hscale im hge) y (by rw [max_comm]; exact hy3 rfl h2)
    · by_cases h2 : im = 0
      · subst h2
        rw [abs_zero, max_eq_left (abs_nonneg _)] at hge
        rw [zero_mul, scalbn_zero, abs_zero, max_eq_left (abs_nonneg _)]
        exact one _ (hscale re hge) y (hy2 h1 rfl)
      · exact both _ _ (mul_ne_zero h1 hzpos.ne') (mul_ne_zero h2 hzpos.ne') y (hy1 h1 h2)

theorem spDeterminant_KLU_fourPlusI (im : ℚ) :
    spDeterminant_KLU fourPlusI complexOne im
      = some { pExponent := 0, pDeterminant := 4, piDeterminant := 1,
               calls := [BackendCall.klu_z_extract_Udiag] } := by
  have hp : CMPLX_MULT_ASSIGN ⟨1, 0⟩ (CMPLX_RECIPROCAL
      ⟨1 / (fourPlusI.klu_z_extract_Udiag.Ux.getD 0 0 * fourPlusI.klu_z_extract_Udiag.Rs.getD 0 0),
        fourPlusI.klu_z_extract_Udiag.Uz.getD 0 0 * fourPlusI.klu_z_extract_Udiag.Rs.getD 0 0⟩)
      = ⟨4, 1⟩ := by
    norm_num [CMPLX_MULT_ASSIGN, CMPLX_RECIPROCAL, fourPlusI]
  have hstep : cScaleStep ⟨4, 1⟩ 0 = some (⟨4, 1⟩, 0) :=
    cScaleStep_id _ _ (by norm_num [NORM, ABS, MAX]) (by norm_num [NORM, ABS, MAX])
  have hfin : cScaleFinal ⟨4, 1⟩ 0 = some (⟨4, 1⟩, 0) :=
    cScaleFinal_id _ _ (by norm_num [NORM, ABS, MAX]) (by norm_num [NORM, ABS, MAX])
  have hloop : cDeterminantLoop fourPlusI.klu_z_extract_Udiag.Ux
      fourPlusI.klu_z_extract_Udiag.Uz fourPlusI.klu_z_extract_Udiag.Rs 1 0 ⟨1, 0⟩ 0
      = some (⟨4, 1⟩, 0) := by
    rw [cDeterminantLoop_succ, hp, hstep]
    rfl
  have hN : complexOne.CKTkluN - 0 = 1 := rfl
  simp only [spDeterminant_KLU, hN]
  rw [hloop]
  simp [hfin, countMismatch, fourPlusI, complexOne, List.range_succ]

theorem spDeterminant_KLU_oneTenth (im : ℚ) :
    spDeterminant_KLU oneTenth complexOne im
      = some { pExponent := -1, pDeterminant := 1, piDeterminant := 0,
               calls := [BackendCall.klu_z_extract_Udiag] } := by
  have hp : CMPLX_MULT_ASSIGN ⟨1, 0⟩ (CMPLX_RECIPROCAL
      ⟨1 / (oneTenth.klu_z_extract_Udiag.Ux.getD 0 0 * oneTenth.klu_z_extract_Udiag.Rs.getD 0 0),
        oneTenth.klu_z_extract_Udiag.Uz.getD 0 0 * oneTenth.klu_z_extract_Udiag.Rs.getD 0 0⟩)
      = ⟨1 / 10, 0⟩ := by
    norm_num [CMPLX_MULT_ASSIGN, CMPLX_RECIPROCAL, oneTenth]
  have hstep : cScaleStep ⟨1 / 10, 0⟩ 0 = some (⟨1 / 10, 0⟩, 0) :=
    cScaleStep_id _ _ (by norm_num [NORM, ABS, MAX]) (by norm_num [NORM, ABS, MAX])
  have hfuel : floorNat (1 / NORM ⟨1 / 10, 0⟩) = 9 + 1 := by
    norm_num [floorNat, NORM, ABS, MAX]
  have hfin : cScaleFinal ⟨1 / 10, 0⟩ 0 = some (⟨1, 0⟩, -1) := by
    have h0 : NORM ⟨1 / 10, 0⟩ ≠ 0 := by norm_num [NORM, ABS, MAX]
    have h1 : ¬ NORM ⟨1 / 10, 0⟩ ≥ 10 := by norm_num [NORM, ABS, MAX]
    have h2 : NORM ⟨1 / 10, 0⟩ < 1 := by norm_num [NORM, ABS, MAX]
    have h3 : ¬ NORM ⟨1 / 10 * 10, 0 * 10⟩ < 1 := by norm_num [NORM, ABS, MAX]
    have hsucc : cScaleWhileLT 1 10 1 (9 + 1) ⟨1 / 10, 0⟩ 0
        = if NORM ⟨1 / 10, 0⟩ < 1 then cScaleWhileLT 1 10 1 9 ⟨1 / 10 * 10, 0 * 10⟩ (0 - 1)
          else some (⟨1 / 10, 0⟩, 0) := rfl
    simp only [cScaleFinal, if_pos h0, cScaleWhileGE_exit _ _ _ _ _ _ h1, hfuel, hsucc,
      if_pos h2, cScaleWhileLT_exit _ _ _ _ _ _ h3]
    norm_num
  have hloop : cDeterminantLoop oneTenth.klu_z_extract_Udiag.Ux
      oneTenth.klu_z_extract_Udiag.Uz oneTenth.klu_z_extract_Udiag.Rs 1 0 ⟨1, 0⟩ 0
      = some (⟨1 / 10, 0⟩, 0) := by
    rw [cDeterminantLoop_succ, hp, hstep]
    rfl
  have hN : complexOne.CKTkluN - 0 = 1 := rfl
  simp only [spDeterminant_KLU, hN]
  rw [hloop]
  simp only [hfin]
  simp [countMismatch, oneTenth, complexOne, List.range_succ]

theorem SMPcDProd_base2_four_one :
    SMPcDProd_base2 0 4 1 = (⟨1, 1 / 4⟩, 2) := by
  have hx : intPartLog2 0 = 0 := by simp [intPartLog2]
  have hz : pow2Fraction 0 0 = 1 := by simp [pow2Fraction]
  obtain ⟨y, e, hy, _⟩ := SMPcDProd_base2_eq 0 4 1
  rw [hx, hz] at e hy
  have h4 : logb (4 * 1) = 2 := logb_eq _ 2 (by norm_num) (by norm_num [abs_of_pos])
  have h1 : logb (1 * 1) = 0 := logb_eq _ 0 (by norm_num) (by norm_num)
  have hy2 : y = 2 := by
    rw [hy (by norm_num) (by norm_num), h4, h1]
    rfl
  rw [e, hy2]
  norm_num [scalbn]

theorem SMPcDProd_base2_tenth :
    SMPcDProd_base2 (-1) 1 0 = (⟨4 / 5, 0⟩, -3) := by
  have hlog : Nat.log 2 10 = 3 := by
    apply Nat.log_eq_of_pow_le_of_lt_pow <;> norm_num
  have hx : intPartLog2 (-1) = -3 := by
    simp [intPartLog2, hlog]
  have hz : pow2Fraction (-1) (-3) = 4 / 5 := by
    norm_num [pow2Fraction]
  obtain ⟨y, e, _, hy, _⟩ := SMPcDProd_base2_eq (-1) 1 0
  rw [hx, hz] at e hy
  have h1 : logb (1 * (4 / 5)) = -1 :=
    logb_eq _ (-1) (by norm_num [abs_of_pos]) (by norm_num [abs_of_pos])
  have hy2 : y = 0 := by
    rw [hy (by norm_num) rfl, h1]
    rfl
  rw [e, hy2]
  norm_num [scalbn]

/-- C19, counterexample: for the determinant `(4 + i) * 10 ^ 0`, `SMPcDProd`
returns the mantissa `1 + i / 4` with the exponent 2, whose imaginary part is
not in `[1, 2)` in magnitude; and for the determinant `1 * 10 ^ (-1)` it returns
the mantissa `4 / 5` with the exponent -3, of which neither part is in `[1, 2)`
(`z = 0` for the zero imaginary part is above `logb` of the real part). -/
theorem C19_counterexample :
    (spDeterminant_KLU fourPlusI complexOne 0
        = some { pExponent := 0, pDeterminant := 4, piDeterminant := 1,
                 calls := [BackendCall.klu_z_extract_Udiag] } ∧
      ∃ out, SMPcDProd fourPlusI {} complexOne 0 = some out ∧
        out = { pMantissa := ⟨1, 1 / 4⟩, pExponent := 2, ret := 0 } ∧
        ¬ (1 ≤ |out.pMantissa.Imag| ∧ |out.pMantissa.Imag| < 2)) ∧
    (spDeterminant_KLU oneTenth complexOne 0
        = some { pExponent := -1, pDeterminant := 1, piDeterminant := 0,
                 calls := [BackendCall.klu_z_extract_Udiag] } ∧
      ∃ out, SMPcDProd oneTenth {} complexOne 0 = some out ∧
        out = { pMantissa := ⟨4 / 5, 0⟩, pExponent := -3, ret := 0 } ∧
        ¬ (1 ≤ |out.pMantissa.Real| ∧ |out.pMantissa.Real| < 2) ∧
        ¬ (1 ≤ |out.pMantissa.Imag| ∧ |out.pMantissa.Imag| < 2)) := by
  have hmode : complexOne.CKTkluMODE = true := rfl
  refine ⟨⟨spDeterminant_KLU_fourPlusI 0, _, ?_, rfl, ?_⟩,
    ⟨spDeterminant_KLU_oneTenth 0, _, ?_, rfl, ?_, ?_⟩⟩
  · simp only [SMPcDProd, hmode, if_true, spDeterminant_KLU_fourPlusI, SMPcDProd_base2_four_one]
  · norm_num [abs_of_pos]
  · simp only [SMPcDProd, hmode, if_true, spDeterminant_KLU_oneTenth, SMPcDProd_base2_tenth]
  · norm_num [abs_of_pos]
  · norm_num

/-- C19, amended: for the base-10 pair `(re, im) * 10 ^ p` that the determinant
routine hands over, `SMPcDProd` returns, in exact arithmetic, a mantissa and an
exponent with `mantissa * 2 ^ exponent = (re, im) * 10 ^ p`; and when both `re`
and `im` are nonzero, or one is and `0 <= p` and `1 <= max (|re|, |im|)`, the
larger of the magnitudes of the two parts of the mantissa is in `[1, 2)`. -/
theorem C19_base2_larger_component (klu : KluBackend) (sp : SparseBackend) (Matrix : SMPmatrix)
    (im0 : ℚ) (p : Int) (re im : ℚ)
    (hdet : (Matrix.CKTkluMODE = true ∧ ∃ d, spDeterminant_KLU klu Matrix im0 = some d ∧
        d.pExponent = p ∧ d.pDeterminant = re ∧ d.piDeterminant = im) ∨
      (Matrix.CKTkluMODE = false ∧ sp.spDeterminant = (p, re, im))) :
    ∃ out, SMPcDProd klu sp Matrix im0 = some out ∧
      out.pMantissa.Real * (2 : ℚ) ^ out.pExponent = re * (10 : ℚ) ^ p ∧
      out.pMantissa.Imag * (2 : ℚ) ^ out.pExponent = im * (10 : ℚ) ^ p ∧
      ((re ≠ 0 ∧ im ≠ 0) ∨ ((re ≠ 0 ∨ im ≠ 0) ∧ 0 ≤ p ∧ 1 ≤ max |re| |im|) →
        1 ≤ max |out.pMantissa.Real| |out.pMantissa.Imag| ∧
        max |out.pMantissa.Real| |out.pMantissa.Imag| < 2) := by
  have hv := SMPcDProd_base2_value p re im
  rcases hdet with ⟨hmode, d, hd, h1, h2, h3⟩ | ⟨hmode, hd⟩
  · refine ⟨_, by simp only [SMPcDProd, hmode, if_true, hd, h1, h2, h3]; rfl, hv.1, hv.2, ?_⟩
    exact SMPcDProd_base2_norm p re im
  · refine ⟨_, by simp only [SMPcDProd, hmode, hd]; rfl, hv.1, hv.2, ?_⟩
    exact SMPcDProd_base2_norm p re im

/-- Witness of C19, amended: the determinant `(4 + i) * 10 ^ 0`. -/
theorem C19_base2_larger_component_witness :
    ∃ out, SMPcDProd fourPlusI {} complexOne 0 = some out ∧
      out.pMantissa.Real * (2 : ℚ) ^ out.pExponent = 4 * (10 : ℚ) ^ (0 : Int) ∧
      out.pMantissa.Imag * (2 : ℚ) ^ out.pExponent = 1 * (10 : ℚ) ^ (0 : Int) ∧
      (((4 : ℚ) ≠ 0 ∧ (1 : ℚ) ≠ 0) ∨
          (((4 : ℚ) ≠ 0 ∨ (1 : ℚ) ≠ 0) ∧ (0 : Int) ≤ 0 ∧ 1 ≤ max |(4 : ℚ)| |(1 : ℚ)|) →
        1 ≤ max |out.pMantissa.Real| |out.pMantissa.Imag| ∧
        max |out.pMantissa.Real| |out.pMantissa.Imag| < 2) :=
  C19_base2_larger_component fourPlusI {} complexOne 0 0 4 1
    (Or.inl ⟨rfl, _, spDeterminant_KLU_fourPlusI 0, rfl, rfl, rfl⟩)

/-! ### Column pointers of `Compress` -/

/-- C20: for every `n`, every `nz >= 1` and every non-decreasing list `Ai` of
`nz` column indices below `n`, `Compress (Ai, Bp, n, nz)` returns, and for every
`j` in `0 .. n` it sets `Bp [j]` to the number of entries whose column is below
`j`, which is the index of the first entry whose column is at least `j` (`nz`
when there is none); a column without entries has the pointer of the next one. -/
theorem C20_Compress_column_pointers (Ai Bp : List Nat) (n : Nat) (hnz : 1 ≤ Ai.length)
    (hmono : Ai.Pairwise (fun a b => a ≤ b)) (hlt : ∀ a ∈ Ai, a < n)
    (hBp : Bp.length = n + 1) :
    ∃ Bp', Compress Ai Bp n Ai.length = some Bp' ∧ Bp'.length = n + 1 ∧
      ∀ j, j ≤ n →
        Bp'.getD j 0 = Ai.countP (fun a => decide (a < j)) ∧
        Bp'.getD j 0 ≤ Ai.length ∧
        (∀ i, i < Bp'.getD j 0 → Ai.getD i 0 < j) ∧
        (Bp'.getD j 0 < Ai.length → j ≤ Ai.getD (Bp'.getD j 0) 0) ∧
        (j < n → j ∉ Ai → Bp'.getD (j + 1) 0 = Bp'.getD j 0) := by
  obtain ⟨Bp', hC, hlen, hcount⟩ := Compress_spec Ai Bp n hnz (pairwise_le_getD Ai hmono)
    (fun p hp => hlt _ (by rw [List.getD_eq_getElem _ _ hp]; exact List.getElem_mem hp)) hBp
  refine ⟨Bp', hC, hlen, ?_⟩
  intro j hj
  have hk := hcount j hj
  have hle : Ai.countP (fun a => decide (a < j)) ≤ Ai.length := List.countP_le_length _
  refine ⟨hk, by omega, ?_, ?_, ?_⟩
  · intro i hi
    rw [hk] at hi
    exact (sorted_count j Ai hmono i (by omega)).mpr hi
  · intro hlt2
    rw [hk] at hlt2 ⊢
    have := sorted_count j Ai hmono _ hlt2
    by_contra hcon
    have h2 := this.mp (by omega)
    omega
  · intro hjn hnot
    rw [hcount (j + 1) (by omega), hk]
    apply List.countP_congr
    intro a ha
    have : a ≠ j := fun e => hnot (e ▸ ha)
    simp only [decide_eq_true_eq]
    omega

/-- Witness of C20: five entries in the columns 0, 0, 2, 2, 3 of a matrix of
dimension 5. -/
theorem C20_Compress_column_pointers_witness :
    ∃ Bp', Compress [0, 0, 2, 2, 3] [9, 9, 9, 9, 9, 9] 5 ([0, 0, 2, 2, 3] : List Nat).length
        = some Bp' ∧ Bp'.length = 5 + 1 ∧
      ∀ j, j ≤ 5 →
        Bp'.getD j 0 = ([0, 0, 2, 2, 3] : List Nat).countP (fun a => decide (a < j)) ∧
        Bp'.getD j 0 ≤ ([0, 0, 2, 2, 3] : List Nat).length ∧
        (∀ i, i < Bp'.getD j 0 → ([0, 0, 2, 2, 3] : List Nat).getD i 0 < j) ∧
        (Bp'.getD j 0 < ([0, 0, 2, 2, 3] : List Nat).length →
          j ≤ ([0, 0, 2, 2, 3] : List Nat).getD (Bp'.getD j 0) 0) ∧
        (j < 5 → j ∉ ([0, 0, 2, 2, 3] : List Nat) → Bp'.getD (j + 1) 0 = Bp'.getD j 0) :=
  C20_Compress_column_pointers [0, 0, 2, 2, 3] [9, 9, 9, 9, 9, 9] 5 (by decide) (by decide)
    (by decide) (by decide)

/-! ### The binding table in the order of the declarations -/

theorem declaredCells_sorted (N : Nat) (coords : List (Nat × Nat)) :
    (((List.range (N * N)).filter (fun i => decide (i ∈ coords.map (cellOf N)))).map
      (fun i => 2 * i)).Pairwise (fun a b => a < b) := by
  rw [List.pairwise_map]
  apply List.Pairwise.filter
  exact (List.pairwise_lt_range (N * N)).imp (fun h => by omega)

/-- C22: after the conversion the `COO` fields of the binding table are, in
order, the COO value slots `2 * i` of the declared cells `i = (Row - 1) * N +
(Col - 1)` in ascending order (row-major order of the declared coordinates), so
the table is strictly ascending in `COO`; it has one entry for each nonzero,
whatever CSC slot the entry points at. -/
theorem C22_binding_table_sorted (qsort : QsortFn) (hq : QsortSpec qsort) (N : Nat)
    (coords : List (Nat × Nat)) (hne : coords ≠ [])
    (hv : ∀ rc ∈ coords, validCoord N rc) :
    ∃ M', SMPconvertCOOtoCSCKLUforCIDER qsort (declare N coords) = some M' ∧
      M'.SMPkluMatrix.KLUmatrixBindStructCOO.map (fun b => b.COO)
        = ((List.range (N * N)).filter (fun i => decide (i ∈ coords.map (cellOf N)))).map
            (fun i => 2 * i) ∧
      M'.SMPkluMatrix.KLUmatrixBindStructCOO.Pairwise (fun a b => a.COO < b.COO) ∧
      M'.SMPkluMatrix.KLUmatrixBindStructCOO.length = M'.SMPkluMatrix.KLUmatrixNZ := by
  have hT := cooTables_declare N coords hv
  obtain ⟨rc0, hrc0⟩ := List.exists_mem_of_ne_nil coords hne
  obtain ⟨M', L, hconv, _, hmem, hptr, _, _, _, hNZ, _, _, _, hBperm, hBsorted⟩ :=
    convert_spec qsort hq N (declare N coords) _ hT
      ⟨cellOf N rc0, cellOf_lt N rc0 (hv rc0 hrc0), rc0, hrc0, rfl⟩
  have hmap : ((List.range L.length).map
      (fun i => (⟨(L.getD i default).pointer, 2 * i⟩ : BindKluElementCOO))).map (fun b => b.COO)
      = L.map (fun e => e.pointer) := by
    rw [List.map_map]
    exact range_map_getD_map L (fun e => e.pointer)
  have hperm1 : (M'.SMPkluMatrix.KLUmatrixBindStructCOO.map (fun b => b.COO)).Perm
      (L.map (fun e => e.pointer)) := by
    rw [← hmap]
    exact hBperm.map _
  have hTnd := (declaredCells_sorted N coords).imp (fun h => Nat.ne_of_lt h)
  have hperm2 : (L.map (fun e => e.pointer)).Perm
      (((List.range (N * N)).filter (fun i => decide (i ∈ coords.map (cellOf N)))).map
        (fun i => 2 * i)) := by
    rw [List.perm_ext_iff_of_nodup hptr hTnd]
    intro x
    simp only [List.mem_map, List.mem_filter, List.mem_range, decide_eq_true_eq]
    constructor
    · rintro ⟨e, he, rfl⟩
      obtain ⟨i, hi, ⟨rc, hrc, hcell⟩, rfl⟩ := (hmem e).mp he
      exact ⟨i, ⟨hi, rc, hrc, hcell⟩, rfl⟩
    · rintro ⟨i, ⟨hi, rc, hrc, hcell⟩, rfl⟩
      exact ⟨cellElement N i, (hmem _).mpr ⟨i, hi, ⟨rc, hrc, hcell⟩, rfl⟩, rfl⟩
  have hs1 : (M'.SMPkluMatrix.KLUmatrixBindStructCOO.map (fun b => b.COO)).Sorted
      (fun a b => a ≤ b) := by
    unfold List.Sorted
    rw [List.pairwise_map]
    exact hBsorted
  have hs2 : (((List.range (N * N)).filter (fun i => decide (i ∈ coords.map (cellOf N)))).map
      (fun i => 2 * i)).Sorted (fun a b => a ≤ b) :=
    (declaredCells_sorted N coords).imp (fun h => Nat.le_of_lt h)
  have heq := List.eq_of_perm_of_sorted (hperm1.trans hperm2) hs1 hs2
  refine ⟨M', hconv, heq, ?_, ?_⟩
  · have := declaredCells_sorted N coords
    rw [← heq, List.pairwise_map] at this
    exact this
  · rw [hNZ, hBperm.length_eq, List.length_map, List.length_range]

/-- Witness of C22: six declarations (one repeated) in a matrix of dimension 3,
sorted by insertion sort. The table is ascending in `COO` while its
`CSC_Complex` fields, which follow the order by column, are not. -/
theorem C22_binding_table_sorted_witness :
    (SMPconvertCOOtoCSCKLUforCIDER insertionQsort
        (declare 3 [(3, 3), (1, 1), (3, 1), (1, 3), (3, 3), (2, 3)])).map
      (fun M => M.SMPkluMatrix.KLUmatrixBindStructCOO)
      = some [⟨0, 0⟩, ⟨4, 4⟩, ⟨10, 6⟩, ⟨12, 2⟩, ⟨16, 8⟩] ∧
    ∃ M', SMPconvertCOOtoCSCKLUforCIDER insertionQsort
        (declare 3 [(3, 3), (1, 1), (3, 1), (1, 3), (3, 3), (2, 3)]) = some M' ∧
      M'.SMPkluMatrix.KLUmatrixBindStructCOO.map (fun b => b.COO)
        = ((List.range (3 * 3)).filter (fun i => decide
            (i ∈ ([(3, 3), (1, 1), (3, 1), (1, 3), (3, 3), (2, 3)] : List (Nat × Nat)).map
              (cellOf 3)))).map (fun i => 2 * i) ∧
      M'.SMPkluMatrix.KLUmatrixBindStructCOO.Pairwise (fun a b => a.COO < b.COO) ∧
      M'.SMPkluMatrix.KLUmatrixBindStructCOO.length = M'.SMPkluMatrix.KLUmatrixNZ :=
  ⟨by decide,
   C22_binding_table_sorted insertionQsort insertionQsort_spec 3
    [(3, 3), (1, 1), (3, 1), (1, 3), (3, 3), (2, 3)] (by simp) (by simp [validCoord])⟩

/-! ### The COO tables cell by cell -/

/-- C25: after `SMPnewMatrixKLUforCIDER (N)` and any sequence of calls of
`SMPmakeEltKLUforCIDER` with `1 <= Row, Col <= N`, the two COO tables have
`N * N` cells and every cell `i` holds `(-1, -1)` or `(i div N, i mod N)`, the
latter exactly when a declared coordinate belongs to the cell; so two different
cells that are set never hold the same `(row, col)` pair. -/
theorem C25_COO_cell_invariant (N : Nat) (coords : List (Nat × Nat))
    (hv : ∀ rc ∈ coords, validCoord N rc) :
    (declare N coords).SMPkluMatrix.KLUmatrixRowCOO.length = N * N ∧
    (declare N coords).SMPkluMatrix.KLUmatrixColCOO.length = N * N ∧
    (∀ i, i < N * N →
      ((declare N coords).SMPkluMatrix.KLUmatrixRowCOO.getD i 0 = -1 ∧
        (declare N coords).SMPkluMatrix.KLUmatrixColCOO.getD i 0 = -1) ∨
      ((declare N coords).SMPkluMatrix.KLUmatrixRowCOO.getD i 0 = ((i / N : Nat) : Int) ∧
        (declare N coords).SMPkluMatrix.KLUmatrixColCOO.getD i 0 = ((i % N : Nat) : Int))) ∧
    (∀ i, i < N * N →
      (cooSet (declare N coords).SMPkluMatrix i = true ↔ ∃ rc ∈ coords, cellOf N rc = i)) ∧
    (∀ i j, i < N * N → j < N * N →
      cooSet (declare N coords).SMPkluMatrix i = true →
      cooSet (declare N coords).SMPkluMatrix j = true →
      (declare N coords).SMPkluMatrix.KLUmatrixRowCOO.getD i 0
        = (declare N coords).SMPkluMatrix.KLUmatrixRowCOO.getD j 0 →
      (declare N coords).SMPkluMatrix.KLUmatrixColCOO.getD i 0
        = (declare N coords).SMPkluMatrix.KLUmatrixColCOO.getD j 0 →
      i = j) := by
  obtain ⟨_, _, h3, h4, h5⟩ := cooTables_declare N coords hv
  have hnat : ∀ m : Nat, (m : Int) ≠ -1 := fun m => by omega
  have hset : ∀ i, i < N * N →
      (cooSet (declare N coords).SMPkluMatrix i = true ↔ ∃ rc ∈ coords, cellOf N rc = i) := by
    intro i hi
    by_cases hd : ∃ rc ∈ coords, cellOf N rc = i
    · obtain ⟨r, c⟩ := (h5 i hi).1 hd
      unfold cooSet
      rw [r, c]
      simp only [Bool.and_eq_true, decide_eq_true_eq]
      exact ⟨fun _ => hd, fun _ => ⟨hnat _, hnat _⟩⟩
    · obtain ⟨r, c⟩ := (h5 i hi).2 hd
      unfold cooSet
      rw [r, c]
      simp [hd]
  refine ⟨h3, h4, ?_, hset, ?_⟩
  · intro i hi
    by_cases hd : ∃ rc ∈ coords, cellOf N rc = i
    · exact Or.inr ((h5 i hi).1 hd)
    · exact Or.inl ((h5 i hi).2 hd)
  · intro i j hi hj si sj hr hc
    obtain ⟨ri, ci⟩ := (h5 i hi).1 ((hset i hi).mp si)
    obtain ⟨rj, cj⟩ := (h5 j hj).1 ((hset j hj).mp sj)
    rw [ri, rj] at hr
    rw [ci, cj] at hc
    have e1 : i / N = j / N := by exact_mod_cast hr
    have e2 : i % N = j % N := by exact_mod_cast hc
    rw [← Nat.div_add_mod i N, ← Nat.div_add_mod j N, e1, e2]

/-- Witness of C25: four declarations, one of them repeated, in a matrix of
dimension 3. -/
theorem C25_COO_cell_invariant_witness :
    (declare 3 [(3, 3), (1, 2), (3, 3), (2, 1)]).SMPkluMatrix.KLUmatrixRowCOO
      = [-1, 0, -1, 1, -1, -1, -1, -1, 2] ∧
    (declare 3 [(3, 3), (1, 2), (3, 3), (2, 1)]).SMPkluMatrix.KLUmatrixColCOO
      = [-1, 1, -1, 0, -1, -1, -1, -1, 2] ∧
    (declare 3 [(3, 3), (1, 2), (3, 3), (2, 1)]).SMPkluMatrix.KLUmatrixRowCOO.length = 3 * 3 ∧
    ∀ i, i < 3 * 3 →
      ((declare 3 [(3, 3), (1, 2), (3, 3), (2, 1)]).SMPkluMatrix.KLUmatrixRowCOO.getD i 0 = -1 ∧
        (declare 3 [(3, 3), (1, 2), (3, 3), (2, 1)]).SMPkluMatrix.KLUmatrixColCOO.getD i 0 = -1) ∨
      ((declare 3 [(3, 3), (1, 2), (3, 3), (2, 1)]).SMPkluMatrix.KLUmatrixRowCOO.getD i 0
          = ((i / 3 : Nat) : Int) ∧
        (declare 3 [(3, 3), (1, 2), (3, 3), (2, 1)]).SMPkluMatrix.KLUmatrixColCOO.getD i 0
          = ((i % 3 : Nat) : Int)) :=
  have h := C25_COO_cell_invariant 3 [(3, 3), (1, 2), (3, 3), (2, 1)] (by simp [validCoord])
  ⟨by decide, by decide, h.1, h.2.2.1⟩

/-- C26: in KLU mode a call of `SMPmakeEltKLUforCIDER` with `Row <= 0` or
`Col <= 0` returns the trash slot and leaves the matrix, with every cell of the
two COO tables, exactly as it was. -/
theorem C26_ground_stamp_is_trash (Matrix : SMPmatrix) (Row Col : Int)
    (hmode : Matrix.CKTkluMODE = true) (h : Row ≤ 0 ∨ Col ≤ 0) :
    SMPmakeEltKLUforCIDER Matrix Row Col = (Matrix, ElementHandle.TrashCOO) ∧
    (SMPmakeEltKLUforCIDER Matrix Row Col).1.SMPkluMatrix.KLUmatrixRowCOO
      = Matrix.SMPkluMatrix.KLUmatrixRowCOO ∧
    (SMPmakeEltKLUforCIDER Matrix Row Col).1.SMPkluMatrix.KLUmatrixColCOO
      = Matrix.SMPkluMatrix.KLUmatrixColCOO ∧
    ∀ i, cooSet (SMPmakeEltKLUforCIDER Matrix Row Col).1.SMPkluMatrix i
      = cooSet Matrix.SMPkluMatrix i := by
  have hneg : ¬ (Row > 0 ∧ Col > 0) := by omega
  have e : SMPmakeEltKLUforCIDER Matrix Row Col = (Matrix, ElementHandle.TrashCOO) := by
    simp only [SMPmakeEltKLUforCIDER, hmode, if_true, if_neg hneg]
  rw [e]
  exact ⟨rfl, rfl, rfl, fun _ => rfl⟩

/-- Witness of C26: the stamp at `(0, 2)` after two declarations in a matrix of
dimension 3. -/
theorem C26_ground_stamp_is_trash_witness :
    SMPmakeEltKLUforCIDER (declare 3 [(1, 2), (2, 1)]) 0 2
      = (declare 3 [(1, 2), (2, 1)], ElementHandle.TrashCOO) :=
  (C26_ground_stamp_is_trash (declare 3 [(1, 2), (2, 1)]) 0 2 rfl (Or.inl (by decide))).1

/-! ### Zeroing a column -/

theorem zeroColLoop_length : ∀ (k i : Nat) (a : List ℚ), (zeroColLoop k i a).length = a.length := by
  intro k
  induction k with
  | zero => intro i a; rfl
  | succ k ih =>
    intro i a
    unfold zeroColLoop
    rw [ih]
    simp

theorem zeroColLoop_getD : ∀ (k i : Nat) (a : List ℚ) (j : Nat),
    (zeroColLoop k i a).getD j 0 = if 2 * i ≤ j ∧ j < 2 * (i + k) then 0 else a.getD j 0 := by
  intro k
  induction k with
  | zero =>
    intro i a j
    rw [if_neg (by omega)]
    rfl
  | succ k ih =>
    intro i a j
    unfold zeroColLoop
    rw [ih, getD_set_eq_ite, getD_set_eq_ite]
    by_cases h1 : 2 * (i + 1) ≤ j ∧ j < 2 * (i + 1 + k)
    · rw [if_pos h1, if_pos (by omega)]
    · rw [if_neg h1]
      by_cases h2 : 2 * i + 1 = j
      · by_cases h3 : 2 * i + 1 < (a.set (2 * i) 0).length
        · rw [if_pos ⟨h2, h3⟩, if_pos (by omega)]
        · rw [if_neg (fun h => h3 h.2), if_neg (by omega), if_pos (by omega)]
          rw [List.length_set] at h3
          exact List.getD_eq_default _ _ (by omega)
      · rw [if_neg (fun h => h2 h.1)]
        by_cases h4 : 2 * i = j
        · by_cases h5 : 2 * i < a.length
          · rw [if_pos ⟨h4, h5⟩, if_pos (by omega)]
          · rw [if_neg (fun h => h5 h.2), if_pos (by omega)]
            exact List.getD_eq_default _ _ (by omega)
        · rw [if_neg (fun h => h4 h.1), if_neg (by omega)]

/-- C27: in KLU mode, with `c = ExtToIntColMap [Col] >= 1`, `SMPcZeroCol` returns
0 and leaves 0 in the slots `2 * p` and `2 * p + 1` of `CKTkluAx_Complex` for
the positions `p` with `CKTkluAp [c - 1] <= p < CKTkluAp [c]`; the two slots of
every other position keep their values, the array keeps its length, and the
column pointers, the row indices, the count of nonzeros, the dimension and the
real values are unchanged. -/
theorem C27_SMPcZeroCol_column (sp : SparseBackend) (eMatrix : SMPmatrix) (Col : Nat) (c : Nat)
    (hmode : eMatrix.CKTkluMODE = true) (hc : eMatrix.ExtToIntColMap.getD Col 0 = (c : Int))
    (hc1 : 1 ≤ c) :
    ∃ M', SMPcZeroCol sp eMatrix Col = some (M', 0) ∧
      (∀ p, eMatrix.CKTkluAp.getD (c - 1) 0 ≤ p → p < eMatrix.CKTkluAp.getD c 0 →
        M'.CKTkluAx_Complex.getD (2 * p) 0 = 0 ∧ M'.CKTkluAx_Complex.getD (2 * p + 1) 0 = 0) ∧
      (∀ p, ¬ (eMatrix.CKTkluAp.getD (c - 1) 0 ≤ p ∧ p < eMatrix.CKTkluAp.getD c 0) →
        M'.CKTkluAx_Complex.getD (2 * p) 0 = eMatrix.CKTkluAx_Complex.getD (2 * p) 0 ∧
        M'.CKTkluAx_Complex.getD (2 * p + 1) 0 = eMatrix.CKTkluAx_Complex.getD (2 * p + 1) 0) ∧
      M'.CKTkluAx_Complex.length = eMatrix.CKTkluAx_Complex.length ∧
      M'.CKTkluAp = eMatrix.CKTkluAp ∧ M'.CKTkluAi = eMatrix.CKTkluAi ∧
      M'.CKTklunz = eMatrix.CKTklunz ∧ M'.CKTkluN = eMatrix.CKTkluN ∧
      M'.CKTkluAx = eMatrix.CKTkluAx := by
  have h1 : ¬ ((c : Int) - 1 < 0) := by omega
  have h2 : ((c : Int) - 1).toNat = c - 1 := by omega
  have h3 : (c : Int).toNat = c := by omega
  have e : SMPcZeroCol sp eMatrix Col
      = some ({ eMatrix with
                CKTkluAx_Complex :=
                  zeroColLoop (eMatrix.CKTkluAp.getD c 0 - eMatrix.CKTkluAp.getD (c - 1) 0)
                    (eMatrix.CKTkluAp.getD (c - 1) 0) eMatrix.CKTkluAx_Complex }, 0) := by
    simp only [SMPcZeroCol, hmode, if_true, hc, if_neg h1, h2, h3]
  refine ⟨_, e, ?_, ?_, zeroColLoop_length _ _ _, rfl, rfl, rfl, rfl, rfl⟩
  · intro p hp1 hp2
    simp only [zeroColLoop_getD]
    rw [if_pos (by omega), if_pos (by omega)]
    exact ⟨rfl, rfl⟩
  · intro p hp
    simp only [zeroColLoop_getD]
    rw [if_neg (by omega), if_neg (by omega)]
    exact ⟨rfl, rfl⟩

/-- Witness of C27: the external column 1 of the matrix with three nonzeros,
whose positions are 0 and 1. -/
theorem C27_SMPcZeroCol_column_witness :
    SMPcZeroCol {} threeNonzeros 1
      = some ({ threeNonzeros with CKTkluAx_Complex := [0, 0, 0, 0, 6, 3] }, 0) ∧
    ∃ M', SMPcZeroCol {} threeNonzeros 1 = some (M', 0) ∧
      (∀ p, threeNonzeros.CKTkluAp.getD (1 - 1) 0 ≤ p → p < threeNonzeros.CKTkluAp.getD 1 0 →
        M'.CKTkluAx_Complex.getD (2 * p) 0 = 0 ∧ M'.CKTkluAx_Complex.getD (2 * p + 1) 0 = 0) ∧
      (∀ p, ¬ (threeNonzeros.CKTkluAp.getD (1 - 1) 0 ≤ p ∧
          p < threeNonzeros.CKTkluAp.getD 1 0) →
        M'.CKTkluAx_Complex.getD (2 * p) 0 = threeNonzeros.CKTkluAx_Complex.getD (2 * p) 0 ∧
        M'.CKTkluAx_Complex.getD (2 * p + 1) 0
          = threeNonzeros.CKTkluAx_Complex.getD (2 * p + 1) 0) ∧
      M'.CKTkluAx_Complex.length = threeNonzeros.CKTkluAx_Complex.length ∧
      M'.CKTkluAp = threeNonzeros.CKTkluAp ∧ M'.CKTkluAi = threeNonzeros.CKTkluAi ∧
      M'.CKTklunz = threeNonzeros.CKTklunz ∧ M'.CKTkluN = threeNonzeros.CKTkluN ∧
      M'.CKTkluAx = threeNonzeros.CKTkluAx :=
  ⟨by
    simp [SMPcZeroCol, threeNonzeros, zeroColLoop],
   C27_SMPcZeroCol_column {} threeNonzeros 1 1 rfl rfl (by decide)⟩

/-! ### Determinant: value and totality of the rescaling -/

theorem cScaleWhileGE_value (T F : ℚ) (D : Int) (hFD : F * (10 : ℚ) ^ D = 1) :
    ∀ (fuel : Nat) (c : ComplexNumber) (e : Int) (r : ComplexNumber × Int),
      cScaleWhileGE T F D fuel c e = some r →
      r.1.Real * (10 : ℚ) ^ r.2 = c.Real * (10 : ℚ) ^ e ∧
      r.1.Imag * (10 : ℚ) ^ r.2 = c.Imag * (10 : ℚ) ^ e ∧ D ∣ r.2 - e := by
  intro fuel
  induction fuel with
  | zero =>
    intro c e r h
    unfold cScaleWhileGE at h
    split at h
    · exact absurd h (by simp)
    · cases h
      exact ⟨rfl, rfl, by simp⟩
  | succ n ih =>
    intro c e r h
    unfold cScaleWhileGE at h
    split at h
    · obtain ⟨h1, h2, h3⟩ := ih _ _ r h
      have hz : (10 : ℚ) ^ (e + D) = (10 : ℚ) ^ e * (10 : ℚ) ^ D := zpow_add₀ (by norm_num) _ _
      refine ⟨?_, ?_, ?_⟩
      · rw [h1]
        simp only
        rw [hz]
        linear_combination (c.Real * (10 : ℚ) ^ e) * hFD
      · rw [h2]
        simp only
        rw [hz]
        linear_combination (c.Imag * (10 : ℚ) ^ e) * hFD
      · have : r.2 - e = (r.2 - (e + D)) + D := by ring
        rw [this]
        exact dvd_add h3 (dvd_refl D)
    · cases h
      exact ⟨rfl, rfl, by simp⟩

theorem cScaleWhileLT_value (T F : ℚ) (D : Int) (hFD : F * (10 : ℚ) ^ (-D) = 1) :
    ∀ (fuel : Nat) (c : ComplexNumber) (e : Int) (r : ComplexNumber × Int),
      cScaleWhileLT T F D fuel c e = some r →
      r.1.Real * (10 : ℚ) ^ r.2 = c.Real * (10 : ℚ) ^ e ∧
      r.1.Imag * (10 : ℚ) ^ r.2 = c.Imag * (10 : ℚ) ^ e ∧ D ∣ r.2 - e := by
  intro fuel
  induction fuel with
  | zero =>
    intro c e r h
    unfold cScaleWhileLT at h
    split at h
    · exact absurd h (by simp)
    · cases h
      exact ⟨rfl, rfl, by simp⟩
  | succ n ih =>
    intro c e r h
    unfold cScaleWhileLT at h
    split at h
    · obtain ⟨h1, h2, h3⟩ := ih _ _ r h
      have hz : (10 : ℚ) ^ (e - D) = (10 : ℚ) ^ e * (10 : ℚ) ^ (-D) := by
        rw [sub_eq_add_neg]
        exact zpow_add₀ (by norm_num) _ _
      refine ⟨?_, ?_, ?_⟩
      · rw [h1]
        simp only
        rw [hz]
        linear_combination (c.Real * (10 : ℚ) ^ e) * hFD
      · rw [h2]
        simp only
        rw [hz]
        linear_combination (c.Imag * (10 : ℚ) ^ e) * hFD
      · have : r.2 - e = (r.2 - (e - D)) - D := by ring
        rw [this]
        exact dvd_sub h3 (dvd_refl D)
    · cases h
      exact ⟨rfl, rfl, by simp⟩

/-- The per-entry rescaling returns on every input; it leaves a zero alone, and
otherwise brings the norm into `[1e-12, 1e12)`; it moves the exponent by a
multiple of 12 and keeps the value `c * 10 ^ e`. -/
theorem cScaleStep_total (c : ComplexNumber) (e : Int) :
    ∃ r, cScaleStep c e = some r ∧ (NORM c = 0 → r = (c, e)) ∧
      (NORM c ≠ 0 → 1 / 10 ^ 12 ≤ NORM r.1 ∧ NORM r.1 < 10 ^ 12) ∧
      (12 : Int) ∣ r.2 - e ∧
      r.1.Real * (10 : ℚ) ^ r.2 = c.Real * (10 : ℚ) ^ e ∧
      r.1.Imag * (10 : ℚ) ^ r.2 = c.Imag * (10 : ℚ) ^ e := by
  by_cases hc : NORM c = 0
  · exact ⟨(c, e), cScaleStep_zero c e hc, fun _ => rfl, fun h => absurd hc h, by simp, rfl, rfl⟩
  · obtain ⟨r, hr, h1, h2⟩ := cScaleStep_spec c e hc
    refine ⟨r, hr, fun h => absurd h hc, fun _ => ⟨h1, h2⟩, ?_⟩
    unfold cScaleStep at hr
    rw [if_pos hc] at hr
    cases hge : cScaleWhileGE (10 ^ 12) (1 / 10 ^ 12) 12 (floorNat (NORM c)) c e with
    | none => rw [hge] at hr; exact absurd hr (by simp)
    | some r1 =>
      rw [hge] at hr
      obtain ⟨a1, a2, a3⟩ := cScaleWhileGE_value (10 ^ 12) (1 / 10 ^ 12) 12 (by norm_num) _ _ _ _ hge
      obtain ⟨b1, b2, b3⟩ := cScaleWhileLT_value (1 / 10 ^ 12) (10 ^ 12) 12 (by norm_num) _ _ _ _ hr
      refine ⟨?_, by rw [b1, a1], by rw [b2, a2]⟩
      have : r.2 - e = (r.2 - r1.2) + (r1.2 - e) := by ring
      rw [this]
      exact dvd_add b3 a3

/-- The final rescaling returns on every input; it leaves a zero alone, and
otherwise brings the norm into `[1, 10)`; it keeps the value `c * 10 ^ e`. -/
theorem cScaleFinal_total (c : ComplexNumber) (e : Int) :
    ∃ r, cScaleFinal c e = some r ∧ (NORM c = 0 → r = (c, e)) ∧
      (NORM c ≠ 0 → 1 ≤ NORM r.1 ∧ NORM r.1 < 10) ∧
      r.1.Real * (10 : ℚ) ^ r.2 = c.Real * (10 : ℚ) ^ e ∧
      r.1.Imag * (10 : ℚ) ^ r.2 = c.Imag * (10 : ℚ) ^ e := by
  by_cases hc : NORM c = 0
  · exact ⟨(c, e), by simp [cScaleFinal, hc], fun _ => rfl, fun h => absurd hc h, rfl, rfl⟩
  · obtain ⟨r, hr, h1, h2⟩ := cScaleFinal_spec c e hc
    refine ⟨r, hr, fun h => absurd h hc, fun _ => ⟨h1, h2⟩, ?_⟩
    unfold cScaleFinal at hr
    rw [if_pos hc] at hr
    cases hge : cScaleWhileGE 10 (1 / 10) 1 (floorNat (NORM c)) c e with
    | none => rw [hge] at hr; exact absurd hr (by simp)
    | some r1 =>
      rw [hge] at hr
      obtain ⟨a1, a2, _⟩ := cScaleWhileGE_value 10 (1 / 10) 1 (by norm_num) _ _ _ _ hge
      obtain ⟨b1, b2, _⟩ := cScaleWhileLT_value 1 10 1 (by norm_num) _ _ _ _ hr
      exact ⟨by rw [b1, a1], by rw [b2, a2]⟩

theorem NORM_real (d : ℚ) : NORM ⟨d, 0⟩ = ABS d := by
  rw [NORM_eq_max, ABS_eq_abs]
  simp

theorem cScaleWhileGE_real (T F : ℚ) (D : Int) :
    ∀ (fuel : Nat) (d : ℚ) (e : Int),
      cScaleWhileGE T F D fuel ⟨d, 0⟩ e
        = (rScaleWhileGE T F D fuel d e).map (fun r => ((⟨r.1, 0⟩ : ComplexNumber), r.2)) := by
  intro fuel
  induction fuel with
  | zero =>
    intro d e
    unfold cScaleWhileGE rScaleWhileGE
    rw [NORM_real]
    split <;> rfl
  | succ n ih =>
    intro d e
    unfold cScaleWhileGE rScaleWhileGE
    rw [NORM_real]
    split
    · have := ih (d * F) (e + D)
      simp only [zero_mul]
      exact this
    · rfl

theorem cScaleWhileLT_real (T F : ℚ) (D : Int) :
    ∀ (fuel : Nat) (d : ℚ) (e : Int),
      cScaleWhileLT T F D fuel ⟨d, 0⟩ e
        = (rScaleWhileLT T F D fuel d e).map (fun r => ((⟨r.1, 0⟩ : ComplexNumber), r.2)) := by
  intro fuel
  induction fuel with
  | zero =>
    intro d e
    unfold cScaleWhileLT rScaleWhileLT
    rw [NORM_real]
    split <;> rfl
  | succ n ih =>
    intro d e
    unfold cScaleWhileLT rScaleWhileLT
    rw [NORM_real]
    split
    · have := ih (d * F) (e - D)
      simp only [zero_mul]
      exact this
    · rfl

theorem ABS_eq_zero_iff (d : ℚ) : ABS d = 0 ↔ d = 0 := by
  rw [ABS_eq_abs]
  exact abs_eq_zero

theorem cScaleStep_real (d : ℚ) (e : Int) :
    cScaleStep ⟨d, 0⟩ e
      = (rScaleStep d e).map (fun r => ((⟨r.1, 0⟩ : ComplexNumber), r.2)) := by
  unfold cScaleStep rScaleStep
  rw [NORM_real]
  by_cases hd : d = 0
  · rw [if_neg (not_not.mpr ((ABS_eq_zero_iff d).mpr hd)), if_neg (not_not.mpr hd)]
    rfl
  · rw [if_pos (by rw [Ne, ABS_eq_zero_iff]; exact hd), if_pos hd, cScaleWhileGE_real]
    cases rScaleWhileGE (10 ^ 12) (1 / 10 ^ 12) 12 (floorNat (ABS d)) d e with
    | none => rfl
    | some r1 =>
      show cScaleWhileLT (1 / 10 ^ 12) (10 ^ 12) 12 (floorNat (1 / NORM ⟨r1.1, 0⟩)) ⟨r1.1, 0⟩ r1.2
        = _
      rw [NORM_real, cScaleWhileLT_real]

theorem cScaleFinal_real (d : ℚ) (e : Int) :
    cScaleFinal ⟨d, 0⟩ e
      = (rScaleFinal d e).map (fun r => ((⟨r.1, 0⟩ : ComplexNumber), r.2)) := by
  unfold cScaleFinal rScaleFinal
  rw [NORM_real]
  by_cases hd : d = 0
  · rw [if_neg (not_not.mpr ((ABS_eq_zero_iff d).mpr hd)), if_neg (not_not.mpr hd)]
    rfl
  · rw [if_pos (by rw [Ne, ABS_eq_zero_iff]; exact hd), if_pos hd, cScaleWhileGE_real]
    cases rScaleWhileGE 10 (1 / 10) 1 (floorNat (ABS d)) d e with
    | none => rfl
    | some r1 =>
      show cScaleWhileLT 1 10 1 (floorNat (1 / NORM ⟨r1.1, 0⟩)) ⟨r1.1, 0⟩ r1.2 = _
      rw [NORM_real, cScaleWhileLT_real]

/-- The per-entry rescaling of the real case returns on every input; it leaves
a zero alone, and otherwise brings the magnitude into `[1e-12, 1e12)`; it moves
the exponent by a multiple of 12 and keeps the value `d * 10 ^ e`. -/
theorem rScaleStep_total (d : ℚ) (e : Int) :
    ∃ r, rScaleStep d e = some r ∧ (d = 0 → r = (d, e)) ∧
      (d ≠ 0 → 1 / 10 ^ 12 ≤ ABS r.1 ∧ ABS r.1 < 10 ^ 12) ∧
      (12 : Int) ∣ r.2 - e ∧ r.1 * (10 : ℚ) ^ r.2 = d * (10 : ℚ) ^ e := by
  obtain ⟨rc, h, h0, h1, h2, h3, _⟩ := cScaleStep_total ⟨d, 0⟩ e
  rw [cScaleStep_real] at h
  cases hr : rScaleStep d e with
  | none => rw [hr] at h; exact absurd h (by simp)
  | some r =>
    rw [hr] at h
    have hrc : rc = (⟨r.1, 0⟩, r.2) := by
      simpa using h.symm
    subst hrc
    refine ⟨r, rfl, ?_, ?_, h2, h3⟩
    · intro hd
      have := h0 (by rw [NORM_real, ABS_eq_zero_iff]; exact hd)
      simp only [Prod.mk.injEq, ComplexNumber.mk.injEq] at this
      exact Prod.ext this.1.1 this.2
    · intro hd
      have := h1 (by rw [NORM_real, Ne, ABS_eq_zero_iff]; exact hd)
      rw [NORM_real] at this
      exact this

/-- The final rescaling of the real case returns on every input; it leaves a
zero alone, and otherwise brings the magnitude into `[1, 10)`; it keeps the
value `d * 10 ^ e`. -/
theorem rScaleFinal_total (d : ℚ) (e : Int) :
    ∃ r, rScaleFinal d e = some r ∧ (d = 0 → r = (d, e)) ∧
      (d ≠ 0 → 1 ≤ ABS r.1 ∧ ABS r.1 < 10) ∧ r.1 * (10 : ℚ) ^ r.2 = d * (10 : ℚ) ^ e := by
  obtain ⟨rc, h, h0, h1, h3, _⟩ := cScaleFinal_total ⟨d, 0⟩ e
  rw [cScaleFinal_real] at h
  cases hr : rScaleFinal d e with
  | none => rw [hr] at h; exact absurd h (by simp)
  | some r =>
    rw [hr] at h
    have hrc : rc = (⟨r.1, 0⟩, r.2) := by
      simpa using h.symm
    subst hrc
    refine ⟨r, rfl, ?_, ?_, h3⟩
    · intro hd
      have := h0 (by rw [NORM_real, ABS_eq_zero_iff]; exact hd)
      simp only [Prod.mk.injEq, ComplexNumber.mk.injEq] at this
      exact Prod.ext this.1.1 this.2
    · intro hd
      have := h1 (by rw [NORM_real, Ne, ABS_eq_zero_iff]; exact hd)
      rw [NORM_real] at this
      exact this

theorem rDeterminantLoop_succ (Ux Rs : List ℚ) (k I : Nat) (d : ℚ) (e : Int) :
    rDeterminantLoop Ux Rs (k + 1) I d e =
      match rScaleStep (d / (Ux.getD I 0 * Rs.getD I 0)) e with
      | none => none
      | some r => rDeterminantLoop Ux Rs k (I + 1) r.1 r.2 := rfl

/-- The loop over the diagonal of the complex case returns on every input, with
an exponent moved by a multiple of 12; after at least one entry (or from a
start like that) the norm is zero or in `[1e-12, 1e12)`. -/
theorem cDeterminantLoop_total (Ux Uz Rs : List ℚ) :
    ∀ (k I : Nat) (c : ComplexNumber) (e : Int),
      ∃ r, cDeterminantLoop Ux Uz Rs k I c e = some r ∧ (12 : Int) ∣ r.2 - e ∧
        ((1 ≤ k ∨ NORM c = 0 ∨ (1 / 10 ^ 12 ≤ NORM c ∧ NORM c < 10 ^ 12)) →
          NORM r.1 = 0 ∨ (1 / 10 ^ 12 ≤ NORM r.1 ∧ NORM r.1 < 10 ^ 12)) := by
  intro k
  induction k with
  | zero =>
    intro I c e
    refine ⟨(c, e), rfl, by simp, ?_⟩
    rintro (h | h)
    · omega
    · exact h
  | succ k ih =>
    intro I c e
    rw [cDeterminantLoop_succ]
    obtain ⟨r1, h1, h0, hb, hd, _⟩ := cScaleStep_total (CMPLX_MULT_ASSIGN c (CMPLX_RECIPROCAL
      ⟨1 / (Ux.getD I 0 * Rs.getD I 0), Uz.getD I 0 * Rs.getD I 0⟩)) e
    obtain ⟨r, h2, hd2, hinv⟩ := ih (I + 1) r1.1 r1.2
    rw [h1]
    refine ⟨r, h2, ?_, fun _ => hinv (Or.inr ?_)⟩
    · have : r.2 - e = (r.2 - r1.2) + (r1.2 - e) := by ring
      rw [this]
      exact dvd_add hd2 hd
    · by_cases hz : NORM (CMPLX_MULT_ASSIGN c (CMPLX_RECIPROCAL
          ⟨1 / (Ux.getD I 0 * Rs.getD I 0), Uz.getD I 0 * Rs.getD I 0⟩)) = 0
      · left
        rw [h0 hz]
        exact hz
      · exact Or.inr (hb hz)

/-- The loop over the diagonal of the real case returns on every input, with an
exponent moved by a multiple of 12; after at least one entry (or from a start
like that) the magnitude is zero or in `[1e-12, 1e12)`. -/
theorem rDeterminantLoop_total (Ux Rs : List ℚ) :
    ∀ (k I : Nat) (d : ℚ) (e : Int),
      ∃ r, rDeterminantLoop Ux Rs k I d e = some r ∧ (12 : Int) ∣ r.2 - e ∧
        ((1 ≤ k ∨ d = 0 ∨ (1 / 10 ^ 12 ≤ ABS d ∧ ABS d < 10 ^ 12)) →
          r.1 = 0 ∨ (1 / 10 ^ 12 ≤ ABS r.1 ∧ ABS r.1 < 10 ^ 12)) := by
  intro k
  induction k with
  | zero =>
    intro I d e
    refine ⟨(d, e), rfl, by simp, ?_⟩
    rintro (h | h)
    · omega
    · exact h
  | succ k ih =>
    intro I d e
    rw [rDeterminantLoop_succ]
    obtain ⟨r1, h1, h0, hb, hd, _⟩ := rScaleStep_total (d / (Ux.getD I 0 * Rs.getD I 0)) e
    obtain ⟨r, h2, hd2, hinv⟩ := ih (I + 1) r1.1 r1.2
    rw [h1]
    refine ⟨r, h2, ?_, fun _ => hinv (Or.inr ?_)⟩
    · have : r.2 - e = (r.2 - r1.2) + (r1.2 - e) := by ring
      rw [this]
      exact dvd_add hd2 hd
    · by_cases hz : d / (Ux.getD I 0 * Rs.getD I 0) = 0
      · left
        rw [h0 hz]
        exact hz
      · exact Or.inr (hb hz)

theorem cDeterminantLoop_add (Ux Uz Rs : List ℚ) (m : Nat) :
    ∀ (j I : Nat) (c : ComplexNumber) (e : Int),
      cDeterminantLoop Ux Uz Rs (j + m) I c e
        = (cDeterminantLoop Ux Uz Rs j I c e).bind
            (fun r => cDeterminantLoop Ux Uz Rs m (I + j) r.1 r.2) := by
  intro j
  induction j with
  | zero =>
    intro I c e
    rw [Nat.zero_add]
    rfl
  | succ j ih =>
    intro I c e
    rw [Nat.add_right_comm, cDeterminantLoop_succ, cDeterminantLoop_succ]
    cases cScaleStep (CMPLX_MULT_ASSIGN c (CMPLX_RECIPROCAL
        ⟨1 / (Ux.getD I 0 * Rs.getD I 0), Uz.getD I 0 * Rs.getD I 0⟩)) e with
    | none => rfl
    | some r1 =>
      show cDeterminantLoop Ux Uz Rs (j + m) (I + 1) r1.1 r1.2 = _
      rw [ih]
      have : I + 1 + j = I + (j + 1) := by omega
      rw [this]

theorem rDeterminantLoop_add (Ux Rs : List ℚ) (m : Nat) :
    ∀ (j I : Nat) (d : ℚ) (e : Int),
      rDeterminantLoop Ux Rs (j + m) I d e
        = (rDeterminantLoop Ux Rs j I d e).bind
            (fun r => rDeterminantLoop Ux Rs m (I + j) r.1 r.2) := by
  intro j
  induction j with
  | zero =>
    intro I d e
    rw [Nat.zero_add]
    rfl
  | succ j ih =>
    intro I d e
    rw [Nat.add_right_comm, rDeterminantLoop_succ, rDeterminantLoop_succ]
    cases rScaleStep (d / (Ux.getD I 0 * Rs.getD I 0)) e with
    | none => rfl
    | some r1 =>
      show rDeterminantLoop Ux Rs (j + m) (I + 1) r1.1 r1.2 = _
      rw [ih]
      have : I + 1 + j = I + (j + 1) := by omega
      rw [this]

/-- C23: the rescaling of `spDeterminant_KLU` is per entry. In the complex case
the state after the first `j` entries of the diagonal (`1 <= j <= N`, from
`cDeterminant = 1`, `*pExponent = 0`) exists, has a norm that is zero or in
`[1e-12, 1e12)` and an exponent that is a multiple of 12, and the loop over all
`N` entries goes on from that state. The loop of the real case has the same
property from whatever entry `I`, magnitude and multiple of 12 it starts
(exact arithmetic; a quotient by zero is taken as 0). -/
theorem C23_rescaling_per_entry (Ux Uz Rs : List ℚ) (N : Nat) :
    (∀ j, 1 ≤ j → j ≤ N →
      ∃ r, cDeterminantLoop Ux Uz Rs j 0 ⟨1, 0⟩ 0 = some r ∧
        (NORM r.1 = 0 ∨ (1 / 10 ^ 12 ≤ NORM r.1 ∧ NORM r.1 < 10 ^ 12)) ∧
        (12 : Int) ∣ r.2 ∧
        cDeterminantLoop Ux Uz Rs (N - 0) 0 ⟨1, 0⟩ 0
          = cDeterminantLoop Ux Uz Rs (N - j) (0 + j) r.1 r.2) ∧
    (∀ (j I : Nat) (d : ℚ) (e : Int), 1 ≤ j → (12 : Int) ∣ e →
      ∃ r, rDeterminantLoop Ux Rs j I d e = some r ∧
        (r.1 = 0 ∨ (1 / 10 ^ 12 ≤ ABS r.1 ∧ ABS r.1 < 10 ^ 12)) ∧
        (12 : Int) ∣ r.2 ∧
        ∀ m, rDeterminantLoop Ux Rs (j + m) I d e = rDeterminantLoop Ux Rs m (I + j) r.1 r.2) := by
  constructor
  · intro j hj hjN
    obtain ⟨r, h1, h2, h3⟩ := cDeterminantLoop_total Ux Uz Rs j 0 ⟨1, 0⟩ 0
    refine ⟨r, h1, h3 (Or.inl hj), by simpa using h2, ?_⟩
    have hN : N - 0 = j + (N - j) := by omega
    rw [hN, cDeterminantLoop_add, h1]
    rfl
  · intro j I d e hj he
    obtain ⟨r, h1, h2, h3⟩ := rDeterminantLoop_total Ux Rs j I d e
    refine ⟨r, h1, h3 (Or.inl hj), ?_, ?_⟩
    · have : r.2 = (r.2 - e) + e := by ring
      rw [this]
      exact dvd_add h2 he
    · intro m
      rw [rDeterminantLoop_add, h1]
      rfl

theorem cScaleWhileGE_fuel (T F : ℚ) (D : Int) :
    ∀ (fuel : Nat) (c : ComplexNumber) (e : Int) (r : ComplexNumber × Int),
      cScaleWhileGE T F D fuel c e = some r → cScaleWhileGE T F D (fuel + 1) c e = some r := by
  intro fuel
  induction fuel with
  | zero =>
    intro c e r h
    unfold cScaleWhileGE at h
    split at h
    · exact absurd h (by simp)
    · rename_i hn
      rw [cScaleWhileGE_exit _ _ _ _ _ _ hn]
      exact h
  | succ n ih =>
    intro c e r h
    unfold cScaleWhileGE at h
    split at h
    · rename_i hp
      have := ih _ _ r h
      unfold cScaleWhileGE
      rw [if_pos hp]
      exact this
    · rename_i hn
      rw [cScaleWhileGE_exit _ _ _ _ _ _ hn]
      exact h

theorem cScaleWhileLT_fuel (T F : ℚ) (D : Int) :
    ∀ (fuel : Nat) (c : ComplexNumber) (e : Int) (r : ComplexNumber × Int),
      cScaleWhileLT T F D fuel c e = some r → cScaleWhileLT T F D (fuel + 1) c e = some r := by
  intro fuel
  induction fuel with
  | zero =>
    intro c e r h
    unfold cScaleWhileLT at h
    split at h
    · exact absurd h (by simp)
    · rename_i hn
      rw [cScaleWhileLT_exit _ _ _ _ _ _ hn]
      exact h
  | succ n ih =>
    intro c e r h
    unfold cScaleWhileLT at h
    split at h
    · rename_i hp
      have := ih _ _ r h
      unfold cScaleWhileLT
      rw [if_pos hp]
      exact this
    · rename_i hn
      rw [cScaleWhileLT_exit _ _ _ _ _ _ hn]
      exact h

theorem rScaleWhileGE_fuel (T F : ℚ) (D : Int) :
    ∀ (fuel : Nat) (d : ℚ) (e : Int) (r : ℚ × Int),
      rScaleWhileGE T F D fuel d e = some r → rScaleWhileGE T F D (fuel + 1) d e = some r := by
  intro fuel
  induction fuel with
  | zero =>
    intro d e r h
    unfold rScaleWhileGE at h
    split at h
    · exact absurd h (by simp)
    · rename_i hn
      rw [rScaleWhileGE_exit _ _ _ _ _ _ hn]
      exact h
  | succ n ih =>
    intro d e r h
    unfold rScaleWhileGE at h
    split at h
    · rename_i hp
      have := ih _ _ r h
      unfold rScaleWhileGE
      rw [if_pos hp]
      exact this
    · rename_i hn
      rw [rScaleWhileGE_exit _ _ _ _ _ _ hn]
      exact h

theorem rScaleWhileLT_fuel (T F : ℚ) (D : Int) :
    ∀ (fuel : Nat) (d : ℚ) (e : Int) (r : ℚ × Int),
      rScaleWhileLT T F D fuel d e = some r → rScaleWhileLT T F D (fuel + 1) d e = some r := by
  intro fuel
  induction fuel with
  | zero =>
    intro d e r h
    unfold rScaleWhileLT at h
    split at h
    · exact absurd h (by simp)
    · rename_i hn
      rw [rScaleWhileLT_exit _ _ _ _ _ _ hn]
      exact h
  | succ n ih =>
    intro d e r h
    unfold rScaleWhileLT at h
    split at h
    · rename_i hp
      have := ih _ _ r h
      unfold rScaleWhileLT
      rw [if_pos hp]
      exact this
    · rename_i hn
      rw [rScaleWhileLT_exit _ _ _ _ _ _ hn]
      exact h

theorem spDeterminant_KLU_total (klu : KluBackend) (Matrix : SMPmatrix) (piDeterminant : ℚ) :
    ∃ out, spDeterminant_KLU klu Matrix piDeterminant = some out := by
  by_cases hs : Matrix.status = KluStatus.KLU_SINGULAR
  · exact ⟨_, by simp only [spDeterminant_KLU, if_pos hs]; rfl⟩
  · by_cases hk : Matrix.CKTkluMatrixIsComplex = KluMatrixKind.CKTkluMatrixComplex
    · obtain ⟨r, hr, _⟩ := cDeterminantLoop_total klu.klu_z_extract_Udiag.Ux
        klu.klu_z_extract_Udiag.Uz klu.klu_z_extract_Udiag.Rs (Matrix.CKTkluN - 0) 0 ⟨1, 0⟩ 0
      obtain ⟨r2, hr2, _⟩ := cScaleFinal_total r.1 r.2
      exact ⟨_, by simp only [spDeterminant_KLU, if_neg hs, if_pos hk, hr, hr2]; rfl⟩
    · exact ⟨_, spDeterminant_KLU_real klu Matrix piDeterminant hs hk⟩

/-- C28: every rescaling loop of `spDeterminant_KLU` exits. The routine returns
on every input, and so do the loop over the diagonal and the rescaling after
each entry and at the end, in the complex and in the real case, whatever the
values; a zero running product passes each rescaling unchanged, its loops not
entered; and a loop that has exited within some number of iterations gives the
same result within any larger number. -/
theorem C28_rescaling_terminates :
    (∀ (klu : KluBackend) (Matrix : SMPmatrix) (piDeterminant : ℚ),
      ∃ out, spDeterminant_KLU klu Matrix piDeterminant = some out) ∧
    (∀ (Ux Uz Rs : List ℚ) (k I : Nat) (c : ComplexNumber) (e : Int),
      ∃ r, cDeterminantLoop Ux Uz Rs k I c e = some r) ∧
    (∀ (Ux Rs : List ℚ) (k I : Nat) (d : ℚ) (e : Int),
      ∃ r, rDeterminantLoop Ux Rs k I d e = some r) ∧
    (∀ (c : ComplexNumber) (e : Int),
      (∃ r, cScaleStep c e = some r) ∧ (∃ r, cScaleFinal c e = some r) ∧
      (NORM c = 0 → cScaleStep c e = some (c, e) ∧ cScaleFinal c e = some (c, e))) ∧
    (∀ (d : ℚ) (e : Int),
      (∃ r, rScaleStep d e = some r) ∧ (∃ r, rScaleFinal d e = some r) ∧
      (d = 0 → rScaleStep d e = some (d, e) ∧ rScaleFinal d e = some (d, e))) ∧
    (∀ (T F : ℚ) (D : Int) (fuel : Nat) (c : ComplexNumber) (e : Int) (r : ComplexNumber × Int),
      (cScaleWhileGE T F D fuel c e = some r → cScaleWhileGE T F D (fuel + 1) c e = some r) ∧
      (cScaleWhileLT T F D fuel c e = some r → cScaleWhileLT T F D (fuel + 1) c e = some r)) ∧
    (∀ (T F : ℚ) (D : Int) (fuel : Nat) (d : ℚ) (e : Int) (r : ℚ × Int),
      (rScaleWhileGE T F D fuel d e = some r → rScaleWhileGE T F D (fuel + 1) d e = some r) ∧
      (rScaleWhileLT T F D fuel d e = some r → rScaleWhileLT T F D (fuel + 1) d e = some r)) := by
  refine ⟨spDeterminant_KLU_total, ?_, ?_, ?_, ?_, ?_, ?_⟩
  · intro Ux Uz Rs k I c e
    obtain ⟨r, h, _⟩ := cDeterminantLoop_total Ux Uz Rs k I c e
    exact ⟨r, h⟩
  · intro Ux Rs k I d e
    obtain ⟨r, h, _⟩ := rDeterminantLoop_total Ux Rs k I d e
    exact ⟨r, h⟩
  · intro c e
    obtain ⟨r1, h1, z1, _⟩ := cScaleStep_total c e
    obtain ⟨r2, h2, z2, _⟩ := cScaleFinal_total c e
    refine ⟨⟨r1, h1⟩, ⟨r2, h2⟩, fun hz => ?_⟩
    rw [h1, h2, z1 hz, z2 hz]
    exact ⟨rfl, rfl⟩
  · intro d e
    obtain ⟨r1, h1, z1, _⟩ := rScaleStep_total d e
    obtain ⟨r2, h2, z2, _⟩ := rScaleFinal_total d e
    refine ⟨⟨r1, h1⟩, ⟨r2, h2⟩, fun hz => ?_⟩
    rw [h1, h2, z1 hz, z2 hz]
    exact ⟨rfl, rfl⟩
  · intro T F D fuel c e r
    exact ⟨cScaleWhileGE_fuel T F D fuel c e r, cScaleWhileLT_fuel T F D fuel c e r⟩
  · intro T F D fuel d e r
    exact ⟨rScaleWhileGE_fuel T F D fuel d e r, rScaleWhileLT_fuel T F D fuel d e r⟩

/-! ### Determinant: the value of the complex path -/

theorem toComplex_mult (a b : ComplexNumber) :
    (((CMPLX_MULT_ASSIGN a b).Real : ℚ) : ℂ) + (((CMPLX_MULT_ASSIGN a b).Imag : ℚ) : ℂ) * Complex.I
      = ((a.Real : ℂ) + (a.Imag : ℂ) * Complex.I) * ((b.Real : ℂ) + (b.Imag : ℂ) * Complex.I) := by
  simp only [CMPLX_MULT_ASSIGN]
  push_cast
  linear_combination (-(a.Imag : ℂ) * (b.Imag : ℂ)) * Complex.I_sq

theorem toComplex_reciprocal (d : ComplexNumber) :
    (((CMPLX_RECIPROCAL d).Real : ℚ) : ℂ) + (((CMPLX_RECIPROCAL d).Imag : ℚ) : ℂ) * Complex.I
      = ((d.Real : ℂ) + (d.Imag : ℂ) * Complex.I)⁻¹ := by
  by_cases h0 : d.Real * d.Real + d.Imag * d.Imag = 0
  · have hr : d.Real = 0 := by nlinarith [mul_self_nonneg d.Real, mul_self_nonneg d.Imag]
    have hi : d.Imag = 0 := by nlinarith [mul_self_nonneg d.Real, mul_self_nonneg d.Imag]
    simp [CMPLX_RECIPROCAL, hr, hi]
  · have hs : ((d.Real : ℂ) * (d.Real : ℂ) + (d.Imag : ℂ) * (d.Imag : ℂ)) ≠ 0 := by
      exact_mod_cast h0
    apply eq_inv_of_mul_eq_one_right
    simp only [CMPLX_RECIPROCAL]
    push_cast
    field_simp
    linear_combination (-(d.Imag : ℂ) * (d.Imag : ℂ)) * Complex.I_sq

theorem toComplex_negate (c : ComplexNumber) :
    (((CMPLX_NEGATE c).Real : ℚ) : ℂ) + (((CMPLX_NEGATE c).Imag : ℚ) : ℂ) * Complex.I
      = -((c.Real : ℂ) + (c.Imag : ℂ) * Complex.I) := by
  simp only [CMPLX_NEGATE]
  push_cast
  ring

theorem toComplex_scaled (a b a2 b2 : ℚ) (e e2 : Int)
    (h1 : a2 * (10 : ℚ) ^ e2 = a * (10 : ℚ) ^ e) (h2 : b2 * (10 : ℚ) ^ e2 = b * (10 : ℚ) ^ e) :
    ((a2 : ℂ) + (b2 : ℂ) * Complex.I) * (10 : ℂ) ^ e2
      = ((a : ℂ) + (b : ℂ) * Complex.I) * (10 : ℂ) ^ e := by
  have c1 := congrArg (fun q : ℚ => (q : ℂ)) h1
  have c2 := congrArg (fun q : ℚ => (q : ℂ)) h2
  simp only at c1 c2
  push_cast at c1 c2
  linear_combination c1 + Complex.I * c2

theorem cDeterminantLoop_value (Ux Uz Rs : List ℚ) :
    ∀ (k I : Nat) (c : ComplexNumber) (e : Int) (r : ComplexNumber × Int),
      cDeterminantLoop Ux Uz Rs k I c e = some r →
      ((r.1.Real : ℂ) + (r.1.Imag : ℂ) * Complex.I) * (10 : ℂ) ^ r.2
        = ((c.Real : ℂ) + (c.Imag : ℂ) * Complex.I) * (10 : ℂ) ^ e
          * Finset.prod (Finset.range k) (fun i =>
              (((1 / (Ux.getD (I + i) 0 * Rs.getD (I + i) 0) : ℚ) : ℂ)
                + ((Uz.getD (I + i) 0 * Rs.getD (I + i) 0 : ℚ) : ℂ) * Complex.I)⁻¹) := by
  intro k
  induction k with
  | zero =>
    intro I c e r h
    have : r = (c, e) := by
      have h2 : some (c, e) = some r := h
      exact (Option.some.inj h2).symm
    subst this
    simp
  | succ k ih =>
    intro I c e r h
    rw [cDeterminantLoop_succ] at h
    obtain ⟨r1, h1, _, _, _, v1, v2⟩ := cScaleStep_total (CMPLX_MULT_ASSIGN c (CMPLX_RECIPROCAL
      ⟨1 / (Ux.getD I 0 * Rs.getD I 0), Uz.getD I 0 * Rs.getD I 0⟩)) e
    rw [h1] at h
    have hih := ih (I + 1) r1.1 r1.2 r h
    have hs := toComplex_scaled _ _ _ _ _ _ v1 v2
    rw [toComplex_mult, toComplex_reciprocal] at hs
    rw [hih, hs, Finset.prod_range_succ']
    have hprod : Finset.prod (Finset.range k) (fun i =>
          (((1 / (Ux.getD (I + 1 + i) 0 * Rs.getD (I + 1 + i) 0) : ℚ) : ℂ)
            + ((Uz.getD (I + 1 + i) 0 * Rs.getD (I + 1 + i) 0 : ℚ) : ℂ) * Complex.I)⁻¹)
        = Finset.prod (Finset.range k) (fun i =>
          (((1 / (Ux.getD (I + (i + 1)) 0 * Rs.getD (I + (i + 1)) 0) : ℚ) : ℂ)
            + ((Uz.getD (I + (i + 1)) 0 * Rs.getD (I + (i + 1)) 0 : ℚ) : ℂ) * Complex.I)⁻¹) := by
      apply Finset.prod_congr rfl
      intro i _
      have : I + 1 + i = I + (i + 1) := by omega
      rw [this]
    rw [hprod]
    simp only [Nat.add_zero]
    ring

/-- C21: for a complex factorization whose status is not `KLU_SINGULAR`,
`spDeterminant_KLU` returns, and the pair it returns has the value of the
running product: in the complex numbers, `(re + i * im) * 10 ^ exponent` is
`(-1) ^ nSwap` times the product over `i < N` of the pivots, each the inverse of
`1 / (Ux [i] * Rs [i]) + i * (Uz [i] * Rs [i])` (exact arithmetic). -/
theorem C21_running_product_value (klu : KluBackend) (Matrix : SMPmatrix) (piDeterminant : ℚ)
    (hs : Matrix.status ≠ KluStatus.KLU_SINGULAR)
    (hk : Matrix.CKTkluMatrixIsComplex = KluMatrixKind.CKTkluMatrixComplex) :
    ∃ out, spDeterminant_KLU klu Matrix piDeterminant = some out ∧
      ((out.pDeterminant : ℂ) + (out.piDeterminant : ℂ) * Complex.I) * (10 : ℂ) ^ out.pExponent
        = (-1 : ℂ) ^ nSwap klu.klu_z_extract_Udiag.P klu.klu_z_extract_Udiag.Q Matrix.CKTkluN
          * Finset.prod (Finset.range Matrix.CKTkluN) (fun i =>
              (((1 / (klu.klu_z_extract_Udiag.Ux.getD i 0
                    * klu.klu_z_extract_Udiag.Rs.getD i 0) : ℚ) : ℂ)
                + ((klu.klu_z_extract_Udiag.Uz.getD i 0
                    * klu.klu_z_extract_Udiag.Rs.getD i 0 : ℚ) : ℂ) * Complex.I)⁻¹) := by
  obtain ⟨r, hr, _⟩ := cDeterminantLoop_total klu.klu_z_extract_Udiag.Ux
    klu.klu_z_extract_Udiag.Uz klu.klu_z_extract_Udiag.Rs (Matrix.CKTkluN - 0) 0 ⟨1, 0⟩ 0
  obtain ⟨r2, hr2, _, _, v1, v2⟩ := cScaleFinal_total r.1 r.2
  have hloop := cDeterminantLoop_value _ _ _ _ _ _ _ _ hr
  have hfin := toComplex_scaled _ _ _ _ _ _ v1 v2
  have hval : ((r2.1.Real : ℂ) + (r2.1.Imag : ℂ) * Complex.I) * (10 : ℂ) ^ r2.2
      = Finset.prod (Finset.range Matrix.CKTkluN) (fun i =>
          (((1 / (klu.klu_z_extract_Udiag.Ux.getD i 0
                * klu.klu_z_extract_Udiag.Rs.getD i 0) : ℚ) : ℂ)
            + ((klu.klu_z_extract_Udiag.Uz.getD i 0
                * klu.klu_z_extract_Udiag.Rs.getD i 0 : ℚ) : ℂ) * Complex.I)⁻¹) := by
    rw [hfin, hloop]
    simp
  refine ⟨_, by simp only [spDeterminant_KLU, if_neg hs, if_pos hk, hr, hr2]; rfl, ?_⟩
  simp only
  have hn : (countMismatch klu.klu_z_extract_Udiag.P Matrix.CKTkluN).1 / 2
      + (countMismatch klu.klu_z_extract_Udiag.Q Matrix.CKTkluN).1 / 2
      = nSwap klu.klu_z_extract_Udiag.P klu.klu_z_extract_Udiag.Q Matrix.CKTkluN := rfl
  rw [hn]
  rcases Nat.even_or_odd (nSwap klu.klu_z_extract_Udiag.P klu.klu_z_extract_Udiag.Q
    Matrix.CKTkluN) with he | ho
  · have h2 : ¬ (nSwap klu.klu_z_extract_Udiag.P klu.klu_z_extract_Udiag.Q Matrix.CKTkluN % 2
        ≠ 0) := by
      rw [Nat.even_iff] at he
      omega
    rw [if_neg h2, he.neg_one_pow, one_mul]
    exact hval
  · have h2 : nSwap klu.klu_z_extract_Udiag.P klu.klu_z_extract_Udiag.Q Matrix.CKTkluN % 2
        ≠ 0 := by
      rw [Nat.odd_iff] at ho
      omega
    rw [if_pos h2, ho.neg_one_pow, toComplex_negate, neg_mul, hval]
    ring

/-- Witness of C21: the complex factorization of dimension 1 with the pivot
`4 + i`. -/
theorem C21_running_product_value_witness :
    ∃ out, spDeterminant_KLU fourPlusI complexOne 0 = some out ∧
      ((out.pDeterminant : ℂ) + (out.piDeterminant : ℂ) * Complex.I) * (10 : ℂ) ^ out.pExponent
        = (-1 : ℂ) ^ nSwap fourPlusI.klu_z_extract_Udiag.P fourPlusI.klu_z_extract_Udiag.Q
            complexOne.CKTkluN
          * Finset.prod (Finset.range complexOne.CKTkluN) (fun i =>
              (((1 / (fourPlusI.klu_z_extract_Udiag.Ux.getD i 0
                    * fourPlusI.klu_z_extract_Udiag.Rs.getD i 0) : ℚ) : ℂ)
                + ((fourPlusI.klu_z_extract_Udiag.Uz.getD i 0
                    * fourPlusI.klu_z_extract_Udiag.Rs.getD i 0 : ℚ) : ℂ) * Complex.I)⁻¹) :=
  C21_running_product_value fourPlusI complexOne 0 (by decide) rfl

/-! ### Determinant: the two paths on real data -/

theorem spDeterminant_KLU_realHalf_complex (im : ℚ) :
    spDeterminant_KLU realHalf complexOne im
      = some { pExponent := -1, pDeterminant := 5, piDeterminant := 0,
               calls := [BackendCall.klu_z_extract_Udiag] } := by
  have hp : CMPLX_MULT_ASSIGN ⟨1, 0⟩ (CMPLX_RECIPROCAL
      ⟨1 / (realHalf.klu_z_extract_Udiag.Ux.getD 0 0 * realHalf.klu_z_extract_Udiag.Rs.getD 0 0),
        realHalf.klu_z_extract_Udiag.Uz.getD 0 0 * realHalf.klu_z_extract_Udiag.Rs.getD 0 0⟩)
      = ⟨1 / 2, 0⟩ := by
    norm_num [CMPLX_MULT_ASSIGN, CMPLX_RECIPROCAL, realHalf]
  have hstep : cScaleStep ⟨1 / 2, 0⟩ 0 = some (⟨1 / 2, 0⟩, 0) :=
    cScaleStep_id _ _ (by norm_num [NORM, ABS, MAX]) (by norm_num [NORM, ABS, MAX])
  have hfuel : floorNat (1 / NORM ⟨1 / 2, 0⟩) = 1 + 1 := by
    norm_num [floorNat, NORM, ABS, MAX]
  have hfin : cScaleFinal ⟨1 / 2, 0⟩ 0 = some (⟨5, 0⟩, -1) := by
    have h0 : NORM ⟨1 / 2, 0⟩ ≠ 0 := by norm_num [NORM, ABS, MAX]
    have h1 : ¬ NORM ⟨1 / 2, 0⟩ ≥ 10 := by norm_num [NORM, ABS, MAX]
    have h2 : NORM ⟨1 / 2, 0⟩ < 1 := by norm_num [NORM, ABS, MAX]
    have h3 : ¬ NORM ⟨1 / 2 * 10, 0 * 10⟩ < 1 := by norm_num [NORM, ABS, MAX]
    have hsucc : cScaleWhileLT 1 10 1 (1 + 1) ⟨1 / 2, 0⟩ 0
        = if NORM ⟨1 / 2, 0⟩ < 1 then cScaleWhileLT 1 10 1 1 ⟨1 / 2 * 10, 0 * 10⟩ (0 - 1)
          else some (⟨1 / 2, 0⟩, 0) := rfl
    simp only [cScaleFinal, if_pos h0, cScaleWhileGE_exit _ _ _ _ _ _ h1, hfuel, hsucc,
      if_pos h2, cScaleWhileLT_exit _ _ _ _ _ _ h3]
    norm_num
  have hloop : cDeterminantLoop realHalf.klu_z_extract_Udiag.Ux
      realHalf.klu_z_extract_Udiag.Uz realHalf.klu_z_extract_Udiag.Rs 1 0 ⟨1, 0⟩ 0
      = some (⟨1 / 2, 0⟩, 0) := by
    rw [cDeterminantLoop_succ, hp, hstep]
    rfl
  have hN : complexOne.CKTkluN - 0 = 1 := rfl
  simp only [spDeterminant_KLU, hN]
  rw [hloop]
  simp only [hfin]
  simp [countMismatch, realHalf, complexOne, List.range_succ]

theorem rDeterminantLoop_half : rDeterminantLoop [1 / 2] [1] 1 0 1 0 = some (2, 0) := by
  have hstep : rScaleStep 2 0 = some (2, 0) := by
    have h1 : ¬ ABS (2 : ℚ) ≥ 10 ^ 12 := by rw [ABS_eq_abs]; norm_num
    have h2 : ¬ ABS (2 : ℚ) < 1 / 10 ^ 12 := by rw [ABS_eq_abs]; norm_num
    simp only [rScaleStep, rScaleWhileGE_exit _ _ _ _ _ _ h1, rScaleWhileLT_exit _ _ _ _ _ _ h2]
    norm_num
  rw [rDeterminantLoop_succ]
  have hq : (1 : ℚ) / (([1 / 2] : List ℚ).getD 0 0 * ([1] : List ℚ).getD 0 0) = 2 := by
    norm_num
  rw [hq, hstep]
  rfl

/-- C24: on the same real data the two paths of `spDeterminant_KLU` differ. For
the factorization of dimension 1 with `Ux = [1/2]`, `Uz = [0]`, `Rs = [1]` and
no exchange the complex path returns `5 * 10 ^ (-1)` (the pivot is `Ux * Rs`),
the real path returns `1 * 10 ^ 0`: its loop over the diagonal starts with `I`
at `N`, and whatever the data of a real factorization that is not singular, it
returns exponent 0 and mantissa 1 or -1. The loop of the real case, had it
started at `I = 0`, gives `2 * 10 ^ 0` (it divides by `Ux * Rs`). -/
theorem C24_real_and_complex_paths_differ :
    spDeterminant_KLU realHalf complexOne 0
      = some { pExponent := -1, pDeterminant := 5, piDeterminant := 0,
               calls := [BackendCall.klu_z_extract_Udiag] } ∧
    spDeterminant_KLU realHalf { CKTkluN := 1 } 0
      = some { pExponent := 0, pDeterminant := 1, piDeterminant := 0,
               calls := [BackendCall.klu_extract_Udiag] } ∧
    rDeterminantLoop realHalf.klu_extract_Udiag.Ux realHalf.klu_extract_Udiag.Rs 1 0 1 0
      = some (2, 0) ∧
    (∀ (klu : KluBackend) (Matrix : SMPmatrix) (piDeterminant : ℚ),
      Matrix.status ≠ KluStatus.KLU_SINGULAR →
      Matrix.CKTkluMatrixIsComplex ≠ KluMatrixKind.CKTkluMatrixComplex →
      ∃ out, spDeterminant_KLU klu Matrix piDeterminant = some out ∧ out.pExponent = 0 ∧
        (out.pDeterminant = 1 ∨ out.pDeterminant = -1)) := by
  refine ⟨spDeterminant_KLU_realHalf_complex 0, ?_, rDeterminantLoop_half, ?_⟩
  · rw [spDeterminant_KLU_real realHalf { CKTkluN := 1 } 0 (by decide) (by decide)]
    simp [nSwap, countMismatch, realHalf, List.range_succ]
  · intro klu Matrix piDeterminant hs hk
    refine ⟨_, spDeterminant_KLU_real klu Matrix piDeterminant hs hk, rfl, ?_⟩
    simp only
    split
    · exact Or.inr rfl
    · exact Or.inl rfl

/-! ### Circuit setup -/

/-- C29: on a circuit that is set up (`CKTisSetup != 0`) and has no sensitivity
information, `CKTsetup` returns `E_NOCHANGE` without a call of `NIinit`, of a
device setup routine or of any other routine outside, and leaves the circuit as
it was but for `CKTnumStates`, which is 0. -/
theorem C29_CKTsetup_already_set_up (env : CktEnv) (ckt : CKTcircuit)
    (hset : ckt.CKTisSetup ≠ 0) (hsen : ckt.CKTsenInfo = false) :
    CKTsetup env ckt = ({ ckt with CKTnumStates := 0 }, env.E_NOCHANGE, []) := by
  have h1 : ¬ (env.WANT_SENSE2 = true ∧ ckt.CKTsenInfo = true) := by
    rw [hsen]
    simp
  simp only [CKTsetup, if_neg h1, ne_eq, not_true_eq_false, if_false, hset, not_false_eq_true,
    if_true]

/-- Witness of C29: the circuit that is set up, with a device table whose setup
routines would fail. -/
theorem C29_CKTsetup_already_set_up_witness :
    CKTsetup fourDevices circuitSetUp
      = ({ circuitSetUp with CKTnumStates := 0 }, fourDevices.E_NOCHANGE, []) :=
  C29_CKTsetup_already_set_up fourDevices circuitSetUp (by decide) rfl

theorem tfreeLoop_spec :
    ∀ (k i : Nat) (ckt : CKTcircuit) (calls : List CktCall),
      ∃ new, (tfreeLoop k i ckt calls).2 = calls ++ new ∧
        (∀ c ∈ new, unsetupIndex c = none ∧ unsetupCode c = none) ∧
        (tfreeLoop k i ckt calls).1.CKThead = ckt.CKThead ∧
        (tfreeLoop k i ckt calls).1.CKTisSetup = ckt.CKTisSetup := by
  intro k
  induction k with
  | zero => intro i ckt calls; exact ⟨[], by simp [tfreeLoop], by simp, rfl, rfl⟩
  | succ k ih =>
    intro i ckt calls
    obtain ⟨new, h1, h2, h3, h4⟩ :=
      ih (i + 1) { ckt with CKTstates := ckt.CKTstates.set i none } (calls ++ [CktCall.tfree i])
    refine ⟨CktCall.tfree i :: new, ?_, ?_, h3, h4⟩
    · unfold tfreeLoop
      rw [h1]
      simp
    · intro c hc
      rcases List.mem_cons.mp hc with h | h
      · rw [h]
        exact ⟨rfl, rfl⟩
      · exact h2 c h

theorem filterMap_none {α β : Type} (f : α → Option β) :
    ∀ (l : List α), (∀ c ∈ l, f c = none) → l.filterMap f = [] := by
  intro l
  induction l with
  | nil => intro _; rfl
  | cons x l ih =>
    intro h
    rw [List.filterMap_cons, h x (List.mem_cons_self _ _)]
    exact ih (fun c hc => h c (List.mem_cons_of_mem _ hc))

theorem hasUnsetup_none (env : CktEnv) (i : Nat) (h : env.DEVices.getD i none = none) :
    hasUnsetup env i = false := by
  unfold hasUnsetup
  rw [h]

theorem hasUnsetup_some (env : CktEnv) (i : Nat) (dev : SPICEdev)
    (h : env.DEVices.getD i none = some dev) :
    hasUnsetup env i = dev.DEVunsetup.isSome := by
  unfold hasUnsetup
  rw [h]

theorem unsetupLoop_succ (env : CktEnv) (k i : Nat) (ckt : CKTcircuit) (error : Int)
    (calls : List CktCall) :
    unsetupLoop env (k + 1) i ckt error calls =
      match env.DEVices.getD i none with
      | none => unsetupLoop env k (i + 1) ckt error calls
      | some dev =>
        match dev.DEVunsetup with
        | none => unsetupLoop env k (i + 1) ckt error calls
        | some DEVunsetup =>
          if ckt.CKThead.getD i false then
            unsetupLoop env k (i + 1) (DEVunsetup ckt).1
              (if error = 0 ∧ (DEVunsetup ckt).2 ≠ 0 then (DEVunsetup ckt).2 else error)
              (calls ++ [CktCall.DEVunsetup i (DEVunsetup ckt).2])
          else
            unsetupLoop env k (i + 1) ckt error calls := rfl

theorem unsetupLoop_spec (env : CktEnv)
    (hhead : ∀ (i : Nat) (dev : SPICEdev) (f : CKTcircuit → CKTcircuit × Int) (c : CKTcircuit),
      env.DEVices.getD i none = some dev → dev.DEVunsetup = some f →
      (f c).1.CKThead = c.CKThead) (head : List Bool) :
    ∀ (k i : Nat) (ckt : CKTcircuit) (error : Int) (calls : List CktCall),
      ckt.CKThead = head →
      ∃ new, (unsetupLoop env k i ckt error calls).2.2 = calls ++ new ∧
        new.filterMap unsetupIndex
          = (List.range' i k).filter (fun j => hasUnsetup env j && head.getD j false) ∧
        (unsetupLoop env k i ckt error calls).2.1
          = (if error ≠ 0 then error
             else ((new.filterMap unsetupCode).find? (fun e => decide (e ≠ 0))).getD 0) ∧
        (unsetupLoop env k i ckt error calls).1.CKThead = head := by
  intro k
  induction k with
  | zero =>
    intro i ckt error calls hh
    refine ⟨[], by simp [unsetupLoop], rfl, ?_, hh⟩
    unfold unsetupLoop
    by_cases he : error = 0
    · simp [he]
    · simp [he]
  | succ k ih =>
    intro i ckt error calls hh
    rw [List.range'_succ]
    have skip : (hasUnsetup env i && head.getD i false) = false →
        unsetupLoop env (k + 1) i ckt error calls = unsetupLoop env k (i + 1) ckt error calls →
        ∃ new, (unsetupLoop env (k + 1) i ckt error calls).2.2 = calls ++ new ∧
          new.filterMap unsetupIndex
            = (i :: List.range' (i + 1) k).filter
                (fun j => hasUnsetup env j && head.getD j false) ∧
          (unsetupLoop env (k + 1) i ckt error calls).2.1
            = (if error ≠ 0 then error
               else ((new.filterMap unsetupCode).find? (fun e => decide (e ≠ 0))).getD 0) ∧
          (unsetupLoop env (k + 1) i ckt error calls).1.CKThead = head := by
      intro hP hstep
      obtain ⟨new, h1, h2, h3, h4⟩ := ih (i + 1) ckt error calls hh
      rw [hstep]
      refine ⟨new, h1, ?_, h3, h4⟩
      rw [List.filter_cons_of_neg (by rw [hP]; simp)]
      exact h2
    cases hd : env.DEVices.getD i none with
    | none =>
      apply skip
      · rw [hasUnsetup_none env i hd]
        rfl
      · rw [unsetupLoop_succ]
        simp only [hd]
    | some dev =>
      cases hu : dev.DEVunsetup with
      | none =>
        apply skip
        · rw [hasUnsetup_some env i dev hd, hu]
          rfl
        · rw [unsetupLoop_succ]
          simp only [hd, hu]
      | some f =>
        by_cases hi : ckt.CKThead.getD i false = true
        · have hP : (hasUnsetup env i && head.getD i false) = true := by
            rw [hasUnsetup_some env i dev hd, hu, ← hh, hi]
            rfl
          have hstep : unsetupLoop env (k + 1) i ckt error calls
              = unsetupLoop env k (i + 1) (f ckt).1
                  (if error = 0 ∧ (f ckt).2 ≠ 0 then (f ckt).2 else error)
                  (calls ++ [CktCall.DEVunsetup i (f ckt).2]) := by
            rw [unsetupLoop_succ]
            simp only [hd, hu, hi, if_true]
          obtain ⟨new, h1, h2, h3, h4⟩ := ih (i + 1) (f ckt).1
            (if error = 0 ∧ (f ckt).2 ≠ 0 then (f ckt).2 else error)
            (calls ++ [CktCall.DEVunsetup i (f ckt).2])
            (by rw [hhead i dev f ckt hd hu]; exact hh)
          rw [hstep]
          refine ⟨CktCall.DEVunsetup i (f ckt).2 :: new, ?_, ?_, ?_, h4⟩
          · rw [h1]
            simp
          · rw [List.filter_cons_of_pos (by rw [hP]), List.filterMap_cons]
            simp only [unsetupIndex]
            rw [h2]
          · rw [h3, List.filterMap_cons]
            simp only [unsetupCode]
            by_cases he : error = 0
            · by_cases h2e : (f ckt).2 = 0
              · simp [he, h2e, List.find?_cons]
              · simp [he, h2e, List.find?_cons]
            · simp [he]
        · have hi2 : ckt.CKThead.getD i false = false := (Bool.not_eq_true _).mp hi
          apply skip
          · rw [← hh, hi2]
            exact Bool.and_false _
          · rw [unsetupLoop_succ]
            simp only [hd, hu, hi2]
            rfl

/-- C30: `CKTunsetup` returns `OK` and leaves the circuit as it was, without a
call, when `CKTisSetup` is 0. Otherwise (the unsetup routines leaving the lists
of instances in place and `NIdestroy` leaving `CKTisSetup` alone) it calls, in
order, the unsetup routine of every device type `i < DEVmaxnum` that has one
and has instances, whatever the earlier ones returned, leaves `CKTisSetup` at
0, and returns the first nonzero code that one of these calls returned, `OK`
if there is none. -/
theorem C30_CKTunsetup_all_devices (env : CktEnv) (ckt : CKTcircuit)
    (hhead : ∀ (i : Nat) (dev : SPICEdev) (f : CKTcircuit → CKTcircuit × Int) (c : CKTcircuit),
      env.DEVices.getD i none = some dev → dev.DEVunsetup = some f →
      (f c).1.CKThead = c.CKThead)
    (hNI : ∀ c : CKTcircuit, (env.NIdestroy c).CKTisSetup = c.CKTisSetup) :
    (ckt.CKTisSetup = 0 → CKTunsetup env ckt = (ckt, OK, [])) ∧
    (ckt.CKTisSetup ≠ 0 →
      (CKTunsetup env ckt).1.CKTisSetup = 0 ∧
      (CKTunsetup env ckt).2.2.filterMap unsetupIndex
        = (List.range env.DEVmaxnum).filter
            (fun i => hasUnsetup env i && ckt.CKThead.getD i false) ∧
      (CKTunsetup env ckt).2.1
        = (((CKTunsetup env ckt).2.2.filterMap unsetupCode).find?
            (fun e => decide (e ≠ 0))).getD OK) := by
  constructor
  · intro h0
    simp only [CKTunsetup, h0, if_true]
  · intro hset
    obtain ⟨tf, t1, t2, t3, _⟩ := tfreeLoop_spec (ckt.CKTmaxOrder + 1 + 1).toNat 0 ckt []
    obtain ⟨new, u1, u2, u3, _⟩ := unsetupLoop_spec env hhead ckt.CKThead env.DEVmaxnum 0
      (nodesLoop (tfreeLoop (ckt.CKTmaxOrder + 1 + 1).toNat 0 ckt []).1)
      OK (tfreeLoop (ckt.CKTmaxOrder + 1 + 1).toNat 0 ckt []).2 t3
    have hOK : ¬ (OK ≠ 0) := by decide
    rw [if_neg hOK] at u3
    have htf1 : tf.filterMap unsetupIndex = [] := filterMap_none _ _ (fun c hc => (t2 c hc).1)
    have htf2 : tf.filterMap unsetupCode = [] := filterMap_none _ _ (fun c hc => (t2 c hc).2)
    rw [← List.range_eq_range'] at u2
    have hC : CKTunsetup env ckt
        = if (unsetupLoop env env.DEVmaxnum 0
              (nodesLoop (tfreeLoop (ckt.CKTmaxOrder + 1 + 1).toNat 0 ckt []).1)
              OK (tfreeLoop (ckt.CKTmaxOrder + 1 + 1).toNat 0 ckt []).2).2.1 ≠ 0 then
            ({ (unsetupLoop env env.DEVmaxnum 0
                (nodesLoop (tfreeLoop (ckt.CKTmaxOrder + 1 + 1).toNat 0 ckt []).1)
                OK (tfreeLoop (ckt.CKTmaxOrder + 1 + 1).toNat 0 ckt []).2).1 with
                CKTisSetup := 0 },
              (unsetupLoop env env.DEVmaxnum 0
                (nodesLoop (tfreeLoop (ckt.CKTmaxOrder + 1 + 1).toNat 0 ckt []).1)
                OK (tfreeLoop (ckt.CKTmaxOrder + 1 + 1).toNat 0 ckt []).2).2.1,
              (unsetupLoop env env.DEVmaxnum 0
                (nodesLoop (tfreeLoop (ckt.CKTmaxOrder + 1 + 1).toNat 0 ckt []).1)
                OK (tfreeLoop (ckt.CKTmaxOrder + 1 + 1).toNat 0 ckt []).2).2.2)
          else
            (env.NIdestroy
              { (unsetupLoop env env.DEVmaxnum 0
                (nodesLoop (tfreeLoop (ckt.CKTmaxOrder + 1 + 1).toNat 0 ckt []).1)
                OK (tfreeLoop (ckt.CKTmaxOrder + 1 + 1).toNat 0 ckt []).2).1 with
                CKTisSetup := 0 },
              OK,
              (unsetupLoop env env.DEVmaxnum 0
                (nodesLoop (tfreeLoop (ckt.CKTmaxOrder + 1 + 1).toNat 0 ckt []).1)
                OK (tfreeLoop (ckt.CKTmaxOrder + 1 + 1).toNat 0 ckt []).2).2.2
                ++ [CktCall.NIdestroy]) := by
      unfold CKTunsetup
      rw [if_neg hset]
    rw [hC]
    generalize unsetupLoop env env.DEVmaxnum 0
      (nodesLoop (tfreeLoop (ckt.CKTmaxOrder + 1 + 1).toNat 0 ckt []).1)
      OK (tfreeLoop (ckt.CKTmaxOrder + 1 + 1).toNat 0 ckt []).2 = U at u1 u3 ⊢
    rw [t1, List.nil_append] at u1
    by_cases herr : U.2.1 ≠ 0
    · rw [if_pos herr]
      refine ⟨rfl, ?_, ?_⟩
      · show U.2.2.filterMap unsetupIndex = _
        rw [u1, List.filterMap_append, htf1, List.nil_append, u2]
      · show U.2.1 = ((U.2.2.filterMap unsetupCode).find? (fun e => decide (e ≠ 0))).getD OK
        rw [u1, List.filterMap_append, htf2, List.nil_append, u3]
        rfl
    · rw [if_neg herr]
      have h0 : U.2.1 = 0 := by simpa using herr
      refine ⟨?_, ?_, ?_⟩
      · show (env.NIdestroy { U.1 with CKTisSetup := 0 }).CKTisSetup = 0
        rw [hNI]
      · show (U.2.2 ++ [CktCall.NIdestroy]).filterMap unsetupIndex = _
        rw [u1, List.filterMap_append, List.filterMap_append, htf1, List.nil_append, u2]
        exact List.append_nil _
      · show OK = (((U.2.2 ++ [CktCall.NIdestroy]).filterMap unsetupCode).find?
          (fun e => decide (e ≠ 0))).getD OK
        rw [u1, List.filterMap_append, List.filterMap_append, htf2, List.nil_append]
        have : [CktCall.NIdestroy].filterMap unsetupCode = [] := rfl
        rw [this, List.append_nil]
        have h3 := u3
        rw [h0] at h3
        exact h3

theorem fourDevices_heads (i : Nat) (dev : SPICEdev) (f : CKTcircuit → CKTcircuit × Int)
    (c : CKTcircuit) (hd : fourDevices.DEVices.getD i none = some dev)
    (hu : dev.DEVunsetup = some f) : (f c).1.CKThead = c.CKThead := by
  rcases i with _ | _ | _ | _ | i
  · have e : dev = countingDevice 7 := (Option.some.inj hd).symm
    subst e
    have e2 : f = fun ckt => ({ ckt with rest := ckt.rest + 1 }, 7) := (Option.some.inj hu).symm
    subst e2
    rfl
  · have e : dev = {} := (Option.some.inj hd).symm
    subst e
    exact absurd hu (by simp)
  · have e : dev = countingDevice 9 := (Option.some.inj hd).symm
    subst e
    have e2 : f = fun ckt => ({ ckt with rest := ckt.rest + 1 }, 9) := (Option.some.inj hu).symm
    subst e2
    rfl
  · have e : dev = countingDevice 0 := (Option.some.inj hd).symm
    subst e
    have e2 : f = fun ckt => ({ ckt with rest := ckt.rest + 1 }, 0) := (Option.some.inj hu).symm
    subst e2
    rfl
  · exact absurd hd (by simp [fourDevices])

/-- Witness of C30: the circuit that is set up, with the table of four device
types: the types 2 and 3 are called, the first of them fails with 9, which is
returned. -/
theorem C30_CKTunsetup_all_devices_witness :
    CKTunsetup fourDevices circuitSetUp
      = ({ circuitSetUp with
            CKTisSetup := 0
            CKTstates := [none, none, none, some 3]
            CKTnodes := [{ icGiven := true, ptr := none }, { ptr := some 2 }]
            rest := 2 }, 9,
          [CktCall.tfree 0, CktCall.tfree 1, CktCall.tfree 2, CktCall.DEVunsetup 2 9,
            CktCall.DEVunsetup 3 0]) ∧
    (CKTunsetup fourDevices circuitSetUp).1.CKTisSetup = 0 ∧
    (CKTunsetup fourDevices circuitSetUp).2.2.filterMap unsetupIndex
      = (List.range fourDevices.DEVmaxnum).filter
          (fun i => hasUnsetup fourDevices i && circuitSetUp.CKThead.getD i false) ∧
    (CKTunsetup fourDevices circuitSetUp).2.1
      = (((CKTunsetup fourDevices circuitSetUp).2.2.filterMap unsetupCode).find?
          (fun e => decide (e ≠ 0))).getD OK :=
  ⟨by decide,
   (C30_CKTunsetup_all_devices fourDevices circuitSetUp fourDevices_heads (fun _ => rfl)).2
    (by decide)⟩

end KluSmp
